import Mathlib

/-!
# Reactor (io-service) and send/receive engine of `chats`

Shallow embedding of `src/io-service/io-service.c` and of the asynchronous
part of `src/network/network.c`.

* Pointers are natural numbers, `0` being `NULL`; job function pointers are
  an enumeration with an explicit `NULL`.
* `event.events` is a `uint32_t`: a natural number, with the width made
  explicit in `|=` and `&= ~`.
* Every public operation of the reactor runs under `object_mutex`, so each is
  one atomic state transformer.  The body of `io_service_run` is cut at the
  points where it releases the mutex (the wait and the job invocation).
* The kernel is the environment: what `epoll_wait` returns is an input.
-/

namespace Chats

/-! ## Data model (io-service.c, lines 16-46) -/

/-- Intent direction.  Modelled from the spec: `io-service.h` is not among the
sources; the spec gives the enumeration READ then WRITE, `IO_SVC_OP_COUNT = 2`. -/
inductive io_svc_op_t
  | IO_SVC_OP_READ
  | IO_SVC_OP_WRITE
  deriving DecidableEq, Repr, Fintype

/-- Job function pointer (`iosvc_job_function_t`).  The three engine callbacks of
network.c are distinct non-null addresses; `user n` stands for any other function. -/
inductive iosvc_job_function_t
  | NULL
  | tcp_send_recv_async_tpl
  | udp_send_async_tpl
  | udp_recv_async_tpl
  | user (id : Nat)
  deriving DecidableEq, Repr

/-- The C struct `job_t`. -/
structure job_t where
  job : iosvc_job_function_t
  ctx : Nat
  oneshot : Bool
  deriving DecidableEq, Repr

/-- The two fields of `struct epoll_event` the reactor uses. -/
structure epoll_event where
  events : Nat
  data_fd : Int
  deriving DecidableEq, Repr

/-- The C struct `lookup_table_element_t`; `job[IO_SVC_OP_COUNT]` is the pair of slots. -/
structure lookup_table_element_t where
  fd : Int
  event : epoll_event
  job_read : job_t
  job_write : job_t
  deriving DecidableEq, Repr

/-- Array read `lte->job[op]`. -/
def lookup_table_element_t.job (lte : lookup_table_element_t) : io_svc_op_t → job_t
  | .IO_SVC_OP_READ => lte.job_read
  | .IO_SVC_OP_WRITE => lte.job_write

/-- Array write `lte->job[op] = j`. -/
def lookup_table_element_t.set_job (lte : lookup_table_element_t) (op : io_svc_op_t)
    (j : job_t) : lookup_table_element_t :=
  match op with
  | .IO_SVC_OP_READ => { lte with job_read := j }
  | .IO_SVC_OP_WRITE => { lte with job_write := j }

/-- The C struct `io_service`.  `event_fd_count` is the kernel counter behind
`event_fd` (an eventfd in semaphore mode); the mutex is the atomicity of the
operations below. -/
structure io_service where
  allow_new : Bool
  running : Bool
  event_fd : Int
  lookup_table : List lookup_table_element_t
  epoll_fd : Int
  event_fd_count : Nat
  deriving DecidableEq, Repr

/-- Linux value of `EPOLLIN`. -/
def EPOLLIN : Nat := 1

/-- Linux value of `EPOLLOUT`. -/
def EPOLLOUT : Nat := 4

/-- The table `OP_FLAGS`. -/
def OP_FLAGS : io_svc_op_t → Nat
  | .IO_SVC_OP_READ => EPOLLIN
  | .IO_SVC_OP_WRITE => EPOLLOUT

/-- Largest `uint32_t`. -/
def UINT32_MAX : Nat := 4294967295

/-- The statement `events |= flag` on a `uint32_t`. -/
def events_or (events flag : Nat) : Nat := (events ||| flag) % 2 ^ 32

/-- The statement `events &= ~flag` on a `uint32_t`. -/
def events_clear (events flag : Nat) : Nat := events &&& (UINT32_MAX ^^^ flag)

/-! ## List container

Modelled from the spec: the list container (`list_init`, `list_append`,
`list_first_element`, `list_next_element`, `list_remove_next`,
`list_remove_element`, `list_size`) is not among the sources.  The spec gives
an ordered container with append, first, next, remove-current-returning-next
and size; it is a Lean list, and each loop of the source over it is one of the
recursive functions below. -/

/-- The loop `for (lte = first; lte; lte = next) if (lte->fd == fd) break;`. -/
def list_find_fd (fd : Int) : List lookup_table_element_t → Option lookup_table_element_t
  | [] => none
  | lte :: rest => if lte.fd = fd then some lte else list_find_fd fd rest

/-- In-place update, through the pointer, of the first element satisfying `p`. -/
def list_update_first (p : lookup_table_element_t → Bool)
    (f : lookup_table_element_t → lookup_table_element_t) :
    List lookup_table_element_t → List lookup_table_element_t
  | [] => []
  | lte :: rest => if p lte then f lte :: rest else lte :: list_update_first p f rest

/-- The first element satisfying `p`, as reached by a loop that breaks on it. -/
def list_first (p : lookup_table_element_t → Bool) :
    List lookup_table_element_t → Option lookup_table_element_t
  | [] => none
  | lte :: rest => if p lte then some lte else list_first p rest

/-- The call `list_remove_element(table, lte)` for the first element with this fd. -/
def list_remove_fd (fd : Int) : List lookup_table_element_t → List lookup_table_element_t
  | [] => []
  | lte :: rest => if lte.fd = fd then rest else lte :: list_remove_fd fd rest

/-! ## Reactor operations -/

/-- The function `notify_svc`: `eventfd_write(fd, 1)`. -/
def notify_svc (iosvc : io_service) : io_service :=
  { iosvc with event_fd_count := iosvc.event_fd_count + 1 }

/-- The function `svc_notified`: `eventfd_read` in semaphore mode takes one token. -/
def svc_notified (iosvc : io_service) : io_service :=
  { iosvc with event_fd_count := iosvc.event_fd_count - 1 }

/-- The function `io_service_init`.  The arguments are what the kernel answers:
`r` from `pthread_mutex_init`, the descriptors from `eventfd` and
`epoll_create1`, `ctl` from the `epoll_ctl` that registers the eventfd. -/
def io_service_init (r event_fd epoll_fd ctl : Int) : Option io_service :=
  if r ≠ 0 then none
  else if event_fd < 0 then none
  else if epoll_fd < 0 then none
  else if ctl ≠ 0 then none
  else some
    { allow_new := true
      running := false
      event_fd := event_fd
      lookup_table := []
      epoll_fd := epoll_fd
      event_fd_count := 0 }

/-- The function `io_service_stop`. -/
def io_service_stop (iosvc : io_service) (wait_pending : Bool) : io_service :=
  notify_svc { iosvc with allow_new := false, running := wait_pending }

/-- A slot after `memset(lte->job, 0, sizeof(lte->job))`. -/
def job_zero : job_t := { job := .NULL, ctx := 0, oneshot := false }

/-- The element `list_append` returns, after lines 144-146. -/
def lte_new (fd : Int) : lookup_table_element_t :=
  { fd := fd, event := { events := 0, data_fd := fd }, job_read := job_zero, job_write := job_zero }

/-- Lines 150-153: set the direction bit and fill the slot. -/
def lte_fill (op : io_svc_op_t) (oneshot : Bool) (job : iosvc_job_function_t) (ctx : Nat)
    (lte : lookup_table_element_t) : lookup_table_element_t :=
  ({ lte with event := { lte.event with events := events_or lte.event.events (OP_FLAGS op) } }).set_job
    op { job := job, ctx := ctx, oneshot := oneshot }

/-- Lines 133-147 of `io_service_post_job`: the table once the element for `fd`
has been looked up and, when there is none, appended and zeroed. -/
def post_lookup (table : List lookup_table_element_t) (fd : Int) : List lookup_table_element_t :=
  match list_find_fd fd table with
  | some _ => table
  | none => table ++ [lte_new fd]

/-- The function `io_service_post_job`. -/
def io_service_post_job (iosvc : io_service) (fd : Int) (op : io_svc_op_t) (oneshot : Bool)
    (job : iosvc_job_function_t) (ctx : Nat) : io_service :=
  if iosvc.allow_new = true ∧ job ≠ .NULL then
    let table := post_lookup iosvc.lookup_table fd
    match list_find_fd fd table with
    | none => { iosvc with lookup_table := table }
    | some lte =>
      if (lte.job op).job = .NULL then
        let iosvc1 :=
          { iosvc with
            lookup_table :=
              list_update_first (fun l => decide (l.fd = fd)) (lte_fill op oneshot job ctx) table }
        if iosvc.running = true then notify_svc iosvc1 else iosvc1
      else { iosvc with lookup_table := table }
  else iosvc

/-- Lines 267-269 (and 235-236): empty the slot and clear the direction bit.
The `oneshot` field of the slot is left as it was. -/
def lte_clear (op : io_svc_op_t) (lte : lookup_table_element_t) : lookup_table_element_t :=
  ({ lte with event := { lte.event with events := events_clear lte.event.events (OP_FLAGS op) } }).set_job
    op { job := .NULL, ctx := 0, oneshot := (lte.job op).oneshot }

/-- The test of lines 265-266. -/
def remove_match (fd : Int) (op : io_svc_op_t) (job : iosvc_job_function_t) (ctx : Nat)
    (lte : lookup_table_element_t) : Bool :=
  decide (lte.fd = fd) && (decide ((lte.job op).job = job) && decide ((lte.job op).ctx = ctx))

/-- The function `io_service_remove_job`.  The loop goes on past an element with
this fd whose slot does not match, and stops at the first one that matches. -/
def io_service_remove_job (iosvc : io_service) (fd : Int) (op : io_svc_op_t)
    (job : iosvc_job_function_t) (ctx : Nat) : io_service :=
  let done := (list_first (remove_match fd op job ctx) iosvc.lookup_table).isSome
  let iosvc1 :=
    { iosvc with
      lookup_table := list_update_first (remove_match fd op job ctx) (lte_clear op) iosvc.lookup_table }
  if done = true ∧ iosvc.running = true then notify_svc iosvc1 else iosvc1

/-! ## The body of `io_service_run` -/

/-- Lines 175-182: subscribe every element (kernel state only), `running = true`. -/
def io_service_run_enter (iosvc : io_service) : io_service :=
  { iosvc with running := true }

/-- The walk of lines 199-211: an element whose mask is zero is unsubscribed and
removed, any other is kept (its subscription is refreshed in the kernel). -/
def run_sweep : List lookup_table_element_t → List lookup_table_element_t
  | [] => []
  | lte :: rest => if lte.event.events = 0 then run_sweep rest else lte :: run_sweep rest

/-- Lines 193-214: the event is the notification channel. -/
def io_service_run_notified (iosvc : io_service) : io_service :=
  let iosvc1 := svc_notified iosvc
  let iosvc2 :=
    if iosvc1.lookup_table.length = 0 ∧ iosvc1.allow_new = false then
      { iosvc1 with running := false }
    else iosvc1
  { iosvc2 with lookup_table := run_sweep iosvc2.lookup_table }

/-- A job together with the slot it sits in.  As an element of the log of
invocations it is one call `(*job)(fd, op, ctx)` made by the loop, `oneshot`
being the flag of the slot the job was taken from. -/
structure slot_job where
  job : iosvc_job_function_t
  fd : Int
  op : io_svc_op_t
  ctx : Nat
  oneshot : Bool
  deriving DecidableEq, Repr

/-- Lines 217-243 for one direction `op`, up to the release of the mutex: the new
state and the job about to be invoked, if any. -/
def io_service_run_dispatch (iosvc : io_service) (fd : Int) (events : Nat) (op : io_svc_op_t) :
    io_service × Option slot_job :=
  if events &&& OP_FLAGS op = 0 then (iosvc, none)
  else
    match list_find_fd fd iosvc.lookup_table with
    | none => (iosvc, none)
    | some lte =>
      if (lte.job op).job = .NULL then (iosvc, none)
      else
        let inv : slot_job :=
          { job := (lte.job op).job, fd := fd, op := op, ctx := (lte.job op).ctx,
            oneshot := (lte.job op).oneshot }
        if (lte.job op).oneshot = true then
          if (lte_clear op lte).event.events = 0 then
            ({ iosvc with lookup_table := list_remove_fd fd iosvc.lookup_table }, some inv)
          else
            ({ iosvc with
               lookup_table :=
                 list_update_first (fun l => decide (l.fd = fd)) (lte_clear op) iosvc.lookup_table },
             some inv)
        else (iosvc, some inv)

/-! ## Control of the loop of `io_service_run`

The thread in `io_service_run` holds the mutex except in `epoll_wait` and
while a job runs.  Between two such points the code is one atomic step. -/

/-- Where the thread that called `io_service_run` stands. -/
inductive run_pc
  | idle
  | waiting
  | in_job (fd : Int) (events : Nat) (rest : List io_svc_op_t)
  | returned
  deriving DecidableEq, Repr

/-- The test `while (*running)` of line 184, made with the mutex held. -/
def run_loop_head (iosvc : io_service) : run_pc :=
  if iosvc.running = true then .waiting else .returned

/-- The loop `for (op = 0; op < IO_SVC_OP_COUNT; ++op)` of lines 216-248 over the
directions still to do; it is left when a job is invoked (mutex released), and
falls back to the loop head when no direction remains. -/
def run_dispatch_ops (iosvc : io_service) (fd : Int) (events : Nat) :
    List io_svc_op_t → io_service × run_pc × List slot_job
  | [] => (iosvc, run_loop_head iosvc, [])
  | op :: rest =>
    match io_service_run_dispatch iosvc fd events op with
    | (iosvc1, some inv) => (iosvc1, .in_job fd events rest, [inv])
    | (iosvc1, none) => run_dispatch_ops iosvc1 fd events rest

/-- The reactor together with the position of the loop and three logs kept for
the statements only: the jobs invoked, the posts that filled a slot, and the
slots emptied by `io_service_remove_job`. -/
structure reactor where
  iosvc : io_service
  pc : run_pc
  invoked : List slot_job
  filled : List slot_job
  removed : List slot_job
  deriving DecidableEq, Repr

/-- What can happen next: a call of the public interface from any thread or from
a running job, the call of `io_service_run`, an answer of `epoll_wait`, or the
return of the running job. -/
inductive action
  | post (fd : Int) (op : io_svc_op_t) (oneshot : Bool) (job : iosvc_job_function_t) (ctx : Nat)
  | remove (fd : Int) (op : io_svc_op_t) (job : iosvc_job_function_t) (ctx : Nat)
  | stop (wait_pending : Bool)
  | run
  | wait_failed
  | wake (fd : Int) (events : Nat)
  | job_returns
  deriving DecidableEq, Repr

/-- The slot `(fd, op)` is empty: no element for `fd`, or a null job in it. -/
def slot_empty (table : List lookup_table_element_t) (fd : Int) (op : io_svc_op_t) : Bool :=
  match list_find_fd fd table with
  | none => true
  | some lte => decide ((lte.job op).job = .NULL)

/-- Log entry of a post: the job, when the post fills the slot. -/
def post_fills (iosvc : io_service) (fd : Int) (op : io_svc_op_t) (oneshot : Bool)
    (job : iosvc_job_function_t) (ctx : Nat) : List slot_job :=
  if iosvc.allow_new = true ∧ job ≠ .NULL ∧ slot_empty iosvc.lookup_table fd op = true then
    [{ job := job, fd := fd, op := op, ctx := ctx, oneshot := oneshot }]
  else []

/-- Log entry of a remove: the job taken out, when an element matches. -/
def remove_clears (iosvc : io_service) (fd : Int) (op : io_svc_op_t)
    (job : iosvc_job_function_t) (ctx : Nat) : List slot_job :=
  match list_first (remove_match fd op job ctx) iosvc.lookup_table with
  | some lte => [{ job := job, fd := fd, op := op, ctx := ctx, oneshot := (lte.job op).oneshot }]
  | none => []

/-- All directions, in the order of the loop of line 216. -/
def all_ops : List io_svc_op_t := [.IO_SVC_OP_READ, .IO_SVC_OP_WRITE]

/-- One atomic step; `none` when the action cannot happen in this state (the
loop is not at that point, or the notification channel is reported readable
while its counter is zero). -/
def step (sys : reactor) : action → Option reactor
  | .post fd op oneshot job ctx =>
    some { sys with
      iosvc := io_service_post_job sys.iosvc fd op oneshot job ctx
      filled := sys.filled ++ post_fills sys.iosvc fd op oneshot job ctx }
  | .remove fd op job ctx =>
    some { sys with
      iosvc := io_service_remove_job sys.iosvc fd op job ctx
      removed := sys.removed ++ remove_clears sys.iosvc fd op job ctx }
  | .stop wait_pending => some { sys with iosvc := io_service_stop sys.iosvc wait_pending }
  | .run =>
    match sys.pc with
    | .idle | .returned =>
      some { sys with
        iosvc := io_service_run_enter sys.iosvc
        pc := run_loop_head (io_service_run_enter sys.iosvc) }
    | _ => none
  | .wait_failed =>
    match sys.pc with
    | .waiting => some { sys with pc := run_loop_head sys.iosvc }
    | _ => none
  | .wake fd events =>
    match sys.pc with
    | .waiting =>
      if fd = sys.iosvc.event_fd then
        if sys.iosvc.event_fd_count = 0 then none
        else
          some { sys with
            iosvc := io_service_run_notified sys.iosvc
            pc := run_loop_head (io_service_run_notified sys.iosvc) }
      else
        some { sys with
          iosvc := (run_dispatch_ops sys.iosvc fd events all_ops).1
          pc := (run_dispatch_ops sys.iosvc fd events all_ops).2.1
          invoked := sys.invoked ++ (run_dispatch_ops sys.iosvc fd events all_ops).2.2 }
    | _ => none
  | .job_returns =>
    match sys.pc with
    | .in_job fd events rest =>
      some { sys with
        iosvc := (run_dispatch_ops sys.iosvc fd events rest).1
        pc := (run_dispatch_ops sys.iosvc fd events rest).2.1
        invoked := sys.invoked ++ (run_dispatch_ops sys.iosvc fd events rest).2.2 }
    | _ => none

/-- A run of the system: the actions in order, `none` as soon as one cannot happen. -/
def exec (sys : reactor) : List action → Option reactor
  | [] => some sys
  | a :: rest =>
    match step sys a with
    | none => none
    | some sys1 => exec sys1 rest

/-- The system right after a successful `io_service_init`. -/
def reactor_init (iosvc : io_service) : reactor :=
  { iosvc := iosvc, pc := .idle, invoked := [], filled := [], removed := [] }

/-! ## Well-formedness of the table -/

/-- No two elements have the same fd. -/
def fd_unique (table : List lookup_table_element_t) : Prop :=
  (table.map (fun lte => lte.fd)).Nodup

/-- The direction bit is set exactly when the slot holds a job. -/
def mask_ok (lte : lookup_table_element_t) : Prop :=
  ∀ op : io_svc_op_t, lte.event.events &&& OP_FLAGS op ≠ 0 ↔ (lte.job op).job ≠ .NULL

/-- The invariant of the table: unique fds, masks in step with the slots, masks
within 32 bits. -/
def table_inv (table : List lookup_table_element_t) : Prop :=
  fd_unique table ∧ ∀ lte ∈ table, mask_ok lte ∧ lte.event.events < 2 ^ 32

/-! ## The send/receive engine (network.c), asynchronous part

The kernel is the environment: the value and the `errno` of each `sendmsg` or
`recvmsg` are inputs.  A call that succeeds leaves `errno` as it was (Linux).
`size_t` is 64 bits wide. -/

/-- Operation of a request (network.h, lines 51-56). -/
inductive srb_operation_t
  | SRB_OP_SEND
  | SRB_OP_RECV
  deriving DecidableEq, Repr

/-- Protocol of an endpoint.  Modelled from the spec: `endpoint.h` is not among the
sources; the spec gives the tag set TCP, UDP. -/
inductive endpoint_type_t
  | EPT_TCP
  | EPT_UDP
  deriving DecidableEq, Repr

/-- The C struct `endpoint_socket_t`, as far as the engine reads it: the socket and
the protocol tag of the endpoint.  Modelled from the spec: `endpoint.h` is not among
the sources. -/
structure endpoint_socket_t where
  skt : Int
  ep_type : endpoint_type_t
  deriving DecidableEq, Repr

/-- The C struct `send_recv_buffer` (network.h, lines 71-93).  `self` is the address
of the object, `iosvc` the reactor handle (0 is `NULL`), `buffer` the size of the
attached buffer (`none` is a null pointer), `cb` the user callback (0 is `NULL`),
`iov_len` the length in `vec`. -/
structure srb_t where
  self : Nat
  type : endpoint_type_t
  op : srb_operation_t
  src : endpoint_socket_t
  dst : endpoint_socket_t
  iosvc : Nat
  buffer : Option Nat
  bytes_operated : Nat
  cb : Nat
  ctx : Nat
  iov_len : Nat
  deriving DecidableEq, Repr

/-- The function `buffer_size` on the buffer of a request. -/
def buffer_size (buffer : Option Nat) : Nat :=
  match buffer with
  | some n => n
  | none => 0

/-- Width of `size_t`. -/
def SIZE_MOD : Nat := 2 ^ 64

/-- Subtraction of `size_t` values. -/
def size_sub (a b : Nat) : Nat := (a + SIZE_MOD - b % SIZE_MOD) % SIZE_MOD

/-- Addition of an `ssize_t` to a `size_t`, as in `bytes_op += bytes_op_cur`. -/
def size_add (a : Nat) (b : Int) : Nat := (((a : Int) + b) % (SIZE_MOD : Int)).toNat

/-- The field `iosvc_op` of the table `NET_OPERATIONS`. -/
def net_iosvc_op : srb_operation_t → io_svc_op_t
  | .SRB_OP_SEND => .IO_SVC_OP_WRITE
  | .SRB_OP_RECV => .IO_SVC_OP_READ

/-- Linux value of `EAGAIN`. -/
def EAGAIN : Int := 11

/-- Linux value of `EWOULDBLOCK`. -/
def EWOULDBLOCK : Int := 11

/-- What one `sendmsg` or `recvmsg` answers: the value returned and, when it is
negative, the `errno` it sets. -/
structure syscall_result where
  ret : Int
  errno : Int
  deriving DecidableEq, Repr

/-- The arguments `err`, `bytes_operated`, `has_more_bytes`, `ctx` of one call of the
user callback `(*srb->cb)(ep, err, bytes_operated, has_more_bytes, buffer, ctx)`;
the two counts are `size_t` parameters (network.h, lines 37-42), so an `int` passed
for `has_more_bytes` is converted. -/
structure cb_call where
  err : Int
  bytes_operated : Nat
  has_more_bytes : Nat
  ctx : Nat
  deriving DecidableEq, Repr

/-- The effect of one run of an engine callback: the reactor, the request, the call
of the user callback if one was made, and whether the request was deallocated. -/
structure tpl_result where
  iosvc : io_service
  srb : srb_t
  called : Option cb_call
  freed : Bool
  deriving DecidableEq, Repr

/-- The endpoint of the operation: `op == SRB_OP_SEND ? &srb->aux.dst : &srb->aux.src`. -/
def ep_skt (srb : srb_t) : endpoint_socket_t :=
  match srb.op with
  | .SRB_OP_SEND => srb.dst
  | .SRB_OP_RECV => srb.src

/-- The function `tcp_send_recv_async_tpl`; the context `ctx` is the request.  `r`
is the answer of the system call,
`more_bytes` that of the `ioctl` on the queue, `stale` the value of the local
`more_bytes` where the code passes it without having set it. -/
def tcp_send_recv_async_tpl (iosvc : io_service) (fd : Int) (_op : io_svc_op_t) (srb : srb_t)
    (r : syscall_result) (more_bytes stale : Int) : tpl_result :=
  let bytes_op := srb.bytes_operated
  let io_svc_op := net_iosvc_op srb.op
  let srb1 := { srb with iov_len := size_sub (buffer_size srb.buffer) bytes_op }
  if r.ret < 0 then
    if r.errno = EAGAIN ∨ r.errno = EWOULDBLOCK then
      { iosvc := io_service_post_job iosvc fd io_svc_op true .tcp_send_recv_async_tpl srb.self
        srb := srb1, called := none, freed := false }
    else
      { iosvc := iosvc, srb := srb1
        called :=
          if srb.cb ≠ 0 then
            some { err := r.errno, bytes_operated := bytes_op
                   has_more_bytes := size_add 0 stale, ctx := srb.ctx }
          else none
        freed := true }
  else
    let bytes_op1 := size_add bytes_op r.ret
    let srb2 := { srb1 with bytes_operated := bytes_op1 }
    if bytes_op1 < buffer_size srb.buffer then
      { iosvc := io_service_post_job iosvc fd io_svc_op true .tcp_send_recv_async_tpl srb.self
        srb := srb2, called := none, freed := false }
    else
      { iosvc := iosvc, srb := srb2
        called :=
          if srb.cb ≠ 0 then
            some { err := 0, bytes_operated := bytes_op1
                   has_more_bytes := size_add 0 more_bytes, ctx := srb.ctx }
          else none
        freed := true }

/-- The function `udp_send_async_tpl`. -/
def udp_send_async_tpl (iosvc : io_service) (fd : Int) (_op : io_svc_op_t) (srb : srb_t)
    (r : syscall_result) (more_bytes stale : Int) : tpl_result :=
  let bytes_op := srb.bytes_operated
  let io_svc_op := net_iosvc_op srb.op
  let srb1 := { srb with iov_len := size_sub (buffer_size srb.buffer) bytes_op }
  if r.ret < 0 then
    if r.errno = EAGAIN ∨ r.errno = EWOULDBLOCK then
      { iosvc := io_service_post_job iosvc fd io_svc_op true .udp_send_async_tpl srb.self
        srb := srb1, called := none, freed := false }
    else
      { iosvc := iosvc, srb := srb1
        called :=
          if srb.cb ≠ 0 then
            some { err := r.errno, bytes_operated := bytes_op
                   has_more_bytes := size_add 0 stale, ctx := srb.ctx }
          else none
        freed := true }
  else
    let bytes_op1 := size_add bytes_op r.ret
    let srb2 := { srb1 with bytes_operated := bytes_op1 }
    if bytes_op1 < buffer_size srb.buffer then
      { iosvc := io_service_post_job iosvc fd io_svc_op true .udp_send_async_tpl srb.self
        srb := srb2, called := none, freed := false }
    else
      { iosvc := iosvc, srb := srb2
        called :=
          if srb.cb ≠ 0 then
            some { err := 0, bytes_operated := bytes_op1
                   has_more_bytes := size_add 0 more_bytes, ctx := srb.ctx }
          else none
        freed := true }

/-- The function `tcp_send_recv_async`; `none` when an assertion fails. -/
def tcp_send_recv_async (iosvc : io_service) (srb : srb_t) : Option (io_service × srb_t) :=
  if 0 ≤ (ep_skt srb).skt ∧ (ep_skt srb).ep_type = .EPT_TCP then
    match srb.buffer with
    | none => none
    | some n =>
      some
        (io_service_post_job iosvc (ep_skt srb).skt (net_iosvc_op srb.op) true
          .tcp_send_recv_async_tpl srb.self,
         { srb with iov_len := size_sub n srb.bytes_operated })
  else none

/-- The function `udp_send_async`; `none` when an assertion fails. -/
def udp_send_async (iosvc : io_service) (srb : srb_t) : Option (io_service × srb_t) :=
  if 0 ≤ srb.dst.skt ∧ srb.dst.ep_type = .EPT_UDP then
    match srb.buffer with
    | none => none
    | some n =>
      some
        (io_service_post_job iosvc srb.dst.skt (net_iosvc_op srb.op) true
          .udp_send_async_tpl srb.self,
         { srb with iov_len := n, bytes_operated := 0 })
  else none

/-- The function `udp_recv_async`; `none` when an assertion fails. -/
def udp_recv_async (iosvc : io_service) (srb : srb_t) : Option (io_service × srb_t) :=
  if 0 ≤ srb.src.skt ∧ srb.src.ep_type = .EPT_UDP then
    match srb.buffer with
    | none => none
    | some n =>
      some
        (io_service_post_job iosvc srb.src.skt (net_iosvc_op srb.op) true
          .udp_recv_async_tpl srb.self,
         { srb with iov_len := size_sub n srb.bytes_operated, bytes_operated := 0 })
  else none

/-- The function `srb_operate` on a non-null request: the assertion on the reactor
handle, then the entry of the table `OPERATORS` for `(type, op)`. -/
def srb_operate (iosvc : io_service) (srb : srb_t) : Option (io_service × srb_t) :=
  if srb.iosvc = 0 then none
  else
    match srb.type, srb.op with
    | .EPT_TCP, _ => tcp_send_recv_async iosvc srb
    | .EPT_UDP, .SRB_OP_SEND => udp_send_async iosvc srb
    | .EPT_UDP, .SRB_OP_RECV => udp_recv_async iosvc srb

/-- The engine callback an asynchronous TCP or UDP-send request is posted with. -/
def srb_tpl (srb : srb_t) : iosvc_job_function_t :=
  match srb.type with
  | .EPT_TCP => .tcp_send_recv_async_tpl
  | .EPT_UDP => .udp_send_async_tpl

/-- One run of the engine callback of the request, as the reactor starts it. -/
def srb_tpl_run (iosvc : io_service) (fd : Int) (op : io_svc_op_t) (srb : srb_t)
    (r : syscall_result) (more_bytes stale : Int) : tpl_result :=
  match srb.type with
  | .EPT_TCP => tcp_send_recv_async_tpl iosvc fd op srb r more_bytes stale
  | .EPT_UDP => udp_send_async_tpl iosvc fd op srb r more_bytes stale

/-- The request is an asynchronous TCP request or an asynchronous UDP send whose
assertions hold. -/
def srb_async_ok (srb : srb_t) : Prop :=
  srb.iosvc ≠ 0 ∧ srb.buffer ≠ none ∧ 0 ≤ (ep_skt srb).skt ∧ (ep_skt srb).ep_type = srb.type
    ∧ (srb.type = .EPT_UDP → srb.op = .SRB_OP_SEND)

/-- The run of the callback ends in would-block or in progress short of the buffer:
the two cases in which the code posts the intent again. -/
def srb_rearms (srb : srb_t) (r : syscall_result) : Prop :=
  (r.ret < 0 ∧ (r.errno = EAGAIN ∨ r.errno = EWOULDBLOCK))
    ∨ (0 ≤ r.ret ∧ size_add srb.bytes_operated r.ret < buffer_size srb.buffer)

/-- The job an armed request sits in the table as. -/
def srb_job (srb : srb_t) : job_t :=
  { job := srb_tpl srb, ctx := srb.self, oneshot := true }

/-! ## The send/receive engine, synchronous part and UDP receive

The loops of the synchronous functions ask the kernel again and again: the
kernel is a function from the number of the call and the length asked for to
the answer.  A loop is run with a bound on the number of its iterations, and
says whether it came to its end within the bound. -/

/-- The value of `errno` after a call made with `errno = 0`: the one the call sets
when it fails, 0 otherwise. -/
def errno_after (r : syscall_result) : Int := if r.ret < 0 then r.errno else 0

/-- The custom error `NSRCE_BUFFER_TOO_SMALL` (network.h, line 48). -/
def NSRCE_BUFFER_TOO_SMALL : Int := -1

/-- Largest `ssize_t`. -/
def SSIZE_MAX : Nat := 2 ^ 63 - 1

/-- One call of `sendmsg` or `recvmsg` as the engine makes it: the length in the
scatter/gather descriptor and whether `MSG_PEEK` is among the flags. -/
structure msg_call where
  iov_len : Nat
  peek : Bool
  deriving DecidableEq, Repr

/-- The completion result `network_result_t`, as far as the claims read it.
Modelled from the spec: its declaration is in a header that is not among the
sources; the fields are those network.c assigns. -/
structure network_result_t where
  err : Int
  bytes_operated : Nat
  has_more_bytes : Int
  ctx : Nat
  deriving DecidableEq, Repr

/-- What a synchronous function leaves: the result returned, the request as it
was at `deallocate`, and the calls made to the kernel, in order. -/
structure sync_result where
  ret : network_result_t
  srb : srb_t
  calls : List msg_call
  deriving DecidableEq, Repr

/-- The locals of a transfer loop: `bytes_op`, the ambient `errno`, the calls made
so far, and whether the loop has been left. -/
structure loop_state where
  bytes_op : Nat
  errno : Int
  calls : List msg_call
  finished : Bool
  deriving DecidableEq, Repr

/-- The loops of lines 119-130 and 181-188, `while (bytes_op < limit)`: store 0 in
`errno`, call the kernel with the length `iov_len bytes_op`, leave on a negative
answer, else add the answer to `bytes_op`.  At most `fuel` iterations are run. -/
def sync_loop (kern : Nat → Nat → syscall_result) (limit : Nat) (iov_len : Nat → Nat) :
    Nat → loop_state → loop_state
  | 0, st => if st.bytes_op < limit then st else { st with finished := true }
  | fuel + 1, st =>
    if st.bytes_op < limit then
      let len := iov_len st.bytes_op
      let r := kern st.calls.length len
      let calls := st.calls ++ [{ iov_len := len, peek := false }]
      if r.ret < 0 then
        { bytes_op := st.bytes_op, errno := r.errno, calls := calls, finished := true }
      else
        sync_loop kern limit iov_len fuel
          { bytes_op := size_add st.bytes_op r.ret, errno := 0, calls := calls, finished := false }
    else { st with finished := true }

/-- The locals at the entry of a loop: nothing transferred, `errno` as the caller
left it. -/
def loop_init (errno0 : Int) : loop_state :=
  { bytes_op := 0, errno := errno0, calls := [], finished := false }

/-- The length left in `vec` by the calls made, or the former one when none was made. -/
def last_iov_len (calls : List msg_call) (former : Nat) : Nat :=
  match calls.getLast? with
  | some c => c.iov_len
  | none => former

/-- The function `tcp_send_recv_sync_no_cb`.  `op_stale` is the value the local `op`
holds at line 96, before it is assigned; `more_bytes` is the answer of the `ioctl`,
`errno0` the ambient `errno` at entry.  `none` when an assertion fails or the loop
does not end within `fuel` iterations. -/
def tcp_send_recv_sync_no_cb (srb : srb_t) (op_stale : srb_operation_t)
    (kern : Nat → Nat → syscall_result) (more_bytes errno0 : Int) (fuel : Nat) :
    Option sync_result :=
  let ep_skt_ptr : endpoint_socket_t :=
    match op_stale with
    | .SRB_OP_SEND => srb.dst
    | .SRB_OP_RECV => srb.src
  if 0 ≤ ep_skt_ptr.skt ∧ ep_skt_ptr.ep_type = .EPT_TCP then
    match srb.buffer with
    | none => none
    | some n =>
      let bytes_to_op := size_sub n srb.bytes_operated
      let st :=
        sync_loop kern bytes_to_op (fun bytes_op => size_sub (size_sub n srb.bytes_operated) bytes_op)
          fuel (loop_init errno0)
      if st.finished = true then
        let srb1 :=
          { srb with
            bytes_operated := (srb.bytes_operated + st.bytes_op) % SIZE_MOD
            iov_len := last_iov_len st.calls srb.iov_len }
        some
          { ret :=
              { err := st.errno, bytes_operated := srb1.bytes_operated,
                has_more_bytes := more_bytes, ctx := srb.ctx }
            srb := srb1
            calls := st.calls }
      else none
  else none

/-- The function `udp_send_sync_no_cb`; arguments as for the TCP function. -/
def udp_send_sync_no_cb (srb : srb_t) (kern : Nat → Nat → syscall_result)
    (more_bytes errno0 : Int) (fuel : Nat) : Option sync_result :=
  if 0 ≤ srb.dst.skt ∧ srb.dst.ep_type = .EPT_UDP then
    match srb.buffer with
    | none => none
    | some n =>
      let st := sync_loop kern n (fun _ => n) fuel (loop_init errno0)
      if st.finished = true then
        let srb1 := { srb with bytes_operated := st.bytes_op, iov_len := n }
        some
          { ret :=
              { err := st.errno, bytes_operated := srb1.bytes_operated,
                has_more_bytes := more_bytes, ctx := srb.ctx }
            srb := srb1
            calls := st.calls }
      else none
  else none

/-- The function `udp_recv_sync_no_cb`.  `bytes_pending` is the answer of the
`ioctl` on the incoming queue; the one call made is the call number 0. -/
def udp_recv_sync_no_cb (srb : srb_t) (kern : Nat → Nat → syscall_result)
    (bytes_pending : Int) : Option sync_result :=
  if 0 ≤ srb.src.skt ∧ srb.src.ep_type = .EPT_UDP then
    match srb.buffer with
    | none => none
    | some n =>
      let len := size_sub n srb.bytes_operated
      let bytes_to_op := size_sub n srb.bytes_operated
      let r := kern 0 len
      if bytes_to_op < size_add 0 bytes_pending then
        some
          { ret :=
              { err := if errno_after r ≠ 0 then errno_after r else NSRCE_BUFFER_TOO_SMALL
                bytes_operated := size_add 0 r.ret
                has_more_bytes := bytes_pending, ctx := srb.ctx }
            srb := { srb with iov_len := len }
            calls := [{ iov_len := len, peek := true }] }
      else
        let bytes_op := if 0 ≤ r.ret then size_add 0 r.ret else 0
        some
          { ret :=
              { err := errno_after r, bytes_operated := bytes_op, has_more_bytes := 0,
                ctx := srb.ctx }
            srb :=
              { srb with
                iov_len := len
                bytes_operated := (srb.bytes_operated + bytes_op) % SIZE_MOD }
            calls := [{ iov_len := len, peek := false }] }
  else none

/-- The function `srb_operate_no_cb` on a non-null request: the assertion on the
reactor handle, then the entry of the table `OPERATORS_NO_CB` for `(type, op)`.
For a UDP receive `more_bytes` is the answer of the `ioctl` on the incoming queue. -/
def srb_operate_no_cb (srb : srb_t) (op_stale : srb_operation_t)
    (kern : Nat → Nat → syscall_result) (more_bytes errno0 : Int) (fuel : Nat) :
    Option sync_result :=
  if srb.iosvc ≠ 0 then none
  else
    match srb.type, srb.op with
    | .EPT_TCP, _ => tcp_send_recv_sync_no_cb srb op_stale kern more_bytes errno0 fuel
    | .EPT_UDP, .SRB_OP_SEND => udp_send_sync_no_cb srb kern more_bytes errno0 fuel
    | .EPT_UDP, .SRB_OP_RECV => udp_recv_sync_no_cb srb kern more_bytes

/-- The effect of one run of `udp_recv_async_tpl`: the request, the call of the user
callback if one was made, whether the request was deallocated, and the one call
made to the kernel. -/
structure recv_tpl_result where
  srb : srb_t
  called : Option cb_call
  freed : Bool
  call : msg_call
  deriving DecidableEq, Repr

/-- The function `udp_recv_async_tpl`; the context `ctx` is the request.  `r` is the
answer of `recvmsg`, asked with the length left in `vec` by `udp_recv_async`;
`bytes_pending` is the answer of the `ioctl`. -/
def udp_recv_async_tpl (_fd : Int) (_op : io_svc_op_t) (srb : srb_t) (r : syscall_result)
    (bytes_pending : Int) : recv_tpl_result :=
  if size_sub (buffer_size srb.buffer) srb.bytes_operated < size_add 0 bytes_pending then
    { srb := srb
      called :=
        if srb.cb ≠ 0 then
          some
            { err := if errno_after r ≠ 0 then errno_after r else NSRCE_BUFFER_TOO_SMALL
              bytes_operated := size_add srb.bytes_operated r.ret
              has_more_bytes := size_add 0 bytes_pending, ctx := srb.ctx }
        else none
      freed := true
      call := { iov_len := srb.iov_len, peek := true } }
  else
    let bytes_op := if 0 ≤ r.ret then size_add 0 r.ret else 0
    { srb := { srb with bytes_operated := (srb.bytes_operated + bytes_op) % SIZE_MOD }
      called :=
        if srb.cb ≠ 0 then
          some { err := errno_after r, bytes_operated := bytes_op, has_more_bytes := 0,
                 ctx := srb.ctx }
        else none
      freed := true
      call := { iov_len := srb.iov_len, peek := false } }

/-- The kernel never transfers more than the length it is asked for. -/
def kern_bounded (kern : Nat → Nat → syscall_result) : Prop :=
  ∀ k len, 0 ≤ (kern k len).ret → (kern k len).ret ≤ (len : Int)

/-- A successful `sendmsg` on a datagram socket takes the datagram whole. -/
def kern_whole (kern : Nat → Nat → syscall_result) : Prop :=
  ∀ k len, 0 ≤ (kern k len).ret → (kern k len).ret = (len : Int)

/-- Every answer of the kernel is a failure or a strictly positive count, and a
count is an `ssize_t`. -/
def kern_progress (kern : Nat → Nat → syscall_result) : Prop :=
  ∀ k len, (kern k len).ret < 0 ∨ (0 < (kern k len).ret ∧ (kern k len).ret ≤ (SSIZE_MAX : Int))

/-! ## Auxiliary definitions of the statements -/

/-- Bit position of the flag of a direction. -/
def flag_bit : io_svc_op_t → Nat
  | .IO_SVC_OP_READ => 0
  | .IO_SVC_OP_WRITE => 2

/-- The element of `fd` a post works on: the one found, or the fresh one. -/
def post_target (table : List lookup_table_element_t) (fd : Int) : lookup_table_element_t :=
  match list_find_fd fd table with
  | some lte => lte
  | none => lte_new fd

/-- The content of the slot `(fd, op)`: the job it holds, or `none` when there is no
element for `fd` or the job of the slot is null. -/
def slot_at (table : List lookup_table_element_t) (fd : Int) (op : io_svc_op_t) : Option job_t :=
  match list_find_fd fd table with
  | some lte => if (lte.job op).job = .NULL then none else some (lte.job op)
  | none => none

/-- The slot `(j.fd, j.op)` of the table holds exactly the job `j`. -/
def holds (table : List lookup_table_element_t) (j : slot_job) : Bool :=
  match list_find_fd j.fd table with
  | some lte => decide (lte.job j.op = { job := j.job, ctx := j.ctx, oneshot := j.oneshot })
  | none => false

/-- How often `j` was invoked as a oneshot job, according to a log of invocations. -/
def oneshot_count (j : slot_job) (log : List slot_job) : Nat :=
  if j.oneshot = true then log.count j else 0

/-- Bookkeeping of one job `j`: the posts that filled its slot with it are the
oneshot dispatches of it, the removes of it, and the slot when it still holds it. -/
def balance (sys : reactor) (j : slot_job) : Prop :=
  sys.filled.count j
    = oneshot_count j sys.invoked + sys.removed.count j + (holds sys.iosvc.lookup_table j).toNat

/-- What the position of the loop says about the flags and the table, as long as
nobody calls `io_service_stop` with `wait_pending = false`. -/
def run_inv (sys : reactor) : Prop :=
  match sys.pc with
  | .idle => True
  | .waiting => sys.iosvc.running = true
  | .in_job _ _ _ => sys.iosvc.running = true
  | .returned => sys.iosvc.lookup_table = [] ∧ sys.iosvc.allow_new = false

/-- The action is a post on the slot `(fd, op)`. -/
def is_post_at (fd : Int) (op : io_svc_op_t) : action → Bool
  | .post fd1 op1 _ _ _ => decide (fd1 = fd ∧ op1 = op)
  | _ => false

/-! ## The reactor dispatching an armed request

The loop of `io_service_run` and the engine callback, one after the other: each
readiness event on the socket of the request makes the loop take the job out of
the slot (lines 217-243 of io-service.c) and invoke it; the job is the engine
callback, with the request as context, and makes one system call. -/

/-- What one dispatch left: the bytes it added to `bytes_operated`, whether the
intent of the request sits in the table after it, and the call of the user
callback if one was made. -/
structure dispatch_record where
  transferred : Nat
  reposted : Bool
  called : Option cb_call
  deriving DecidableEq, Repr

/-- The dispatches of a request on readiness events for its direction, the answers
of the system calls being given in order.  It stops when the slot holds no job or
another job than that of the request, and after the run that deallocates the
request. -/
def srb_dispatches (fd : Int) (more_bytes stale : Int) :
    List syscall_result → io_service → srb_t → io_service × srb_t × List dispatch_record
  | [], iosvc, srb => (iosvc, srb, [])
  | r :: rest, iosvc, srb =>
    let io_svc_op := net_iosvc_op srb.op
    let d := io_service_run_dispatch iosvc fd (OP_FLAGS io_svc_op) io_svc_op
    match d.2 with
    | none => (d.1, srb, [])
    | some inv =>
      if inv.job = srb_tpl srb ∧ inv.ctx = srb.self then
        let res := srb_tpl_run d.1 fd io_svc_op srb r more_bytes stale
        let record : dispatch_record :=
          { transferred := res.srb.bytes_operated - srb.bytes_operated
            reposted := decide (slot_at res.iosvc.lookup_table fd io_svc_op = some (srb_job srb))
            called := res.called }
        if res.freed = true then (res.iosvc, res.srb, [record])
        else
          let out := srb_dispatches fd more_bytes stale rest res.iosvc res.srb
          (out.1, out.2.1, record :: out.2.2)
      else (d.1, srb, [])

/-- The answers are would-block failures and positive counts, each count at most
the length that remains, and the list ends with the count that brings the
remaining length `rem` to zero. -/
def partial_results : Nat → List syscall_result → Bool
  | _, [] => false
  | rem, r :: rest =>
    if r.ret < 0 then
      decide (r.errno = EAGAIN ∨ r.errno = EWOULDBLOCK) && partial_results rem rest
    else
      decide (0 < r.ret) && decide (r.ret ≤ (rem : Int))
        && (if r.ret = (rem : Int) then rest.isEmpty else partial_results (rem - r.ret.toNat) rest)

/-! ## Concrete instances -/

/-- An asynchronous TCP send of 10 bytes on socket 5. -/
def ex_srb : srb_t :=
  { self := 100, type := .EPT_TCP, op := .SRB_OP_SEND,
    src := { skt := -1, ep_type := .EPT_TCP }, dst := { skt := 5, ep_type := .EPT_TCP },
    iosvc := 1, buffer := some 10, bytes_operated := 0, cb := 1, ctx := 9, iov_len := 0 }

/-- A reactor in drain mode (after `io_service_stop(iosvc, true)`) in which `ex_srb`
is armed. -/
def ex_iosvc_drain : io_service :=
  { allow_new := false, running := true, event_fd := 3,
    lookup_table :=
      [{ fd := 5, event := { events := 4, data_fd := 5 },
         job_read := { job := .NULL, ctx := 0, oneshot := false },
         job_write := { job := .tcp_send_recv_async_tpl, ctx := 100, oneshot := true } }],
    epoll_fd := 4, event_fd_count := 0 }

/-- The state of the loop of the stop-abort scenario when the stop arrives: the loop
waits, the job of fd 5 is in the table. -/
def ex_wait : reactor :=
  { iosvc :=
      { allow_new := true, running := true, event_fd := 3,
        lookup_table :=
          [{ fd := 5, event := { events := 1, data_fd := 5 },
             job_read := { job := .user 1, ctx := 7, oneshot := true },
             job_write := { job := .NULL, ctx := 0, oneshot := false } }],
        epoll_fd := 4, event_fd_count := 1 },
    pc := .waiting,
    invoked := [],
    filled := [{ job := .user 1, fd := 5, op := .IO_SVC_OP_READ, ctx := 7, oneshot := true }],
    removed := [] }

/-- A reactor as `io_service_init` returns it, with descriptors 3 and 4. -/
def ex_iosvc : io_service :=
  { allow_new := true, running := false, event_fd := 3, lookup_table := [], epoll_fd := 4,
    event_fd_count := 0 }

/-- An element for fd 5 holding a oneshot READ job and a persistent WRITE job. -/
def ex_lte : lookup_table_element_t :=
  { fd := 5, event := { events := 5, data_fd := 5 },
    job_read := { job := .user 1, ctx := 7, oneshot := true },
    job_write := { job := .user 2, ctx := 8, oneshot := false } }

/-- A reactor accepting jobs whose table holds `ex_lte` only. -/
def ex_iosvc_busy : io_service :=
  { allow_new := true, running := true, event_fd := 3, lookup_table := [ex_lte], epoll_fd := 4,
    event_fd_count := 0 }

/-- A run: two posts on fd 5, the loop entered, fd 5 readable, the job returning. -/
def ex_trace : List action :=
  [.post 5 .IO_SVC_OP_READ true (.user 1) 7, .post 5 .IO_SVC_OP_WRITE false (.user 2) 8,
   .run, .wake 5 1, .job_returns]

/-- The state `ex_trace` ends in. -/
def ex_trace_end : reactor :=
  { iosvc :=
      { allow_new := true, running := true, event_fd := 3,
        lookup_table :=
          [{ fd := 5, event := { events := 4, data_fd := 5 },
             job_read := { job := .NULL, ctx := 0, oneshot := true },
             job_write := { job := .user 2, ctx := 8, oneshot := false } }],
        epoll_fd := 4, event_fd_count := 0 },
    pc := .waiting,
    invoked := [{ job := .user 1, fd := 5, op := .IO_SVC_OP_READ, ctx := 7, oneshot := true }],
    filled :=
      [{ job := .user 1, fd := 5, op := .IO_SVC_OP_READ, ctx := 7, oneshot := true },
       { job := .user 2, fd := 5, op := .IO_SVC_OP_WRITE, ctx := 8, oneshot := false }],
    removed := [] }

/-- A run in drain mode: the job of fd 5 calls `io_service_stop(iosvc, true)`, as
`data_sent` does in tests/oto-server.c, and the loop returns on that nudge. -/
def ex_drain_trace : List action :=
  [.run, .post 5 .IO_SVC_OP_READ true (.user 1) 7, .wake 3 1, .wake 5 1, .stop true,
   .job_returns, .wake 3 1]

/-- The state `ex_drain_trace` ends in. -/
def ex_drain_end : reactor :=
  { iosvc :=
      { allow_new := false, running := false, event_fd := 3, lookup_table := [], epoll_fd := 4,
        event_fd_count := 0 },
    pc := .returned,
    invoked := [{ job := .user 1, fd := 5, op := .IO_SVC_OP_READ, ctx := 7, oneshot := true }],
    filled := [{ job := .user 1, fd := 5, op := .IO_SVC_OP_READ, ctx := 7, oneshot := true }],
    removed := [] }

/-- The stop-drain scenario with the loop already waiting: post on fd 5, stop with
`wait_pending = true`, the two nudges handled, then fd 5 readable and the job run. -/
def ex_stuck_trace : List action :=
  [.run, .post 5 .IO_SVC_OP_READ true (.user 1) 7, .stop true, .wake 3 1, .wake 3 1, .wake 5 1,
   .job_returns]

/-- The state `ex_stuck_trace` ends in: the loop waits, the table is empty, no nudge
is pending. -/
def ex_stuck_end : reactor :=
  { iosvc :=
      { allow_new := false, running := true, event_fd := 3, lookup_table := [], epoll_fd := 4,
        event_fd_count := 0 },
    pc := .waiting,
    invoked := [{ job := .user 1, fd := 5, op := .IO_SVC_OP_READ, ctx := 7, oneshot := true }],
    filled := [{ job := .user 1, fd := 5, op := .IO_SVC_OP_READ, ctx := 7, oneshot := true }],
    removed := [] }

/-- The stop-abort scenario with the stop issued before the loop is entered. -/
def ex_abort_trace : List action :=
  [.post 5 .IO_SVC_OP_READ true (.user 1) 7, .stop false, .run, .wake 3 1]

/-- The state `ex_abort_trace` ends in: the loop waits again, `running` is true. -/
def ex_abort_end : reactor :=
  { iosvc :=
      { allow_new := false, running := true, event_fd := 3,
        lookup_table :=
          [{ fd := 5, event := { events := 1, data_fd := 5 },
             job_read := { job := .user 1, ctx := 7, oneshot := true },
             job_write := { job := .NULL, ctx := 0, oneshot := false } }],
        epoll_fd := 4, event_fd_count := 0 },
    pc := .waiting,
    invoked := [],
    filled := [{ job := .user 1, fd := 5, op := .IO_SVC_OP_READ, ctx := 7, oneshot := true }],
    removed := [] }

/-- An answer of `epoll_wait` that is not a ready event on fd `X`. -/
def wake_not_on (X : Int) (a : action) : Prop :=
  a = .wait_failed ∨ ∃ fd events, a = .wake fd events ∧ fd ≠ X

/-- The loop waiting on the fresh reactor. -/
def ex_run : reactor :=
  { iosvc :=
      { allow_new := true, running := true, event_fd := 3, lookup_table := [], epoll_fd := 4,
        event_fd_count := 0 },
    pc := .waiting, invoked := [], filled := [], removed := [] }

/-- An asynchronous UDP receive into a 10-byte buffer, submitted with 6 bytes
already counted: 4 bytes of capacity remain. -/
def ex_srb_recv : srb_t :=
  { self := 100, type := .EPT_UDP, op := .SRB_OP_RECV,
    src := { skt := 5, ep_type := .EPT_UDP }, dst := { skt := 5, ep_type := .EPT_UDP },
    iosvc := 1, buffer := some 10, bytes_operated := 6, cb := 1, ctx := 9, iov_len := 0 }

/-- An asynchronous UDP receive into a 4-byte buffer, nothing counted yet. -/
def ex_srb_recv4 : srb_t :=
  { self := 100, type := .EPT_UDP, op := .SRB_OP_RECV,
    src := { skt := 5, ep_type := .EPT_UDP }, dst := { skt := 5, ep_type := .EPT_UDP },
    iosvc := 1, buffer := some 4, bytes_operated := 0, cb := 1, ctx := 9, iov_len := 0 }

/-- A synchronous TCP send of an empty buffer. -/
def ex_srb_empty_tcp : srb_t :=
  { self := 100, type := .EPT_TCP, op := .SRB_OP_SEND,
    src := { skt := 5, ep_type := .EPT_TCP }, dst := { skt := 5, ep_type := .EPT_TCP },
    iosvc := 0, buffer := some 0, bytes_operated := 0, cb := 0, ctx := 9, iov_len := 0 }

/-- A synchronous UDP send of an empty buffer. -/
def ex_srb_empty_udp : srb_t :=
  { self := 100, type := .EPT_UDP, op := .SRB_OP_SEND,
    src := { skt := 5, ep_type := .EPT_UDP }, dst := { skt := 5, ep_type := .EPT_UDP },
    iosvc := 0, buffer := some 0, bytes_operated := 0, cb := 0, ctx := 9, iov_len := 0 }

/-- A kernel that takes up to 9 bytes per call and never fails. -/
def ex_kern9 : Nat → Nat → syscall_result :=
  fun _ len => { ret := min 9 len, errno := 0 }

/-- A synchronous TCP send of 10 bytes, 2 of them already counted. -/
def ex_srb_sync : srb_t :=
  { self := 100, type := .EPT_TCP, op := .SRB_OP_SEND,
    src := { skt := 5, ep_type := .EPT_TCP }, dst := { skt := 5, ep_type := .EPT_TCP },
    iosvc := 0, buffer := some 10, bytes_operated := 2, cb := 0, ctx := 9, iov_len := 0 }

/-- A kernel that transfers 3 bytes at each call. -/
def ex_kern3 : Nat → Nat → syscall_result :=
  fun _ _ => { ret := 3, errno := 0 }

/-- An asynchronous UDP send of 10 bytes, submitted with 3 bytes already counted. -/
def ex_srb_udp_async : srb_t :=
  { self := 100, type := .EPT_UDP, op := .SRB_OP_SEND,
    src := { skt := 5, ep_type := .EPT_UDP }, dst := { skt := 5, ep_type := .EPT_UDP },
    iosvc := 1, buffer := some 10, bytes_operated := 3, cb := 1, ctx := 9, iov_len := 0 }

/-- A synchronous UDP send of 10 bytes, nothing counted yet. -/
def ex_srb_udp_sync : srb_t :=
  { self := 100, type := .EPT_UDP, op := .SRB_OP_SEND,
    src := { skt := 5, ep_type := .EPT_UDP }, dst := { skt := 5, ep_type := .EPT_UDP },
    iosvc := 0, buffer := some 10, bytes_operated := 0, cb := 0, ctx := 9, iov_len := 0 }

/-- A synchronous UDP receive into a 4-byte buffer, nothing counted yet. -/
def ex_srb_recv_sync : srb_t :=
  { self := 100, type := .EPT_UDP, op := .SRB_OP_RECV,
    src := { skt := 5, ep_type := .EPT_UDP }, dst := { skt := 5, ep_type := .EPT_UDP },
    iosvc := 0, buffer := some 4, bytes_operated := 0, cb := 0, ctx := 9, iov_len := 0 }

/-- A kernel whose every call fails with the error 4 (`EINTR`). -/
def ex_kern_fail : Nat → Nat → syscall_result :=
  fun _ _ => { ret := -1, errno := 4 }

/-- The answers of the kernel in the partial-transfer scenario: 4 bytes,
would-block, 4 bytes, would-block, 2 bytes. -/
def ex_partial : List syscall_result :=
  [{ ret := 4, errno := 0 }, { ret := -1, errno := 11 }, { ret := 4, errno := 0 },
   { ret := -1, errno := 11 }, { ret := 2, errno := 0 }]

/-- The loop waits while a persistent WRITE job is armed on fd 5. -/
def ex_run_write : reactor :=
  { ex_run with
    iosvc := io_service_post_job ex_run.iosvc 5 .IO_SVC_OP_WRITE false (.user 2) 8 }

/-! # Lemmas -/

/-! ## Arithmetic of the masks -/

theorem OP_FLAGS_eq (op : io_svc_op_t) : OP_FLAGS op = 2 ^ flag_bit op := by
  cases op <;> rfl

theorem flag_bit_lt (op : io_svc_op_t) : flag_bit op < 32 := by
  cases op <;> decide

theorem flag_bit_eq_iff (op op1 : io_svc_op_t) : flag_bit op = flag_bit op1 ↔ op = op1 := by
  cases op <;> cases op1 <;> decide

theorem and_two_pow_ne_zero (e k : Nat) : e &&& 2 ^ k ≠ 0 ↔ e.testBit k = true := by
  rw [Nat.and_two_pow]
  cases h : e.testBit k
  · simp
  · simp

theorem and_flag_ne_zero (e : Nat) (op : io_svc_op_t) :
    e &&& OP_FLAGS op ≠ 0 ↔ e.testBit (flag_bit op) = true := by
  rw [OP_FLAGS_eq, and_two_pow_ne_zero]

theorem and_flag_eq_zero (e : Nat) (op : io_svc_op_t) :
    e &&& OP_FLAGS op = 0 ↔ e.testBit (flag_bit op) = false := by
  have h := and_flag_ne_zero e op
  constructor
  · intro h0
    cases hb : e.testBit (flag_bit op)
    · rfl
    · exact absurd h0 (h.mpr hb)
  · intro hb
    by_contra hne
    rw [h.mp hne] at hb
    exact Bool.noConfusion hb

theorem events_or_testBit (e : Nat) (op : io_svc_op_t) (i : Nat) :
    (events_or e (OP_FLAGS op)).testBit i
      = (decide (i < 32) && (e.testBit i || decide (flag_bit op = i))) := by
  unfold events_or
  rw [OP_FLAGS_eq, Nat.testBit_mod_two_pow, Nat.testBit_lor, Nat.testBit_two_pow]

theorem events_clear_testBit (e : Nat) (op : io_svc_op_t) (i : Nat) :
    (events_clear e (OP_FLAGS op)).testBit i
      = (e.testBit i && (decide (i < 32) ^^ decide (flag_bit op = i))) := by
  have h : UINT32_MAX = 2 ^ 32 - 1 := by unfold UINT32_MAX; norm_num
  unfold events_clear
  rw [OP_FLAGS_eq, Nat.testBit_and, Nat.testBit_xor, Nat.testBit_two_pow, h,
    Nat.testBit_two_pow_sub_one]

theorem events_or_lt (e f : Nat) : events_or e f < 2 ^ 32 :=
  Nat.mod_lt _ (by norm_num)

theorem events_clear_lt (e : Nat) (op : io_svc_op_t) (h : e < 2 ^ 32) :
    events_clear e (OP_FLAGS op) < 2 ^ 32 :=
  lt_of_le_of_lt Nat.and_le_left h

theorem events_or_flag (e : Nat) (op op1 : io_svc_op_t) :
    events_or e (OP_FLAGS op) &&& OP_FLAGS op1 ≠ 0 ↔ (op = op1 ∨ e &&& OP_FLAGS op1 ≠ 0) := by
  rw [and_flag_ne_zero, and_flag_ne_zero, events_or_testBit]
  have h32 := flag_bit_lt op1
  have hinj := flag_bit_eq_iff op op1
  simp [h32, hinj]
  tauto

theorem events_clear_flag (e : Nat) (op op1 : io_svc_op_t) :
    events_clear e (OP_FLAGS op) &&& OP_FLAGS op1 ≠ 0 ↔ (op ≠ op1 ∧ e &&& OP_FLAGS op1 ≠ 0) := by
  rw [and_flag_ne_zero, and_flag_ne_zero, events_clear_testBit]
  have h32 := flag_bit_lt op1
  have hinj := flag_bit_eq_iff op op1
  simp [h32, hinj]
  tauto

theorem events_clear_or (e : Nat) (op : io_svc_op_t) (h32 : e < 2 ^ 32)
    (hbit : e &&& OP_FLAGS op = 0) :
    events_clear (events_or e (OP_FLAGS op)) (OP_FLAGS op) = e := by
  apply Nat.eq_of_testBit_eq
  intro i
  rw [events_clear_testBit, events_or_testBit]
  rw [and_flag_eq_zero] at hbit
  by_cases hi : i < 32
  · by_cases hk : flag_bit op = i
    · subst hk
      simp [hbit]
    · simp [hi, hk]
  · have hlt : e < 2 ^ i := lt_of_lt_of_le h32 (Nat.pow_le_pow_right (by norm_num) (by omega))
    simp [hi, Nat.testBit_lt_two_pow hlt]

theorem events_clear_idem (e : Nat) (op : io_svc_op_t) :
    events_clear (events_clear e (OP_FLAGS op)) (OP_FLAGS op) = events_clear e (OP_FLAGS op) := by
  unfold events_clear
  rw [Nat.and_assoc, Nat.and_self]

/-! ## Elements -/

@[simp]
theorem lte_fill_fd (op : io_svc_op_t) (o : Bool) (j : iosvc_job_function_t) (c : Nat)
    (lte : lookup_table_element_t) : (lte_fill op o j c lte).fd = lte.fd := by
  cases op <;> rfl

@[simp]
theorem lte_clear_fd (op : io_svc_op_t) (lte : lookup_table_element_t) :
    (lte_clear op lte).fd = lte.fd := by
  cases op <;> rfl

@[simp]
theorem lte_fill_events (op : io_svc_op_t) (o : Bool) (j : iosvc_job_function_t) (c : Nat)
    (lte : lookup_table_element_t) :
    (lte_fill op o j c lte).event.events = events_or lte.event.events (OP_FLAGS op) := by
  cases op <;> rfl

@[simp]
theorem lte_clear_events (op : io_svc_op_t) (lte : lookup_table_element_t) :
    (lte_clear op lte).event.events = events_clear lte.event.events (OP_FLAGS op) := by
  cases op <;> rfl

theorem lte_fill_job (op op1 : io_svc_op_t) (o : Bool) (j : iosvc_job_function_t) (c : Nat)
    (lte : lookup_table_element_t) :
    (lte_fill op o j c lte).job op1
      = if op = op1 then { job := j, ctx := c, oneshot := o } else lte.job op1 := by
  cases op <;> cases op1 <;> rfl

theorem lte_clear_job (op op1 : io_svc_op_t) (lte : lookup_table_element_t) :
    (lte_clear op lte).job op1
      = if op = op1 then { job := .NULL, ctx := 0, oneshot := (lte.job op).oneshot }
        else lte.job op1 := by
  cases op <;> cases op1 <;> rfl

theorem mask_ok_new (fd : Int) : mask_ok (lte_new fd) := by
  intro op
  cases op <;> simp [lte_new, lookup_table_element_t.job, job_zero]

theorem mask_ok_fill (op : io_svc_op_t) (o : Bool) (j : iosvc_job_function_t) (c : Nat)
    (lte : lookup_table_element_t) (hj : j ≠ .NULL) (h : mask_ok lte) :
    mask_ok (lte_fill op o j c lte) := by
  intro op1
  rw [lte_fill_events, events_or_flag, lte_fill_job]
  by_cases hop : op = op1
  · simp [hop, hj]
  · simp [hop, h op1]

theorem mask_ok_clear (op : io_svc_op_t) (lte : lookup_table_element_t) (h : mask_ok lte) :
    mask_ok (lte_clear op lte) := by
  intro op1
  rw [lte_clear_events, events_clear_flag, lte_clear_job]
  by_cases hop : op = op1
  · simp [hop]
  · simp [hop, h op1]

/-! ## Lists -/

theorem list_find_fd_eq_none (fd : Int) (t : List lookup_table_element_t) :
    list_find_fd fd t = none ↔ ∀ x ∈ t, x.fd ≠ fd := by
  induction t with
  | nil => simp [list_find_fd]
  | cons a rest ih =>
    unfold list_find_fd
    by_cases h : a.fd = fd
    · simp [h]
    · simp [h, ih]

theorem list_find_fd_some (fd : Int) (t : List lookup_table_element_t)
    (lte : lookup_table_element_t) (h : list_find_fd fd t = some lte) : lte ∈ t ∧ lte.fd = fd := by
  induction t with
  | nil => simp [list_find_fd] at h
  | cons a rest ih =>
    unfold list_find_fd at h
    by_cases ha : a.fd = fd
    · simp [ha] at h
      subst h
      exact ⟨List.mem_cons_self _ _, ha⟩
    · simp [ha] at h
      exact ⟨List.mem_cons_of_mem _ (ih h).1, (ih h).2⟩

theorem list_find_fd_of_mem (fd : Int) (t : List lookup_table_element_t)
    (lte : lookup_table_element_t) (hu : fd_unique t) (hm : lte ∈ t) (hfd : lte.fd = fd) :
    list_find_fd fd t = some lte := by
  induction t with
  | nil => simp at hm
  | cons a rest ih =>
    unfold fd_unique at hu
    rw [List.map_cons, List.nodup_cons] at hu
    unfold list_find_fd
    rcases List.mem_cons.mp hm with h | h
    · subst h
      simp [hfd]
    · have hne : a.fd ≠ fd := by
        intro ha
        apply hu.1
        rw [ha, ← hfd]
        exact List.mem_map_of_mem _ h
      simp [hne]
      exact ih hu.2 h

theorem list_find_fd_append (fd : Int) (t u : List lookup_table_element_t) :
    list_find_fd fd (t ++ u)
      = match list_find_fd fd t with
        | some x => some x
        | none => list_find_fd fd u := by
  induction t with
  | nil => simp [list_find_fd]
  | cons a rest ih =>
    simp only [List.cons_append, list_find_fd]
    by_cases h : a.fd = fd
    · simp [h]
    · simp [h, ih]

theorem list_update_first_map_fd (p : lookup_table_element_t → Bool)
    (f : lookup_table_element_t → lookup_table_element_t) (hf : ∀ x, (f x).fd = x.fd)
    (t : List lookup_table_element_t) :
    (list_update_first p f t).map (fun lte => lte.fd) = t.map (fun lte => lte.fd) := by
  induction t with
  | nil => rfl
  | cons a rest ih =>
    unfold list_update_first
    by_cases h : p a = true
    · simp [h, hf]
    · simp [h, ih]

theorem mem_list_update_first (p : lookup_table_element_t → Bool)
    (f : lookup_table_element_t → lookup_table_element_t) (t : List lookup_table_element_t)
    (x : lookup_table_element_t) (hx : x ∈ list_update_first p f t) :
    x ∈ t ∨ ∃ y ∈ t, p y = true ∧ x = f y := by
  induction t with
  | nil => simp [list_update_first] at hx
  | cons a rest ih =>
    unfold list_update_first at hx
    by_cases h : p a = true
    · simp [h] at hx
      rcases hx with hx | hx
      · exact Or.inr ⟨a, List.mem_cons_self _ _, h, hx⟩
      · exact Or.inl (List.mem_cons_of_mem _ hx)
    · simp [h] at hx
      rcases hx with hx | hx
      · exact Or.inl (hx ▸ List.mem_cons_self _ _)
      · rcases ih hx with h1 | ⟨y, hy, hpy, hxy⟩
        · exact Or.inl (List.mem_cons_of_mem _ h1)
        · exact Or.inr ⟨y, List.mem_cons_of_mem _ hy, hpy, hxy⟩

theorem list_remove_fd_sublist (fd : Int) (t : List lookup_table_element_t) :
    List.Sublist (list_remove_fd fd t) t := by
  induction t with
  | nil => exact List.Sublist.refl _
  | cons a rest ih =>
    unfold list_remove_fd
    by_cases h : a.fd = fd
    · simp [h]
    · simp [h, ih]

theorem run_sweep_sublist (t : List lookup_table_element_t) : List.Sublist (run_sweep t) t := by
  induction t with
  | nil => exact List.Sublist.refl _
  | cons a rest ih =>
    unfold run_sweep
    by_cases h : a.event.events = 0
    · simp [h]
      exact List.Sublist.cons _ ih
    · simp [h, ih]

theorem table_inv_sublist (t u : List lookup_table_element_t) (hs : List.Sublist u t)
    (h : table_inv t) : table_inv u :=
  ⟨List.Nodup.sublist (List.Sublist.map _ hs) h.1, fun x hx => h.2 x (hs.subset hx)⟩

theorem table_inv_update (p : lookup_table_element_t → Bool)
    (f : lookup_table_element_t → lookup_table_element_t) (t : List lookup_table_element_t)
    (hfd : ∀ x, (f x).fd = x.fd)
    (hok : ∀ x, mask_ok x ∧ x.event.events < 2 ^ 32 →
      mask_ok (f x) ∧ (f x).event.events < 2 ^ 32)
    (h : table_inv t) : table_inv (list_update_first p f t) := by
  refine ⟨?_, ?_⟩
  · unfold fd_unique
    rw [list_update_first_map_fd p f hfd]
    exact h.1
  · intro x hx
    rcases mem_list_update_first p f t x hx with h1 | ⟨y, hy, _, hxy⟩
    · exact h.2 x h1
    · rw [hxy]
      exact hok y (h.2 y hy)

theorem table_inv_append_new (fd : Int) (t : List lookup_table_element_t)
    (hnone : list_find_fd fd t = none) (h : table_inv t) : table_inv (t ++ [lte_new fd]) := by
  refine ⟨?_, ?_⟩
  · unfold fd_unique
    rw [List.map_append, List.nodup_append]
    refine ⟨h.1, by simp, ?_⟩
    intro a ha hb
    simp [lte_new] at hb
    rcases List.mem_map.mp ha with ⟨x, hx, hxa⟩
    exact (list_find_fd_eq_none fd t).mp hnone x hx (by rw [hxa, hb])
  · intro x hx
    rcases List.mem_append.mp hx with h1 | h1
    · exact h.2 x h1
    · simp at h1
      subst h1
      exact ⟨mask_ok_new fd, by simp [lte_new]⟩

/-! ## The invariant is kept by every operation -/

theorem table_inv_post (iosvc : io_service) (fd : Int) (op : io_svc_op_t) (oneshot : Bool)
    (job : iosvc_job_function_t) (ctx : Nat) (h : table_inv iosvc.lookup_table) :
    table_inv (io_service_post_job iosvc fd op oneshot job ctx).lookup_table := by
  unfold io_service_post_job
  by_cases hc : iosvc.allow_new = true ∧ job ≠ .NULL
  · rw [if_pos hc]
    have htab : table_inv (post_lookup iosvc.lookup_table fd) := by
      unfold post_lookup
      cases hf : list_find_fd fd iosvc.lookup_table with
      | none => exact table_inv_append_new fd _ hf h
      | some x => exact h
    generalize post_lookup iosvc.lookup_table fd = table at htab
    simp only []
    cases hf : list_find_fd fd table with
    | none => exact htab
    | some lte =>
      simp only []
      by_cases hs : (lte.job op).job = .NULL
      · rw [if_pos hs]
        have hup : table_inv
            (list_update_first (fun l => decide (l.fd = fd)) (lte_fill op oneshot job ctx) table) :=
          table_inv_update _ _ table (lte_fill_fd op oneshot job ctx)
            (fun x hx => ⟨mask_ok_fill op oneshot job ctx x hc.2 hx.1, by
              rw [lte_fill_events]; exact events_or_lt _ _⟩) htab
        by_cases hr : iosvc.running = true
        · rw [if_pos hr]; exact hup
        · rw [if_neg hr]; exact hup
      · rw [if_neg hs]; exact htab
  · rw [if_neg hc]; exact h

theorem table_inv_remove (iosvc : io_service) (fd : Int) (op : io_svc_op_t)
    (job : iosvc_job_function_t) (ctx : Nat) (h : table_inv iosvc.lookup_table) :
    table_inv (io_service_remove_job iosvc fd op job ctx).lookup_table := by
  unfold io_service_remove_job
  have hup : table_inv
      (list_update_first (remove_match fd op job ctx) (lte_clear op) iosvc.lookup_table) :=
    table_inv_update _ _ _ (lte_clear_fd op)
      (fun x hx => ⟨mask_ok_clear op x hx.1, by
        rw [lte_clear_events]; exact events_clear_lt _ _ hx.2⟩) h
  simp only []
  split
  · exact hup
  · exact hup

theorem table_inv_notified (iosvc : io_service) (h : table_inv iosvc.lookup_table) :
    table_inv (io_service_run_notified iosvc).lookup_table := by
  unfold io_service_run_notified
  simp only []
  apply table_inv_sublist _ _ (run_sweep_sublist _)
  split
  · exact h
  · exact h

theorem table_inv_dispatch (iosvc : io_service) (fd : Int) (events : Nat) (op : io_svc_op_t)
    (h : table_inv iosvc.lookup_table) :
    table_inv (io_service_run_dispatch iosvc fd events op).1.lookup_table := by
  unfold io_service_run_dispatch
  split
  · exact h
  · split
    · exact h
    · split
      · exact h
      · simp only []
        split
        · split
          · exact table_inv_sublist _ _ (list_remove_fd_sublist fd _) h
          · exact table_inv_update _ _ _ (lte_clear_fd op)
              (fun x hx => ⟨mask_ok_clear op x hx.1, by
                rw [lte_clear_events]; exact events_clear_lt _ _ hx.2⟩) h
        · exact h

theorem table_inv_dispatch_ops (fd : Int) (events : Nat) (ops : List io_svc_op_t)
    (iosvc : io_service) (h : table_inv iosvc.lookup_table) :
    table_inv (run_dispatch_ops iosvc fd events ops).1.lookup_table := by
  induction ops generalizing iosvc with
  | nil => exact h
  | cons op rest ih =>
    unfold run_dispatch_ops
    have hd := table_inv_dispatch iosvc fd events op h
    rcases hdis : io_service_run_dispatch iosvc fd events op with ⟨s1, inv⟩
    rw [hdis] at hd
    cases inv with
    | none => exact ih s1 hd
    | some i => exact hd

theorem table_inv_step (sys sys1 : reactor) (a : action) (hs : step sys a = some sys1)
    (h : table_inv sys.iosvc.lookup_table) : table_inv sys1.iosvc.lookup_table := by
  cases a with
  | post fd op oneshot job ctx =>
    simp only [step, Option.some.injEq] at hs
    subst hs
    exact table_inv_post _ _ _ _ _ _ h
  | remove fd op job ctx =>
    simp only [step, Option.some.injEq] at hs
    subst hs
    exact table_inv_remove _ _ _ _ _ h
  | stop w =>
    simp only [step, Option.some.injEq] at hs
    subst hs
    exact h
  | run =>
    unfold step at hs
    cases hpc : sys.pc <;> rw [hpc] at hs <;> simp at hs <;> subst hs <;> exact h
  | wait_failed =>
    unfold step at hs
    cases hpc : sys.pc <;> rw [hpc] at hs <;> simp at hs
    subst hs
    exact h
  | wake fd events =>
    unfold step at hs
    cases hpc : sys.pc <;> rw [hpc] at hs <;> simp at hs
    by_cases hfd : fd = sys.iosvc.event_fd
    · rw [if_pos hfd] at hs
      by_cases hcnt : sys.iosvc.event_fd_count = 0
      · simp [hcnt] at hs
      · simp [hcnt] at hs
        subst hs
        exact table_inv_notified _ h
    · rw [if_neg hfd] at hs
      simp at hs
      subst hs
      exact table_inv_dispatch_ops _ _ _ _ h
  | job_returns =>
    unfold step at hs
    cases hpc : sys.pc <;> rw [hpc] at hs <;> simp at hs
    subst hs
    exact table_inv_dispatch_ops _ _ _ _ h

theorem table_inv_exec (acts : List action) (sys sys1 : reactor) (hs : exec sys acts = some sys1)
    (h : table_inv sys.iosvc.lookup_table) : table_inv sys1.iosvc.lookup_table := by
  induction acts generalizing sys with
  | nil =>
    simp only [exec, Option.some.injEq] at hs
    subst hs
    exact h
  | cons a rest ih =>
    unfold exec at hs
    cases hst : step sys a with
    | none => rw [hst] at hs; simp at hs
    | some s1 =>
      rw [hst] at hs
      exact ih s1 hs (table_inv_step sys s1 a hst h)

theorem io_service_init_table (r e p c : Int) (iosvc : io_service)
    (h : io_service_init r e p c = some iosvc) :
    iosvc.lookup_table = [] ∧ iosvc.allow_new = true ∧ iosvc.running = false
      ∧ iosvc.event_fd_count = 0 ∧ iosvc.event_fd = e := by
  unfold io_service_init at h
  split at h
  · simp at h
  · split at h
    · simp at h
    · split at h
      · simp at h
      · split at h
        · simp at h
        · simp at h
          subst h
          simp

theorem table_inv_nil : table_inv [] :=
  ⟨List.nodup_nil, fun _ hx => absurd hx (List.not_mem_nil _)⟩

/-! ## Reading the table through `list_find_fd` -/

theorem list_find_fd_split (fd : Int) (t : List lookup_table_element_t)
    (lte : lookup_table_element_t) (h : list_find_fd fd t = some lte) :
    ∃ pre post, t = pre ++ lte :: post ∧ (∀ y ∈ pre, y.fd ≠ fd) := by
  induction t with
  | nil => simp [list_find_fd] at h
  | cons a rest ih =>
    unfold list_find_fd at h
    by_cases ha : a.fd = fd
    · simp [ha] at h
      subst h
      exact ⟨[], rest, rfl, by simp⟩
    · simp [ha] at h
      rcases ih h with ⟨pre, post, ht, hpre⟩
      refine ⟨a :: pre, post, by simp [ht], ?_⟩
      intro y hy
      rcases List.mem_cons.mp hy with h1 | h1
      · rw [h1]; exact ha
      · exact hpre y h1

theorem list_update_first_split (fd : Int) (p : lookup_table_element_t → Bool)
    (f : lookup_table_element_t → lookup_table_element_t)
    (pre post : List lookup_table_element_t) (lte : lookup_table_element_t)
    (hp : ∀ y, p y = true → y.fd = fd) (hpre : ∀ y ∈ pre, y.fd ≠ fd) (hlte : p lte = true) :
    list_update_first p f (pre ++ lte :: post) = pre ++ f lte :: post
      ∧ list_first p (pre ++ lte :: post) = some lte := by
  induction pre with
  | nil => simp [list_update_first, list_first, hlte]
  | cons a rest ih =>
    have ha : p a = false := by
      cases hpa : p a
      · rfl
      · exact absurd (hp a hpa) (hpre a (List.mem_cons_self _ _))
    have ih1 := ih (fun y hy => hpre y (List.mem_cons_of_mem _ hy))
    simp [list_update_first, list_first, ha, ih1]

theorem list_first_eq_none (p : lookup_table_element_t → Bool) (t : List lookup_table_element_t) :
    list_first p t = none ↔ ∀ x ∈ t, p x = false := by
  induction t with
  | nil => simp [list_first]
  | cons a rest ih =>
    unfold list_first
    cases h : p a
    · simp [h, ih]
    · simp [h]

theorem list_update_first_none (p : lookup_table_element_t → Bool)
    (f : lookup_table_element_t → lookup_table_element_t) (t : List lookup_table_element_t)
    (h : ∀ x ∈ t, p x = false) : list_update_first p f t = t := by
  induction t with
  | nil => rfl
  | cons a rest ih =>
    unfold list_update_first
    have ha := h a (List.mem_cons_self _ _)
    simp [ha]
    exact ih (fun x hx => h x (List.mem_cons_of_mem _ hx))

theorem list_find_fd_update (fd fd1 : Int) (p : lookup_table_element_t → Bool)
    (f : lookup_table_element_t → lookup_table_element_t)
    (hp : ∀ y, p y = true → y.fd = fd) (hf : ∀ y, (f y).fd = y.fd)
    (t : List lookup_table_element_t) :
    list_find_fd fd1 (list_update_first p f t)
      = (list_find_fd fd1 t).map (fun x => if p x = true then f x else x) := by
  induction t with
  | nil => rfl
  | cons a rest ih =>
    unfold list_update_first
    cases hpa : p a
    · simp only [Bool.false_eq_true, if_false]
      unfold list_find_fd
      by_cases ha : a.fd = fd1
      · simp [ha, hpa]
      · simp [ha, ih]
    · simp only [if_true]
      unfold list_find_fd
      by_cases ha : a.fd = fd1
      · simp [ha, hpa, hf]
      · simp only [hf, ha, if_false]
        have hne : fd1 ≠ fd := by
          intro h
          exact ha (by rw [h]; exact hp a hpa)
        clear ih
        induction rest with
        | nil => rfl
        | cons b rest2 ih2 =>
          unfold list_find_fd
          by_cases hb : b.fd = fd1
          · have hpb : p b = false := by
              cases hpb : p b
              · rfl
              · exact absurd ((hp b hpb).symm.trans hb).symm hne
            simp [hb, hpb]
          · simp only [hb, if_false]
            exact ih2

theorem remove_match_fd (fd : Int) (op : io_svc_op_t) (job : iosvc_job_function_t) (ctx : Nat)
    (y : lookup_table_element_t) (h : remove_match fd op job ctx y = true) : y.fd = fd := by
  unfold remove_match at h
  simp at h
  exact h.1

theorem remove_match_iff (fd : Int) (op : io_svc_op_t) (job : iosvc_job_function_t) (ctx : Nat)
    (y : lookup_table_element_t) :
    remove_match fd op job ctx y = true
      ↔ y.fd = fd ∧ (y.job op).job = job ∧ (y.job op).ctx = ctx := by
  unfold remove_match
  simp

theorem io_service_eta (iosvc : io_service) :
    ({ iosvc with lookup_table := iosvc.lookup_table } : io_service) = iosvc := by
  cases iosvc
  rfl

theorem remove_job_no_match (iosvc : io_service) (fd : Int) (op : io_svc_op_t)
    (job : iosvc_job_function_t) (ctx : Nat)
    (h : ∀ x ∈ iosvc.lookup_table, x.fd = fd → (x.job op).job ≠ job ∨ (x.job op).ctx ≠ ctx) :
    io_service_remove_job iosvc fd op job ctx = iosvc := by
  have hnone : ∀ x ∈ iosvc.lookup_table, remove_match fd op job ctx x = false := by
    intro x hx
    cases hm : remove_match fd op job ctx x
    · rfl
    · rw [remove_match_iff] at hm
      rcases h x hx hm.1 with h1 | h1
      · exact absurd hm.2.1 h1
      · exact absurd hm.2.2 h1
  unfold io_service_remove_job
  simp only [list_update_first_none _ _ _ hnone, (list_first_eq_none _ _).mpr hnone]
  simp [io_service_eta]

theorem remove_job_flags (iosvc : io_service) (fd : Int) (op : io_svc_op_t)
    (job : iosvc_job_function_t) (ctx : Nat) :
    (io_service_remove_job iosvc fd op job ctx).allow_new = iosvc.allow_new
      ∧ (io_service_remove_job iosvc fd op job ctx).running = iosvc.running
      ∧ (io_service_remove_job iosvc fd op job ctx).lookup_table
          = list_update_first (remove_match fd op job ctx) (lte_clear op) iosvc.lookup_table := by
  unfold io_service_remove_job
  simp only []
  split <;> simp [notify_svc]

/-! ## What a post does -/

theorem post_lookup_find (t : List lookup_table_element_t) (fd : Int) :
    list_find_fd fd (post_lookup t fd)
      = some (match list_find_fd fd t with
              | some lte => lte
              | none => lte_new fd) := by
  unfold post_lookup
  cases hf : list_find_fd fd t with
  | some lte => simp [hf]
  | none =>
    simp only []
    rw [list_find_fd_append, hf]
    simp [list_find_fd, lte_new]

theorem post_lookup_find_other (t : List lookup_table_element_t) (fd fd1 : Int) (h : fd1 ≠ fd) :
    list_find_fd fd1 (post_lookup t fd) = list_find_fd fd1 t := by
  unfold post_lookup
  cases hf : list_find_fd fd t with
  | some lte => rfl
  | none =>
    simp only []
    rw [list_find_fd_append]
    cases hf1 : list_find_fd fd1 t with
    | some x => rfl
    | none => simp [list_find_fd, lte_new, h.symm]

theorem slot_empty_iff_target (t : List lookup_table_element_t) (fd : Int) (op : io_svc_op_t) :
    slot_empty t fd op = true ↔ ((post_target t fd).job op).job = .NULL := by
  unfold slot_empty post_target
  cases hf : list_find_fd fd t with
  | some lte => simp
  | none => cases op <;> simp [lte_new, lookup_table_element_t.job, job_zero]

theorem post_job_refused (iosvc : io_service) (fd : Int) (op : io_svc_op_t) (oneshot : Bool)
    (job : iosvc_job_function_t) (ctx : Nat)
    (h : ¬ (iosvc.allow_new = true ∧ job ≠ .NULL ∧ slot_empty iosvc.lookup_table fd op = true)) :
    io_service_post_job iosvc fd op oneshot job ctx = iosvc := by
  unfold io_service_post_job
  by_cases hc : iosvc.allow_new = true ∧ job ≠ .NULL
  · rw [if_pos hc]
    have hs : ¬ slot_empty iosvc.lookup_table fd op = true := fun hs => h ⟨hc.1, hc.2, hs⟩
    simp only []
    rw [post_lookup_find]
    simp only []
    rw [slot_empty_iff_target] at hs
    unfold post_target at hs
    rw [if_neg hs]
    unfold post_lookup
    cases hf : list_find_fd fd iosvc.lookup_table with
    | some lte => exact io_service_eta iosvc
    | none =>
      rw [hf] at hs
      exact absurd (by cases op <;> rfl) hs
  · rw [if_neg hc]

theorem post_job_accepted (iosvc : io_service) (fd : Int) (op : io_svc_op_t) (oneshot : Bool)
    (job : iosvc_job_function_t) (ctx : Nat)
    (ha : iosvc.allow_new = true) (hj : job ≠ .NULL)
    (hs : slot_empty iosvc.lookup_table fd op = true) :
    (io_service_post_job iosvc fd op oneshot job ctx).lookup_table
        = list_update_first (fun l => decide (l.fd = fd)) (lte_fill op oneshot job ctx)
            (post_lookup iosvc.lookup_table fd)
      ∧ (io_service_post_job iosvc fd op oneshot job ctx).allow_new = iosvc.allow_new
      ∧ (io_service_post_job iosvc fd op oneshot job ctx).running = iosvc.running
      ∧ (io_service_post_job iosvc fd op oneshot job ctx).event_fd = iosvc.event_fd
      ∧ (io_service_post_job iosvc fd op oneshot job ctx).event_fd_count
          = if iosvc.running = true then iosvc.event_fd_count + 1 else iosvc.event_fd_count := by
  unfold io_service_post_job
  rw [if_pos ⟨ha, hj⟩]
  simp only []
  rw [post_lookup_find]
  simp only []
  rw [slot_empty_iff_target] at hs
  unfold post_target at hs
  rw [if_pos hs]
  by_cases hr : iosvc.running = true
  · simp [hr, notify_svc]
  · simp [hr]

theorem post_job_find (iosvc : io_service) (fd fd1 : Int) (op : io_svc_op_t) (oneshot : Bool)
    (job : iosvc_job_function_t) (ctx : Nat)
    (ha : iosvc.allow_new = true) (hj : job ≠ .NULL)
    (hs : slot_empty iosvc.lookup_table fd op = true) :
    list_find_fd fd1 (io_service_post_job iosvc fd op oneshot job ctx).lookup_table
      = if fd1 = fd then some (lte_fill op oneshot job ctx (post_target iosvc.lookup_table fd))
        else list_find_fd fd1 iosvc.lookup_table := by
  rw [(post_job_accepted iosvc fd op oneshot job ctx ha hj hs).1]
  rw [list_find_fd_update fd fd1 _ _ (fun y hy => by simpa using hy) (lte_fill_fd op oneshot job ctx)]
  by_cases h : fd1 = fd
  · subst h
    rw [post_lookup_find, if_pos rfl]
    have hfd : (post_target iosvc.lookup_table fd1).fd = fd1 := by
      unfold post_target
      cases hf : list_find_fd fd1 iosvc.lookup_table with
      | some lte => exact (list_find_fd_some _ _ _ hf).2
      | none => rfl
    unfold post_target at hfd
    simp [post_target, hfd]
  · rw [post_lookup_find_other _ _ _ h, if_neg h]
    cases hf : list_find_fd fd1 iosvc.lookup_table with
    | none => rfl
    | some x =>
      have hx := (list_find_fd_some _ _ _ hf).2
      simp [hx, h]

theorem events_clear_and_self (e : Nat) (op : io_svc_op_t) :
    events_clear e (OP_FLAGS op) &&& OP_FLAGS op = 0 := by
  have h : (UINT32_MAX ^^^ OP_FLAGS op) &&& OP_FLAGS op = 0 := by cases op <;> decide
  unfold events_clear
  rw [Nat.and_assoc, h, Nat.and_zero]

theorem events_clear_and_other (e : Nat) (op op1 : io_svc_op_t) (hne : op1 ≠ op) :
    events_clear e (OP_FLAGS op) &&& OP_FLAGS op1 = e &&& OP_FLAGS op1 := by
  have h : (UINT32_MAX ^^^ OP_FLAGS op) &&& OP_FLAGS op1 = OP_FLAGS op1 := by
    cases op <;> cases op1 <;> first | exact absurd rfl hne | decide
  unfold events_clear
  rw [Nat.and_assoc, h]

/-! ## Post followed by remove, and remove twice -/

theorem lte_clear_fill (op : io_svc_op_t) (o : Bool) (j : iosvc_job_function_t) (c : Nat)
    (lte : lookup_table_element_t) (hm : mask_ok lte) (h32 : lte.event.events < 2 ^ 32)
    (he : (lte.job op).job = .NULL) :
    lte_clear op (lte_fill op o j c lte)
      = lte.set_job op { job := .NULL, ctx := 0, oneshot := o } := by
  have hbit : lte.event.events &&& OP_FLAGS op = 0 := by
    by_contra hne
    exact ((hm op).mp hne) he
  have hev := events_clear_or lte.event.events op h32 hbit
  rcases lte with ⟨fd0, ⟨ev, dfd⟩, jr, jw⟩
  cases op <;>
    simp [lte_clear, lte_fill, lookup_table_element_t.set_job, lookup_table_element_t.job] <;>
    exact hev

theorem lte_clear_idem (op : io_svc_op_t) (lte : lookup_table_element_t) :
    lte_clear op (lte_clear op lte) = lte_clear op lte := by
  have hev := events_clear_idem lte.event.events op
  rcases lte with ⟨fd0, ⟨ev, dfd⟩, jr, jw⟩
  cases op <;>
    simp [lte_clear, lookup_table_element_t.set_job, lookup_table_element_t.job] <;>
    exact hev

theorem list_first_split (p : lookup_table_element_t → Bool) (t : List lookup_table_element_t)
    (x : lookup_table_element_t) (h : list_first p t = some x) :
    ∃ pre post, t = pre ++ x :: post ∧ (∀ y ∈ pre, p y = false) ∧ p x = true := by
  induction t with
  | nil => simp [list_first] at h
  | cons a rest ih =>
    unfold list_first at h
    cases hpa : p a
    · simp [hpa] at h
      rcases ih h with ⟨pre, post, ht, hpre, hx⟩
      refine ⟨a :: pre, post, by simp [ht], ?_, hx⟩
      intro y hy
      rcases List.mem_cons.mp hy with h1 | h1
      · rw [h1]; exact hpa
      · exact hpre y h1
    · simp [hpa] at h
      subst h
      exact ⟨[], rest, rfl, by simp, hpa⟩

theorem list_update_first_append (p : lookup_table_element_t → Bool)
    (f : lookup_table_element_t → lookup_table_element_t)
    (pre rest : List lookup_table_element_t) (hpre : ∀ y ∈ pre, p y = false) :
    list_update_first p f (pre ++ rest) = pre ++ list_update_first p f rest := by
  induction pre with
  | nil => rfl
  | cons a pre1 ih =>
    have ha := hpre a (List.mem_cons_self _ _)
    simp [list_update_first, ha, ih (fun y hy => hpre y (List.mem_cons_of_mem _ hy))]

theorem remove_table_idem (fd : Int) (op : io_svc_op_t) (job : iosvc_job_function_t) (ctx : Nat)
    (t : List lookup_table_element_t) (hu : fd_unique t) :
    list_update_first (remove_match fd op job ctx) (lte_clear op)
        (list_update_first (remove_match fd op job ctx) (lte_clear op) t)
      = list_update_first (remove_match fd op job ctx) (lte_clear op) t := by
  cases hfirst : list_first (remove_match fd op job ctx) t with
  | none =>
    have hnone := (list_first_eq_none _ _).mp hfirst
    rw [list_update_first_none _ _ _ hnone, list_update_first_none _ _ _ hnone]
  | some x =>
    rcases list_first_split _ _ _ hfirst with ⟨pre, post, ht, hpre, hx⟩
    have hxfd := remove_match_fd fd op job ctx x hx
    have hpost : ∀ y ∈ post, remove_match fd op job ctx y = false := by
      intro y hy
      cases hm : remove_match fd op job ctx y
      · rfl
      · exfalso
        have hyfd := remove_match_fd fd op job ctx y hm
        unfold fd_unique at hu
        rw [ht, List.map_append, List.map_cons, List.nodup_append] at hu
        have h2 := (List.nodup_cons.mp hu.2.1).1
        apply h2
        rw [hxfd, ← hyfd]
        exact List.mem_map_of_mem _ hy
    rw [ht, list_update_first_append _ _ _ _ hpre]
    simp only [list_update_first, hx, if_true]
    rw [list_update_first_append _ _ _ _ hpre]
    unfold list_update_first
    cases hm : remove_match fd op job ctx (lte_clear op x)
    · simp only [Bool.false_eq_true, if_false]
      rw [list_update_first_none _ _ _ hpost]
    · simp only [if_true]
      rw [lte_clear_idem]

/-! ## The table after a sweep and after the removal of an element -/

theorem fd_unique_cons (a : lookup_table_element_t) (rest : List lookup_table_element_t) :
    fd_unique (a :: rest) ↔ (∀ x ∈ rest, x.fd ≠ a.fd) ∧ fd_unique rest := by
  unfold fd_unique
  rw [List.map_cons, List.nodup_cons]
  constructor
  · rintro ⟨h1, h2⟩
    refine ⟨fun x hx hfd => h1 ?_, h2⟩
    rw [← hfd]
    exact List.mem_map_of_mem _ hx
  · rintro ⟨h1, h2⟩
    refine ⟨fun hm => ?_, h2⟩
    rcases List.mem_map.mp hm with ⟨x, hx, hfd⟩
    exact h1 x hx hfd

theorem list_find_fd_remove_other (fd fd1 : Int) (h : fd1 ≠ fd)
    (t : List lookup_table_element_t) :
    list_find_fd fd1 (list_remove_fd fd t) = list_find_fd fd1 t := by
  induction t with
  | nil => rfl
  | cons a rest ih =>
    unfold list_remove_fd
    by_cases ha : a.fd = fd
    · have ha1 : a.fd ≠ fd1 := fun h1 => h (h1.symm.trans ha)
      simp only [ha, if_true, list_find_fd]
      rw [if_neg (fun h3 : fd = fd1 => h h3.symm)]
    · simp only [ha, if_false, list_find_fd, ih]

theorem list_find_fd_remove_same (fd : Int) (t : List lookup_table_element_t)
    (hu : fd_unique t) : list_find_fd fd (list_remove_fd fd t) = none := by
  induction t with
  | nil => rfl
  | cons a rest ih =>
    rw [fd_unique_cons] at hu
    unfold list_remove_fd
    by_cases ha : a.fd = fd
    · simp only [ha, if_true]
      rw [list_find_fd_eq_none]
      intro x hx
      rw [← ha]
      exact hu.1 x hx
    · simp only [ha, if_false, list_find_fd]
      exact ih hu.2

theorem list_find_fd_sweep (fd : Int) (t : List lookup_table_element_t) (hu : fd_unique t) :
    list_find_fd fd (run_sweep t)
      = match list_find_fd fd t with
        | some x => if x.event.events = 0 then none else some x
        | none => none := by
  induction t with
  | nil => rfl
  | cons a rest ih =>
    rw [fd_unique_cons] at hu
    unfold run_sweep
    by_cases ha : a.fd = fd
    · by_cases he : a.event.events = 0
      · simp only [he, if_true, list_find_fd, ha]
        rw [list_find_fd_eq_none]
        intro x hx
        rw [← ha]
        exact hu.1 x ((run_sweep_sublist rest).subset hx)
      · simp [he, list_find_fd, ha]
    · by_cases he : a.event.events = 0
      · simp only [he, if_true, list_find_fd, ha, if_false]
        exact ih hu.2
      · simp only [he, if_false, list_find_fd, ha]
        exact ih hu.2

theorem mask_zero_job_null (lte : lookup_table_element_t) (hm : mask_ok lte)
    (h0 : lte.event.events = 0) (op : io_svc_op_t) : (lte.job op).job = .NULL := by
  by_contra hne
  have h := (hm op).mpr hne
  rw [h0, Nat.zero_and] at h
  exact h rfl

/-! ## The table as a map from slots to jobs -/

theorem slot_empty_iff_slot_at (t : List lookup_table_element_t) (fd : Int) (op : io_svc_op_t) :
    slot_empty t fd op = true ↔ slot_at t fd op = none := by
  unfold slot_empty slot_at
  cases list_find_fd fd t with
  | none => simp
  | some lte => by_cases h : (lte.job op).job = .NULL <;> simp [h]

theorem holds_eq_slot_at (t : List lookup_table_element_t) (j : slot_job) (hj : j.job ≠ .NULL) :
    holds t j
      = decide (slot_at t j.fd j.op = some { job := j.job, ctx := j.ctx, oneshot := j.oneshot }) := by
  unfold holds slot_at
  cases list_find_fd j.fd t with
  | none => simp
  | some lte =>
    by_cases h : (lte.job j.op).job = .NULL
    · have hne : lte.job j.op ≠ { job := j.job, ctx := j.ctx, oneshot := j.oneshot } := by
        intro heq
        rw [heq] at h
        exact hj h
      simp [h, hne]
    · simp [h]

theorem slot_at_post (iosvc : io_service) (fd fd1 : Int) (op op1 : io_svc_op_t) (oneshot : Bool)
    (job : iosvc_job_function_t) (ctx : Nat)
    (ha : iosvc.allow_new = true) (hj : job ≠ .NULL)
    (hs : slot_empty iosvc.lookup_table fd op = true) :
    slot_at (io_service_post_job iosvc fd op oneshot job ctx).lookup_table fd1 op1
      = if fd1 = fd ∧ op1 = op then some { job := job, ctx := ctx, oneshot := oneshot }
        else slot_at iosvc.lookup_table fd1 op1 := by
  unfold slot_at
  rw [post_job_find iosvc fd fd1 op oneshot job ctx ha hj hs]
  by_cases hfd : fd1 = fd
  · subst hfd
    simp only [if_true, lte_fill_job, true_and]
    by_cases hop : op = op1
    · subst hop
      simp [hj]
    · have hop1 : ¬ op1 = op := fun h => hop h.symm
      simp only [hop, hop1, if_false]
      unfold post_target
      cases hf : list_find_fd fd1 iosvc.lookup_table with
      | some lte => rfl
      | none => cases op1 <;> simp [lte_new, lookup_table_element_t.job, job_zero]
  · simp [hfd]

theorem slot_at_update (fd fd1 : Int) (op1 : io_svc_op_t) (p : lookup_table_element_t → Bool)
    (f : lookup_table_element_t → lookup_table_element_t)
    (hp : ∀ y, p y = true → y.fd = fd) (hf : ∀ y, (f y).fd = y.fd)
    (t : List lookup_table_element_t) (x : lookup_table_element_t)
    (hx : list_find_fd fd1 t = some x) :
    slot_at (list_update_first p f t) fd1 op1
      = if p x = true then
          (if ((f x).job op1).job = .NULL then none else some ((f x).job op1))
        else (if (x.job op1).job = .NULL then none else some (x.job op1)) := by
  unfold slot_at
  rw [list_find_fd_update fd fd1 p f hp hf t, hx]
  by_cases h : p x = true
  · simp [h]
  · simp [h]

theorem slot_at_of_find (t : List lookup_table_element_t) (fd : Int) (op : io_svc_op_t)
    (x : lookup_table_element_t) (hx : list_find_fd fd t = some x) :
    slot_at t fd op = if (x.job op).job = .NULL then none else some (x.job op) := by
  unfold slot_at
  rw [hx]

theorem slot_at_of_find_none (t : List lookup_table_element_t) (fd : Int) (op : io_svc_op_t)
    (hx : list_find_fd fd t = none) : slot_at t fd op = none := by
  unfold slot_at
  rw [hx]

theorem slot_at_remove (iosvc : io_service) (fd fd1 : Int) (op op1 : io_svc_op_t)
    (job : iosvc_job_function_t) (ctx : Nat) :
    slot_at (io_service_remove_job iosvc fd op job ctx).lookup_table fd1 op1
      = if fd1 = fd ∧ op1 = op
            ∧ ∃ x, slot_at iosvc.lookup_table fd op = some x ∧ x.job = job ∧ x.ctx = ctx
        then none
        else slot_at iosvc.lookup_table fd1 op1 := by
  rw [(remove_job_flags iosvc fd op job ctx).2.2]
  cases hf : list_find_fd fd1 iosvc.lookup_table with
  | none =>
    have h1 : slot_at (list_update_first (remove_match fd op job ctx) (lte_clear op)
        iosvc.lookup_table) fd1 op1 = none := by
      unfold slot_at
      rw [list_find_fd_update fd fd1 _ _ (remove_match_fd fd op job ctx) (lte_clear_fd op), hf]
      rfl
    rw [h1, slot_at_of_find_none _ _ _ hf]
    by_cases hc : fd1 = fd ∧ op1 = op
        ∧ ∃ x, slot_at iosvc.lookup_table fd op = some x ∧ x.job = job ∧ x.ctx = ctx
    · rw [if_pos hc]
    · rw [if_neg hc]
  | some x =>
    have hxfd := (list_find_fd_some _ _ _ hf).2
    have h2 := slot_at_of_find _ fd1 op1 x hf
    have h1 := slot_at_update fd fd1 op1 (remove_match fd op job ctx) (lte_clear op)
      (remove_match_fd fd op job ctx) (lte_clear_fd op) iosvc.lookup_table x hf
    rw [h1]
    by_cases hc : fd1 = fd ∧ op1 = op
        ∧ ∃ x, slot_at iosvc.lookup_table fd op = some x ∧ x.job = job ∧ x.ctx = ctx
    · rw [if_pos hc]
      rcases hc with ⟨hfd, hop, y, hy, hyj, hyc⟩
      subst hfd
      subst hop
      rw [h2] at hy
      by_cases hn : (x.job op1).job = .NULL
      · rw [if_pos hn] at hy
        exact Option.noConfusion hy
      · rw [if_neg hn] at hy
        simp only [Option.some.injEq] at hy
        subst hy
        rw [if_pos ((remove_match_iff fd1 op1 job ctx x).mpr ⟨hxfd, hyj, hyc⟩), lte_clear_job,
          if_pos rfl, if_pos rfl]
    · rw [if_neg hc, h2]
      by_cases hm : remove_match fd op job ctx x = true
      · rw [if_pos hm, lte_clear_job]
        have hm1 := (remove_match_iff fd op job ctx x).mp hm
        have hfd : fd1 = fd := hxfd.symm.trans hm1.1
        by_cases hop : op = op1
        · subst hop
          rw [if_pos rfl, if_pos rfl]
          by_cases hn : (x.job op).job = .NULL
          · rw [if_pos hn]
          · exfalso
            apply hc
            refine ⟨hfd, rfl, x.job op, ?_, hm1.2.1, hm1.2.2⟩
            rw [← hfd, h2, if_neg hn]
        · rw [if_neg hop]
      · rw [if_neg hm]

theorem slot_at_sweep (t : List lookup_table_element_t) (h : table_inv t) (fd : Int)
    (op : io_svc_op_t) : slot_at (run_sweep t) fd op = slot_at t fd op := by
  unfold slot_at
  rw [list_find_fd_sweep fd t h.1]
  cases hf : list_find_fd fd t with
  | none => rfl
  | some x =>
    by_cases he : x.event.events = 0
    · have hx := h.2 x (list_find_fd_some _ _ _ hf).1
      simp [he, mask_zero_job_null x hx.1 he op]
    · simp [he]

theorem dispatch_nothing (iosvc : io_service) (fd : Int) (events : Nat) (op : io_svc_op_t)
    (h : events &&& OP_FLAGS op = 0 ∨ slot_at iosvc.lookup_table fd op = none) :
    io_service_run_dispatch iosvc fd events op = (iosvc, none) := by
  unfold io_service_run_dispatch
  by_cases hb : events &&& OP_FLAGS op = 0
  · rw [if_pos hb]
  · rw [if_neg hb]
    rcases h with h | h
    · exact absurd h hb
    · unfold slot_at at h
      cases hf : list_find_fd fd iosvc.lookup_table with
      | none => rfl
      | some lte =>
        rw [hf] at h
        simp only []
        by_cases hn : (lte.job op).job = .NULL
        · rw [if_pos hn]
        · simp [hn] at h

theorem dispatch_job (iosvc : io_service) (fd : Int) (events : Nat) (op : io_svc_op_t)
    (x : job_t) (hb : events &&& OP_FLAGS op ≠ 0) (hx : slot_at iosvc.lookup_table fd op = some x)
    (hinv : table_inv iosvc.lookup_table) :
    (io_service_run_dispatch iosvc fd events op).2
        = some { job := x.job, fd := fd, op := op, ctx := x.ctx, oneshot := x.oneshot }
      ∧ (io_service_run_dispatch iosvc fd events op).1.allow_new = iosvc.allow_new
      ∧ (io_service_run_dispatch iosvc fd events op).1.running = iosvc.running
      ∧ (io_service_run_dispatch iosvc fd events op).1.event_fd = iosvc.event_fd
      ∧ (io_service_run_dispatch iosvc fd events op).1.event_fd_count = iosvc.event_fd_count
      ∧ (x.oneshot = false → (io_service_run_dispatch iosvc fd events op).1 = iosvc)
      ∧ (x.oneshot = true → ∀ fd1 op1,
          slot_at (io_service_run_dispatch iosvc fd events op).1.lookup_table fd1 op1
            = if fd1 = fd ∧ op1 = op then none else slot_at iosvc.lookup_table fd1 op1) := by
  unfold slot_at at hx
  cases hf : list_find_fd fd iosvc.lookup_table with
  | none => rw [hf] at hx; simp at hx
  | some lte =>
    rw [hf] at hx
    have hlte := list_find_fd_some _ _ _ hf
    by_cases hn : (lte.job op).job = .NULL
    · simp [hn] at hx
    · simp only [hn, if_false, Option.some.injEq] at hx
      subst hx
      unfold io_service_run_dispatch
      rw [if_neg hb, hf]
      simp only [hn, if_false]
      by_cases ho : (lte.job op).oneshot = true
      · simp only [ho, if_true]
        by_cases h0 : (lte_clear op lte).event.events = 0
        · simp only [h0, if_true, true_and]
          refine ⟨fun hc => Bool.noConfusion hc, fun _ fd1 op1 => ?_⟩
          unfold slot_at
          by_cases hfd : fd1 = fd
          · subst hfd
            rw [list_find_fd_remove_same fd1 _ hinv.1, hf]
            by_cases hop : op1 = op
            · simp [hop]
            · have hm := mask_ok_clear op lte (hinv.2 lte hlte.1).1
              have hnull := mask_zero_job_null _ hm h0 op1
              rw [lte_clear_job, if_neg (fun h => hop h.symm)] at hnull
              simp [hop, hnull]
          · rw [list_find_fd_remove_other fd fd1 hfd]
            simp [hfd]
        · simp only [h0, if_false, true_and]
          refine ⟨fun hc => Bool.noConfusion hc, fun _ fd1 op1 => ?_⟩
          unfold slot_at
          rw [list_find_fd_update fd fd1 _ _ (fun y hy => by simpa using hy) (lte_clear_fd op)]
          by_cases hfd : fd1 = fd
          · subst hfd
            rw [hf]
            simp only [Option.map_some', hlte.2, decide_True, if_true, lte_clear_job, true_and]
            by_cases hop : op1 = op
            · subst hop
              simp
            · have hop1 : ¬ op = op1 := fun h => hop h.symm
              simp [hop, hop1]
          · simp only [hfd, false_and, if_false]
            cases hf1 : list_find_fd fd1 iosvc.lookup_table with
            | none => rfl
            | some y =>
              have hy := (list_find_fd_some _ _ _ hf1).2
              have hne : ¬ y.fd = fd := fun h => hfd (hy.symm.trans h)
              simp [hne]
      · have ho1 : (lte.job op).oneshot = false := by simpa using ho
        rw [if_neg ho]
        exact ⟨by rw [ho1], rfl, rfl, rfl, rfl, fun _ => rfl,
          fun hc => by rw [ho1] at hc; exact Bool.noConfusion hc⟩

/-! ## Bookkeeping of the jobs -/

theorem oneshot_count_nil (j : slot_job) : oneshot_count j [] = 0 := by
  unfold oneshot_count
  split <;> rfl

theorem oneshot_count_append (j : slot_job) (l1 l2 : List slot_job) :
    oneshot_count j (l1 ++ l2) = oneshot_count j l1 + oneshot_count j l2 := by
  unfold oneshot_count
  split
  · exact List.count_append _ _ _
  · rfl

theorem list_first_mem (p : lookup_table_element_t → Bool) (t : List lookup_table_element_t)
    (x : lookup_table_element_t) (h : list_first p t = some x) : x ∈ t ∧ p x = true := by
  rcases list_first_split p t x h with ⟨pre, post, ht, _, hx⟩
  exact ⟨by rw [ht]; simp, hx⟩

theorem balance_post (iosvc : io_service) (fd : Int) (op : io_svc_op_t) (oneshot : Bool)
    (job : iosvc_job_function_t) (ctx : Nat) (j : slot_job) (hj : j.job ≠ .NULL) :
    (holds (io_service_post_job iosvc fd op oneshot job ctx).lookup_table j).toNat
      = (holds iosvc.lookup_table j).toNat + (post_fills iosvc fd op oneshot job ctx).count j := by
  rw [holds_eq_slot_at _ j hj, holds_eq_slot_at _ j hj]
  unfold post_fills
  by_cases hacc : iosvc.allow_new = true ∧ job ≠ .NULL ∧ slot_empty iosvc.lookup_table fd op = true
  · rw [if_pos hacc, slot_at_post iosvc fd j.fd op j.op oneshot job ctx hacc.1 hacc.2.1 hacc.2.2]
    by_cases hc : j.fd = fd ∧ j.op = op
    · rw [if_pos hc]
      have hnone : slot_at iosvc.lookup_table j.fd j.op = none := by
        rw [hc.1, hc.2]
        exact (slot_empty_iff_slot_at _ _ _).mp hacc.2.2
      rw [hnone]
      rcases j with ⟨jj, jfd, jop, jctx, jo⟩
      simp only at hc
      rcases hc with ⟨h1, h2⟩
      subst h1
      subst h2
      by_cases he : (job = jj ∧ ctx = jctx ∧ oneshot = jo)
      · rcases he with ⟨h1, h2, h3⟩
        subst h1; subst h2; subst h3
        simp
      · have hne : ¬ ({ job := job, ctx := ctx, oneshot := oneshot } : job_t)
            = { job := jj, ctx := jctx, oneshot := jo } := by
          intro h
          injection h with h1 h2 h3
          exact he ⟨h1, h2, h3⟩
        have hne2 : ¬ ({ job := job, fd := jfd, op := jop, ctx := ctx, oneshot := oneshot } : slot_job)
            = { job := jj, fd := jfd, op := jop, ctx := jctx, oneshot := jo } := by
          intro h
          injection h with h1 _ _ h2 h3
          exact he ⟨h1, h2, h3⟩
        simp [hne, hne2, List.count_cons]
    · rw [if_neg hc]
      have hne2 : ¬ ({ job := job, fd := fd, op := op, ctx := ctx, oneshot := oneshot } : slot_job)
          = j := by
        intro h
        apply hc
        rw [← h]
        exact ⟨rfl, rfl⟩
      simp [hne2, List.count_cons]
  · rw [if_neg hacc, post_job_refused iosvc fd op oneshot job ctx hacc]
    simp

theorem balance_remove (iosvc : io_service) (fd : Int) (op : io_svc_op_t)
    (job : iosvc_job_function_t) (ctx : Nat) (j : slot_job) (hj : j.job ≠ .NULL)
    (hu : fd_unique iosvc.lookup_table) :
    (holds iosvc.lookup_table j).toNat
      = (holds (io_service_remove_job iosvc fd op job ctx).lookup_table j).toNat
        + (remove_clears iosvc fd op job ctx).count j := by
  rw [holds_eq_slot_at _ j hj, holds_eq_slot_at _ j hj, slot_at_remove]
  unfold remove_clears
  cases hfirst : list_first (remove_match fd op job ctx) iosvc.lookup_table with
  | none =>
    have hnone := (list_first_eq_none _ _).mp hfirst
    have hno : ¬ (j.fd = fd ∧ j.op = op
        ∧ ∃ x, slot_at iosvc.lookup_table fd op = some x ∧ x.job = job ∧ x.ctx = ctx) := by
      rintro ⟨_, _, x, hx, hxj, hxc⟩
      unfold slot_at at hx
      cases hf : list_find_fd fd iosvc.lookup_table with
      | none => rw [hf] at hx; exact Option.noConfusion hx
      | some e =>
        rw [hf] at hx
        have he := list_find_fd_some _ _ _ hf
        by_cases hn : (e.job op).job = .NULL
        · simp [hn] at hx
        · simp only [hn, if_false, Option.some.injEq] at hx
          subst hx
          have hm := (remove_match_iff fd op job ctx e).mpr ⟨he.2, hxj, hxc⟩
          rw [hnone e he.1] at hm
          exact Bool.noConfusion hm
    rw [if_neg hno]
    simp
  | some e =>
    have he := list_first_mem _ _ _ hfirst
    have hm := (remove_match_iff fd op job ctx e).mp he.2
    have hf := list_find_fd_of_mem fd _ e hu he.1 hm.1
    have hslot := slot_at_of_find _ fd op e hf
    simp only []
    by_cases hc : j.fd = fd ∧ j.op = op
    · rcases j with ⟨jj, jfd, jop, jctx, jo⟩
      simp only at hc hj
      rcases hc with ⟨h1, h2⟩
      subst h1
      subst h2
      simp only [true_and]
      by_cases hn : (e.job jop).job = .NULL
      · rw [if_pos hn] at hslot
        have hjob : job = .NULL := hm.2.1.symm.trans hn
        have hne2 : ¬ ({ job := job, fd := jfd, op := jop, ctx := ctx, oneshot := (e.job jop).oneshot } : slot_job)
            = { job := jj, fd := jfd, op := jop, ctx := jctx, oneshot := jo } := by
          intro h
          injection h with h1 _ _ _ _
          exact hj (h1.symm.trans hjob)
        simp [hslot, hne2, List.count_cons]
      · rw [if_neg hn] at hslot
        have hex : ∃ x, slot_at iosvc.lookup_table jfd jop = some x ∧ x.job = job ∧ x.ctx = ctx :=
          ⟨e.job jop, hslot, hm.2.1, hm.2.2⟩
        rw [if_pos hex, hslot]
        by_cases heq : e.job jop = { job := jj, ctx := jctx, oneshot := jo }
        · have h1 : job = jj := by rw [← hm.2.1, heq]
          have h2 : ctx = jctx := by rw [← hm.2.2, heq]
          have h3 : (e.job jop).oneshot = jo := by rw [heq]
          subst h1; subst h2
          simp [heq]
        · have hne2 : ¬ ({ job := job, fd := jfd, op := jop, ctx := ctx, oneshot := (e.job jop).oneshot } : slot_job)
              = { job := jj, fd := jfd, op := jop, ctx := jctx, oneshot := jo } := by
            intro h
            injection h with h1 _ _ h2 h3
            apply heq
            rcases hjob : e.job jop with ⟨a, b, c⟩
            rw [hjob] at hm h3
            simp only at hm h3
            rw [hm.2.1, hm.2.2, h3, h1, h2]
          simp [heq, hne2, List.count_cons]
    · have hno : ¬ (j.fd = fd ∧ j.op = op
          ∧ ∃ x, slot_at iosvc.lookup_table fd op = some x ∧ x.job = job ∧ x.ctx = ctx) :=
        fun h => hc ⟨h.1, h.2.1⟩
      rw [if_neg hno]
      have hne2 : ¬ ({ job := job, fd := fd, op := op, ctx := ctx, oneshot := (e.job op).oneshot } : slot_job) = j := by
        intro h
        apply hc
        rw [← h]
        exact ⟨rfl, rfl⟩
      simp [hne2, List.count_cons]

theorem holds_sweep (t : List lookup_table_element_t) (h : table_inv t) (j : slot_job)
    (hj : j.job ≠ .NULL) : holds (run_sweep t) j = holds t j := by
  rw [holds_eq_slot_at _ j hj, holds_eq_slot_at _ j hj, slot_at_sweep t h]

theorem dispatch_flags (iosvc : io_service) (fd : Int) (events : Nat) (op : io_svc_op_t) :
    (io_service_run_dispatch iosvc fd events op).1.allow_new = iosvc.allow_new
      ∧ (io_service_run_dispatch iosvc fd events op).1.running = iosvc.running
      ∧ (io_service_run_dispatch iosvc fd events op).1.event_fd = iosvc.event_fd
      ∧ (io_service_run_dispatch iosvc fd events op).1.event_fd_count = iosvc.event_fd_count := by
  unfold io_service_run_dispatch
  split
  · exact ⟨rfl, rfl, rfl, rfl⟩
  · split
    · exact ⟨rfl, rfl, rfl, rfl⟩
    · split
      · exact ⟨rfl, rfl, rfl, rfl⟩
      · simp only []
        split
        · split <;> exact ⟨rfl, rfl, rfl, rfl⟩
        · exact ⟨rfl, rfl, rfl, rfl⟩

theorem balance_dispatch (iosvc : io_service) (fd : Int) (events : Nat) (op : io_svc_op_t)
    (j : slot_job) (hj : j.job ≠ .NULL) (hinv : table_inv iosvc.lookup_table) :
    (holds iosvc.lookup_table j).toNat
      = (holds (io_service_run_dispatch iosvc fd events op).1.lookup_table j).toNat
        + oneshot_count j (io_service_run_dispatch iosvc fd events op).2.toList := by
  by_cases hb : events &&& OP_FLAGS op = 0
  · rw [dispatch_nothing iosvc fd events op (Or.inl hb)]
    simp [oneshot_count_nil]
  · cases hx : slot_at iosvc.lookup_table fd op with
    | none =>
      rw [dispatch_nothing iosvc fd events op (Or.inr hx)]
      simp [oneshot_count_nil]
    | some x =>
      have hd := dispatch_job iosvc fd events op x hb hx hinv
      rw [hd.1]
      simp only [Option.toList]
      by_cases ho : x.oneshot = true
      · rw [holds_eq_slot_at _ j hj, holds_eq_slot_at _ j hj, hd.2.2.2.2.2.2 ho]
        unfold oneshot_count
        by_cases hc : j.fd = fd ∧ j.op = op
        · rw [if_pos hc]
          rcases j with ⟨jj, jfd, jop, jctx, jo⟩
          simp only at hc hj
          rcases hc with ⟨h1, h2⟩
          subst h1
          subst h2
          simp only []
          rw [hx]
          by_cases heq : x = { job := jj, ctx := jctx, oneshot := jo }
          · subst heq
            simp only at ho
            subst ho
            simp
          · have hne2 : ¬ ({ job := x.job, fd := jfd, op := jop, ctx := x.ctx, oneshot := x.oneshot } : slot_job) = { job := jj, fd := jfd, op := jop, ctx := jctx, oneshot := jo } := by
              intro h
              injection h with h1 _ _ h2 h3
              apply heq
              rcases x with ⟨a, b, c⟩
              simp only at h1 h2 h3
              rw [h1, h2, h3]
            simp [heq, hne2, List.count_cons]
        · rw [if_neg hc]
          have hne2 : ¬ ({ job := x.job, fd := fd, op := op, ctx := x.ctx, oneshot := x.oneshot } : slot_job) = j := by
            intro h
            apply hc
            rw [← h]
            exact ⟨rfl, rfl⟩
          simp [hne2, List.count_cons]
      · have ho1 : x.oneshot = false := by simpa using ho
        rw [hd.2.2.2.2.2.1 ho1]
        unfold oneshot_count
        by_cases hjo : j.oneshot = true
        · have hne2 : ¬ ({ job := x.job, fd := fd, op := op, ctx := x.ctx, oneshot := x.oneshot } : slot_job) = j := by
            intro h
            rw [← h] at hjo
            simp only at hjo
            rw [ho1] at hjo
            exact Bool.noConfusion hjo
          simp [hne2, List.count_cons]
        · simp [hjo]

theorem dispatch_ops_flags (fd : Int) (events : Nat) (ops : List io_svc_op_t)
    (iosvc : io_service) :
    (run_dispatch_ops iosvc fd events ops).1.allow_new = iosvc.allow_new
      ∧ (run_dispatch_ops iosvc fd events ops).1.running = iosvc.running
      ∧ (run_dispatch_ops iosvc fd events ops).1.event_fd = iosvc.event_fd
      ∧ (run_dispatch_ops iosvc fd events ops).1.event_fd_count = iosvc.event_fd_count := by
  induction ops generalizing iosvc with
  | nil => exact ⟨rfl, rfl, rfl, rfl⟩
  | cons op rest ih =>
    unfold run_dispatch_ops
    have hd := dispatch_flags iosvc fd events op
    rcases hdis : io_service_run_dispatch iosvc fd events op with ⟨s1, inv⟩
    rw [hdis] at hd
    cases inv with
    | none =>
      have h := ih s1
      exact ⟨h.1.trans hd.1, h.2.1.trans hd.2.1, h.2.2.1.trans hd.2.2.1, h.2.2.2.trans hd.2.2.2⟩
    | some i => exact hd

theorem balance_dispatch_ops (fd : Int) (events : Nat) (ops : List io_svc_op_t)
    (j : slot_job) (hj : j.job ≠ .NULL) (iosvc : io_service)
    (hinv : table_inv iosvc.lookup_table) :
    (holds iosvc.lookup_table j).toNat
      = (holds (run_dispatch_ops iosvc fd events ops).1.lookup_table j).toNat
        + oneshot_count j (run_dispatch_ops iosvc fd events ops).2.2 := by
  induction ops generalizing iosvc with
  | nil => simp [run_dispatch_ops, oneshot_count_nil]
  | cons op rest ih =>
    unfold run_dispatch_ops
    have hb := balance_dispatch iosvc fd events op j hj hinv
    have hi := table_inv_dispatch iosvc fd events op hinv
    rcases hdis : io_service_run_dispatch iosvc fd events op with ⟨s1, inv⟩
    rw [hdis] at hb hi
    cases inv with
    | none =>
      simp only [Option.toList, oneshot_count_nil, Nat.add_zero] at hb
      rw [hb]
      exact ih s1 hi
    | some i => exact hb

theorem balance_step (sys sys1 : reactor) (a : action) (j : slot_job) (hj : j.job ≠ .NULL)
    (hs : step sys a = some sys1) (hinv : table_inv sys.iosvc.lookup_table)
    (hb : balance sys j) : balance sys1 j := by
  unfold balance at hb ⊢
  cases a with
  | post fd op oneshot job ctx =>
    simp only [step, Option.some.injEq] at hs
    subst hs
    simp only [List.count_append]
    rw [balance_post _ _ _ _ _ _ j hj]
    omega
  | remove fd op job ctx =>
    simp only [step, Option.some.injEq] at hs
    subst hs
    simp only [List.count_append]
    have h := balance_remove sys.iosvc fd op job ctx j hj hinv.1
    omega
  | stop w =>
    simp only [step, Option.some.injEq] at hs
    subst hs
    exact hb
  | run =>
    unfold step at hs
    cases hpc : sys.pc <;> rw [hpc] at hs <;> simp at hs <;> subst hs <;> exact hb
  | wait_failed =>
    unfold step at hs
    cases hpc : sys.pc <;> rw [hpc] at hs <;> simp at hs
    subst hs
    exact hb
  | wake fd events =>
    unfold step at hs
    cases hpc : sys.pc <;> rw [hpc] at hs <;> simp at hs
    by_cases hfd : fd = sys.iosvc.event_fd
    · rw [if_pos hfd] at hs
      by_cases hcnt : sys.iosvc.event_fd_count = 0
      · simp [hcnt] at hs
      · simp [hcnt] at hs
        subst hs
        have hsw : holds (io_service_run_notified sys.iosvc).lookup_table j
            = holds sys.iosvc.lookup_table j := by
          unfold io_service_run_notified
          simp only []
          split
          · exact holds_sweep _ hinv j hj
          · exact holds_sweep _ hinv j hj
        simp only []
        rw [hsw]
        exact hb
    · rw [if_neg hfd] at hs
      simp at hs
      subst hs
      simp only [oneshot_count_append]
      have h := balance_dispatch_ops fd events all_ops j hj sys.iosvc hinv
      omega
  | job_returns =>
    unfold step at hs
    cases hpc : sys.pc <;> rw [hpc] at hs <;> simp at hs
    subst hs
    rename_i fd events rest
    simp only [oneshot_count_append]
    have h := balance_dispatch_ops fd events rest j hj sys.iosvc hinv
    omega

theorem balance_exec (acts : List action) (sys sys1 : reactor) (j : slot_job)
    (hj : j.job ≠ .NULL) (hs : exec sys acts = some sys1)
    (hinv : table_inv sys.iosvc.lookup_table) (hb : balance sys j) : balance sys1 j := by
  induction acts generalizing sys with
  | nil =>
    simp only [exec, Option.some.injEq] at hs
    subst hs
    exact hb
  | cons a rest ih =>
    unfold exec at hs
    cases hst : step sys a with
    | none => rw [hst] at hs; simp at hs
    | some s1 =>
      rw [hst] at hs
      exact ih s1 hs (table_inv_step sys s1 a hst hinv) (balance_step sys s1 a j hj hst hinv hb)

theorem balance_init (iosvc : io_service) (h : iosvc.lookup_table = []) (j : slot_job) :
    balance (reactor_init iosvc) j := by
  unfold balance reactor_init oneshot_count holds
  simp [h, list_find_fd]

theorem run_notified_fields (iosvc : io_service) :
    (io_service_run_notified iosvc).lookup_table = run_sweep iosvc.lookup_table
      ∧ (io_service_run_notified iosvc).allow_new = iosvc.allow_new
      ∧ (io_service_run_notified iosvc).event_fd = iosvc.event_fd
      ∧ (io_service_run_notified iosvc).event_fd_count = iosvc.event_fd_count - 1
      ∧ (io_service_run_notified iosvc).running
          = if iosvc.lookup_table.length = 0 ∧ iosvc.allow_new = false then false
            else iosvc.running := by
  unfold io_service_run_notified svc_notified
  simp only []
  split <;> exact ⟨rfl, rfl, rfl, rfl, rfl⟩

theorem slot_at_some (t : List lookup_table_element_t) (fd : Int) (op : io_svc_op_t)
    (x : job_t) (hx : slot_at t fd op = some x) :
    ∃ l0, list_find_fd fd t = some l0 ∧ l0.job op = x ∧ x.job ≠ .NULL := by
  unfold slot_at at hx
  cases hf : list_find_fd fd t with
  | none => rw [hf] at hx; exact Option.noConfusion hx
  | some l0 =>
    rw [hf] at hx
    by_cases hn : (l0.job op).job = .NULL
    · simp only [hn, if_true] at hx
      exact Option.noConfusion hx
    · simp only [hn, if_false, Option.some.injEq] at hx
      subst hx
      exact ⟨l0, rfl, rfl, hn⟩

theorem dispatch_oneshot_table (iosvc : io_service) (fd : Int) (events : Nat) (op : io_svc_op_t)
    (l0 : lookup_table_element_t) (hb : events &&& OP_FLAGS op ≠ 0)
    (hf0 : list_find_fd fd iosvc.lookup_table = some l0) (hn0 : (l0.job op).job ≠ .NULL)
    (ho : (l0.job op).oneshot = true) :
    (io_service_run_dispatch iosvc fd events op).1.lookup_table
      = if (lte_clear op l0).event.events = 0 then list_remove_fd fd iosvc.lookup_table
        else list_update_first (fun l => decide (l.fd = fd)) (lte_clear op) iosvc.lookup_table := by
  unfold io_service_run_dispatch
  rw [if_neg hb, hf0]
  simp only [hn0, ho, if_true, if_false]
  split <;> rfl

/-! ## An empty slot stays empty without a post -/

theorem slot_none_dispatch_ops (fd fd1 : Int) (op : io_svc_op_t) (events : Nat)
    (ops : List io_svc_op_t) (iosvc : io_service) (hinv : table_inv iosvc.lookup_table)
    (hnone : slot_at iosvc.lookup_table fd op = none) :
    slot_at (run_dispatch_ops iosvc fd1 events ops).1.lookup_table fd op = none
      ∧ ∀ i ∈ (run_dispatch_ops iosvc fd1 events ops).2.2, ¬ (i.fd = fd ∧ i.op = op) := by
  induction ops generalizing iosvc with
  | nil => exact ⟨hnone, fun i hi => absurd hi (List.not_mem_nil _)⟩
  | cons op1 rest ih =>
    unfold run_dispatch_ops
    have hi := table_inv_dispatch iosvc fd1 events op1 hinv
    by_cases hb : events &&& OP_FLAGS op1 = 0
    · rw [dispatch_nothing iosvc fd1 events op1 (Or.inl hb)]
      exact ih iosvc hinv hnone
    · cases hx : slot_at iosvc.lookup_table fd1 op1 with
      | none =>
        rw [dispatch_nothing iosvc fd1 events op1 (Or.inr hx)]
        exact ih iosvc hinv hnone
      | some x =>
        have hd := dispatch_job iosvc fd1 events op1 x hb hx hinv
        rcases hdis : io_service_run_dispatch iosvc fd1 events op1 with ⟨s1, inv⟩
        rw [hdis] at hd
        simp only at hd
        rw [hd.1]
        simp only []
        have hne : ¬ (fd1 = fd ∧ op1 = op) := by
          rintro ⟨h1, h2⟩
          rw [h1, h2, hnone] at hx
          exact Option.noConfusion hx
        refine ⟨?_, ?_⟩
        · by_cases ho : x.oneshot = true
          · rw [hd.2.2.2.2.2.2 ho fd op]
            split
            · rfl
            · exact hnone
          · have ho1 : x.oneshot = false := by simpa using ho
            rw [hd.2.2.2.2.2.1 ho1]
            exact hnone
        · intro i hi2
          simp only [List.mem_singleton] at hi2
          subst hi2
          exact hne

theorem slot_none_step (sys sys1 : reactor) (a : action) (fd : Int) (op : io_svc_op_t)
    (hinv : table_inv sys.iosvc.lookup_table)
    (hnone : slot_at sys.iosvc.lookup_table fd op = none)
    (hnp : is_post_at fd op a = false) (hs : step sys a = some sys1) :
    slot_at sys1.iosvc.lookup_table fd op = none
      ∧ ∃ extra, sys1.invoked = sys.invoked ++ extra ∧ ∀ i ∈ extra, ¬ (i.fd = fd ∧ i.op = op) := by
  cases a with
  | post fd1 op1 oneshot job ctx =>
    simp only [step, Option.some.injEq] at hs
    subst hs
    refine ⟨?_, [], by simp, by simp⟩
    simp only []
    by_cases hacc : sys.iosvc.allow_new = true ∧ job ≠ .NULL
        ∧ slot_empty sys.iosvc.lookup_table fd1 op1 = true
    · rw [slot_at_post sys.iosvc fd1 fd op1 op oneshot job ctx hacc.1 hacc.2.1 hacc.2.2]
      have hne : ¬ (fd = fd1 ∧ op = op1) := by
        rintro ⟨h1, h2⟩
        simp [is_post_at, h1, h2] at hnp
      rw [if_neg hne]
      exact hnone
    · rw [post_job_refused _ _ _ _ _ _ hacc]
      exact hnone
  | remove fd1 op1 job ctx =>
    simp only [step, Option.some.injEq] at hs
    subst hs
    refine ⟨?_, [], by simp, by simp⟩
    simp only []
    rw [slot_at_remove]
    split
    · rfl
    · exact hnone
  | stop w =>
    simp only [step, Option.some.injEq] at hs
    subst hs
    exact ⟨hnone, [], by simp, by simp⟩
  | run =>
    unfold step at hs
    cases hpc : sys.pc <;> rw [hpc] at hs <;> simp at hs <;> subst hs <;>
      exact ⟨hnone, [], by simp, by simp⟩
  | wait_failed =>
    unfold step at hs
    cases hpc : sys.pc <;> rw [hpc] at hs <;> simp at hs
    subst hs
    exact ⟨hnone, [], by simp, by simp⟩
  | wake fd1 events =>
    unfold step at hs
    cases hpc : sys.pc <;> rw [hpc] at hs <;> simp at hs
    by_cases hfd : fd1 = sys.iosvc.event_fd
    · rw [if_pos hfd] at hs
      by_cases hcnt : sys.iosvc.event_fd_count = 0
      · simp [hcnt] at hs
      · simp [hcnt] at hs
        subst hs
        refine ⟨?_, [], by simp, by simp⟩
        simp only []
        rw [(run_notified_fields sys.iosvc).1, slot_at_sweep _ hinv]
        exact hnone
    · rw [if_neg hfd] at hs
      simp at hs
      subst hs
      have h := slot_none_dispatch_ops fd fd1 op events all_ops sys.iosvc hinv hnone
      exact ⟨h.1, _, rfl, h.2⟩
  | job_returns =>
    unfold step at hs
    cases hpc : sys.pc <;> rw [hpc] at hs <;> simp at hs
    subst hs
    rename_i fd1 events rest
    have h := slot_none_dispatch_ops fd fd1 op events rest sys.iosvc hinv hnone
    exact ⟨h.1, _, rfl, h.2⟩

theorem slot_none_exec (acts : List action) (sys sys1 : reactor) (fd : Int) (op : io_svc_op_t)
    (hinv : table_inv sys.iosvc.lookup_table)
    (hnone : slot_at sys.iosvc.lookup_table fd op = none)
    (hnp : ∀ a ∈ acts, is_post_at fd op a = false) (hs : exec sys acts = some sys1) :
    ∃ extra, sys1.invoked = sys.invoked ++ extra ∧ ∀ i ∈ extra, ¬ (i.fd = fd ∧ i.op = op) := by
  induction acts generalizing sys with
  | nil =>
    simp only [exec, Option.some.injEq] at hs
    subst hs
    exact ⟨[], by simp, by simp⟩
  | cons a rest ih =>
    unfold exec at hs
    cases hst : step sys a with
    | none => rw [hst] at hs; simp at hs
    | some s1 =>
      rw [hst] at hs
      have h1 := slot_none_step sys s1 a fd op hinv hnone (hnp a (List.mem_cons_self _ _)) hst
      rcases h1 with ⟨hn1, e1, he1, hp1⟩
      rcases ih s1 (table_inv_step sys s1 a hst hinv) hn1
        (fun b hb => hnp b (List.mem_cons_of_mem _ hb)) hs with ⟨e2, he2, hp2⟩
      refine ⟨e1 ++ e2, by rw [he2, he1, List.append_assoc], ?_⟩
      intro i hi
      rcases List.mem_append.mp hi with h | h
      · exact hp1 i h
      · exact hp2 i h

/-! ## The position of the loop -/

theorem post_job_flags (iosvc : io_service) (fd : Int) (op : io_svc_op_t) (oneshot : Bool)
    (job : iosvc_job_function_t) (ctx : Nat) :
    (io_service_post_job iosvc fd op oneshot job ctx).allow_new = iosvc.allow_new
      ∧ (io_service_post_job iosvc fd op oneshot job ctx).running = iosvc.running
      ∧ (io_service_post_job iosvc fd op oneshot job ctx).event_fd = iosvc.event_fd := by
  by_cases hacc : iosvc.allow_new = true ∧ job ≠ .NULL ∧ slot_empty iosvc.lookup_table fd op = true
  · have h := post_job_accepted iosvc fd op oneshot job ctx hacc.1 hacc.2.1 hacc.2.2
    exact ⟨h.2.1, h.2.2.1, h.2.2.2.1⟩
  · rw [post_job_refused _ _ _ _ _ _ hacc]
    exact ⟨rfl, rfl, rfl⟩

theorem dispatch_ops_pc (fd : Int) (events : Nat) (ops : List io_svc_op_t) (iosvc : io_service) :
    (run_dispatch_ops iosvc fd events ops).2.1
        = run_loop_head (run_dispatch_ops iosvc fd events ops).1
      ∨ ∃ rest, (run_dispatch_ops iosvc fd events ops).2.1 = .in_job fd events rest := by
  induction ops generalizing iosvc with
  | nil => exact Or.inl rfl
  | cons op rest ih =>
    unfold run_dispatch_ops
    rcases hdis : io_service_run_dispatch iosvc fd events op with ⟨s1, inv⟩
    cases inv with
    | none => exact ih s1
    | some i => exact Or.inr ⟨rest, rfl⟩

theorem run_inv_dispatch_ops (sys : reactor) (fd : Int) (events : Nat) (ops : List io_svc_op_t)
    (log : List slot_job) (hr : sys.iosvc.running = true) :
    run_inv { sys with
      iosvc := (run_dispatch_ops sys.iosvc fd events ops).1
      pc := (run_dispatch_ops sys.iosvc fd events ops).2.1
      invoked := log } := by
  have hfl := (dispatch_ops_flags fd events ops sys.iosvc).2.1
  unfold run_inv
  rcases dispatch_ops_pc fd events ops sys.iosvc with h | ⟨rest, h⟩
  · simp only []
    rw [h]
    unfold run_loop_head
    rw [hfl, hr]
    simp only [if_true]
  · simp only []
    rw [h]
    exact hfl.trans hr

theorem run_inv_step (sys sys1 : reactor) (a : action) (hna : a ≠ .stop false)
    (hs : step sys a = some sys1) (h : run_inv sys) : run_inv sys1 := by
  cases a with
  | post fd op oneshot job ctx =>
    simp only [step, Option.some.injEq] at hs
    subst hs
    have hfl := post_job_flags sys.iosvc fd op oneshot job ctx
    unfold run_inv at h ⊢
    cases hpc : sys.pc with
    | idle => simp only []
    | waiting => rw [hpc] at h; simp only [] at h ⊢; exact hfl.2.1.trans h
    | in_job f e r => rw [hpc] at h; simp only [] at h ⊢; exact hfl.2.1.trans h
    | returned =>
      rw [hpc] at h
      simp only [] at h ⊢
      rw [post_job_refused sys.iosvc fd op oneshot job ctx (fun hc => by
        rw [h.2] at hc; exact Bool.noConfusion hc.1)]
      exact h
  | remove fd op job ctx =>
    simp only [step, Option.some.injEq] at hs
    subst hs
    have hfl := remove_job_flags sys.iosvc fd op job ctx
    unfold run_inv at h ⊢
    cases hpc : sys.pc with
    | idle => simp only []
    | waiting => rw [hpc] at h; simp only [] at h ⊢; exact hfl.2.1.trans h
    | in_job f e r => rw [hpc] at h; simp only [] at h ⊢; exact hfl.2.1.trans h
    | returned =>
      rw [hpc] at h
      simp only [] at h ⊢
      rw [hfl.2.2, hfl.1, h.1]
      exact ⟨rfl, h.2⟩
  | stop w =>
    cases w with
    | false => exact absurd rfl hna
    | true =>
      simp only [step, Option.some.injEq] at hs
      subst hs
      unfold run_inv at h ⊢
      cases hpc : sys.pc with
      | idle => simp only []
      | waiting => simp only [io_service_stop, notify_svc]
      | in_job f e r => simp only [io_service_stop, notify_svc]
      | returned =>
        rw [hpc] at h
        simp only [io_service_stop, notify_svc] at h ⊢
        exact ⟨h.1, trivial⟩
  | run =>
    unfold step at hs
    cases hpc : sys.pc <;> rw [hpc] at hs <;> simp at hs <;> subst hs <;>
      simp [run_inv, run_loop_head, io_service_run_enter]
  | wait_failed =>
    unfold step at hs
    unfold run_inv at h
    cases hpc : sys.pc <;> rw [hpc] at hs <;> simp at hs
    subst hs
    rw [hpc] at h
    simp only [] at h
    simp [run_inv, run_loop_head, h]
  | wake fd events =>
    unfold step at hs
    unfold run_inv at h
    cases hpc : sys.pc <;> rw [hpc] at hs <;> simp at hs
    rw [hpc] at h
    simp only [] at h
    by_cases hfd : fd = sys.iosvc.event_fd
    · rw [if_pos hfd] at hs
      by_cases hcnt : sys.iosvc.event_fd_count = 0
      · simp [hcnt] at hs
      · simp [hcnt] at hs
        subst hs
        have hf := run_notified_fields sys.iosvc
        unfold run_inv run_loop_head
        simp only []
        by_cases hc : sys.iosvc.lookup_table.length = 0 ∧ sys.iosvc.allow_new = false
        · have hrun : (io_service_run_notified sys.iosvc).running = false := by
            rw [hf.2.2.2.2, if_pos hc]
          rw [hrun]
          simp only [Bool.false_eq_true, if_false]
          rw [hf.1, hf.2.1, List.length_eq_zero.mp hc.1]
          exact ⟨rfl, hc.2⟩
        · have hrun : (io_service_run_notified sys.iosvc).running = true := by
            rw [hf.2.2.2.2, if_neg hc]
            exact h
          rw [hrun]
          simp only [if_true]
    · rw [if_neg hfd] at hs
      simp at hs
      subst hs
      exact run_inv_dispatch_ops sys fd events all_ops _ h
  | job_returns =>
    unfold step at hs
    unfold run_inv at h
    cases hpc : sys.pc <;> rw [hpc] at hs <;> simp at hs
    rw [hpc] at h
    simp only [] at h
    subst hs
    exact run_inv_dispatch_ops sys _ _ _ _ h

theorem run_inv_exec (acts : List action) (sys sys1 : reactor)
    (hna : ∀ a ∈ acts, a ≠ action.stop false)
    (hs : exec sys acts = some sys1) (h : run_inv sys) : run_inv sys1 := by
  induction acts generalizing sys with
  | nil =>
    simp only [exec, Option.some.injEq] at hs
    subst hs
    exact h
  | cons a rest ih =>
    unfold exec at hs
    cases hst : step sys a with
    | none => rw [hst] at hs; simp at hs
    | some s1 =>
      rw [hst] at hs
      exact ih s1 (fun b hb => hna b (List.mem_cons_of_mem _ hb)) hs
        (run_inv_step sys s1 a (hna a (List.mem_cons_self _ _)) hst h)

/-! ## Wakes that find nothing to dispatch -/

theorem dispatch_ops_no_entry (fd : Int) (events : Nat) (ops : List io_svc_op_t)
    (iosvc : io_service) (hnone : list_find_fd fd iosvc.lookup_table = none) :
    run_dispatch_ops iosvc fd events ops = (iosvc, run_loop_head iosvc, []) := by
  induction ops with
  | nil => rfl
  | cons op rest ih =>
    unfold run_dispatch_ops
    rw [dispatch_nothing iosvc fd events op (Or.inr (slot_at_of_find_none _ _ _ hnone))]
    exact ih

theorem wake_no_entry (sys : reactor) (fd : Int) (events : Nat) (hpc : sys.pc = .waiting)
    (hfd : fd ≠ sys.iosvc.event_fd) (hnone : list_find_fd fd sys.iosvc.lookup_table = none) :
    step sys (.wake fd events) = some { sys with pc := run_loop_head sys.iosvc } := by
  unfold step
  rw [hpc]
  simp only []
  rw [if_neg hfd, dispatch_ops_no_entry fd events all_ops sys.iosvc hnone]
  simp

theorem wake_notified (sys : reactor) (fd : Int) (events : Nat) (hpc : sys.pc = .waiting)
    (hfd : fd = sys.iosvc.event_fd) (hcnt : sys.iosvc.event_fd_count ≠ 0) :
    step sys (.wake fd events)
      = some { sys with
          iosvc := io_service_run_notified sys.iosvc
          pc := run_loop_head (io_service_run_notified sys.iosvc) } := by
  unfold step
  rw [hpc]
  simp only []
  rw [if_pos hfd, if_neg hcnt]

theorem wake_notified_none (sys : reactor) (fd : Int) (events : Nat) (hpc : sys.pc = .waiting)
    (hfd : fd = sys.iosvc.event_fd) (hcnt : sys.iosvc.event_fd_count = 0) :
    step sys (.wake fd events) = none := by
  unfold step
  rw [hpc]
  simp only []
  rw [if_pos hfd, if_pos hcnt]

theorem waiting_exec (X : Int) (lte : lookup_table_element_t) (hX : lte.fd = X)
    (he : lte.event.events ≠ 0) (wakes : List action) (sys sys1 : reactor)
    (hpc : sys.pc = .waiting) (hr : sys.iosvc.running = true)
    (ht : sys.iosvc.lookup_table = [lte]) (hw : ∀ a ∈ wakes, wake_not_on X a)
    (hs : exec sys wakes = some sys1) :
    sys1.invoked = sys.invoked ∧ sys1.pc = .waiting := by
  induction wakes generalizing sys with
  | nil =>
    simp only [exec, Option.some.injEq] at hs
    subst hs
    exact ⟨rfl, hpc⟩
  | cons a rest ih =>
    unfold exec at hs
    have hrest : ∀ b ∈ rest, wake_not_on X b := fun b hb => hw b (List.mem_cons_of_mem _ hb)
    have hhead : run_loop_head sys.iosvc = .waiting := by
      unfold run_loop_head
      rw [if_pos hr]
    rcases hw a (List.mem_cons_self _ _) with ha | ⟨fd, events, ha, hfd⟩
    · subst ha
      have hst : step sys .wait_failed = some { sys with pc := run_loop_head sys.iosvc } := by
        unfold step
        rw [hpc]
      rw [hst] at hs
      simp only [] at hs
      rw [hhead] at hs
      exact ih { sys with pc := .waiting } rfl hr ht hrest hs
    · subst ha
      by_cases hev : fd = sys.iosvc.event_fd
      · by_cases hcnt : sys.iosvc.event_fd_count = 0
        · rw [wake_notified_none sys fd events hpc hev hcnt] at hs
          exact Option.noConfusion hs
        · rw [wake_notified sys fd events hpc hev hcnt] at hs
          simp only [] at hs
          have hf := run_notified_fields sys.iosvc
          have hlen : ¬ (sys.iosvc.lookup_table.length = 0 ∧ sys.iosvc.allow_new = false) := by
            rw [ht]
            simp
          have hrun : (io_service_run_notified sys.iosvc).running = true := by
            rw [hf.2.2.2.2, if_neg hlen]
            exact hr
          have htab : (io_service_run_notified sys.iosvc).lookup_table = [lte] := by
            rw [hf.1, ht]
            simp [run_sweep, he]
          have hhead1 : run_loop_head (io_service_run_notified sys.iosvc) = .waiting := by
            unfold run_loop_head
            rw [if_pos hrun]
          rw [hhead1] at hs
          exact ih { sys with iosvc := io_service_run_notified sys.iosvc, pc := .waiting } rfl hrun
            htab hrest hs
      · have hnone : list_find_fd fd sys.iosvc.lookup_table = none := by
          rw [ht]
          simp [list_find_fd, hX, Ne.symm hfd]
        rw [wake_no_entry sys fd events hpc hev hnone, hhead] at hs
        simp only [] at hs
        exact ih { sys with pc := .waiting } rfl hr ht hrest hs

/-! ## The engine callbacks -/

theorem slot_at_post_same (iosvc : io_service) (fd : Int) (op : io_svc_op_t) (oneshot : Bool)
    (job : iosvc_job_function_t) (ctx : Nat) (ha : iosvc.allow_new = true) (hj : job ≠ .NULL)
    (hs : slot_at iosvc.lookup_table fd op = none) :
    slot_at (io_service_post_job iosvc fd op oneshot job ctx).lookup_table fd op
      = some { job := job, ctx := ctx, oneshot := oneshot } := by
  rw [slot_at_post iosvc fd fd op op oneshot job ctx ha hj ((slot_empty_iff_slot_at _ _ _).mpr hs),
    if_pos ⟨rfl, rfl⟩]

theorem srb_tpl_ne_null (srb : srb_t) : srb_tpl srb ≠ .NULL := by
  unfold srb_tpl
  cases srb.type <;> simp

theorem srb_tpl_run_rearm (iosvc : io_service) (fd : Int) (op : io_svc_op_t) (srb : srb_t)
    (r : syscall_result) (more_bytes stale : Int) (h : srb_rearms srb r) :
    (srb_tpl_run iosvc fd op srb r more_bytes stale).iosvc
        = io_service_post_job iosvc fd (net_iosvc_op srb.op) true (srb_tpl srb) srb.self
      ∧ (srb_tpl_run iosvc fd op srb r more_bytes stale).called = none
      ∧ (srb_tpl_run iosvc fd op srb r more_bytes stale).freed = false
      ∧ srb_job (srb_tpl_run iosvc fd op srb r more_bytes stale).srb = srb_job srb
      ∧ (srb_tpl_run iosvc fd op srb r more_bytes stale).srb.op = srb.op := by
  unfold srb_tpl_run srb_tpl srb_job srb_tpl
  rcases h with ⟨h1, h2⟩ | ⟨h1, h2⟩
  · cases ht : srb.type <;>
      simp [tcp_send_recv_async_tpl, udp_send_async_tpl, h1, h2, ht]
  · have h3 : ¬ r.ret < 0 := not_lt.mpr h1
    cases ht : srb.type <;>
      simp [tcp_send_recv_async_tpl, udp_send_async_tpl, h3, h2, ht]

theorem srb_tpl_run_done (iosvc : io_service) (fd : Int) (op : io_svc_op_t) (srb : srb_t)
    (r : syscall_result) (more_bytes stale : Int) (h : ¬ srb_rearms srb r) :
    (srb_tpl_run iosvc fd op srb r more_bytes stale).iosvc = iosvc
      ∧ (srb_tpl_run iosvc fd op srb r more_bytes stale).freed = true
      ∧ (srb.cb ≠ 0 → ∃ call, (srb_tpl_run iosvc fd op srb r more_bytes stale).called = some call)
      ∧ (srb.cb = 0 → (srb_tpl_run iosvc fd op srb r more_bytes stale).called = none) := by
  unfold srb_rearms at h
  unfold srb_tpl_run
  by_cases h1 : r.ret < 0
  · have h2 : ¬ (r.errno = EAGAIN ∨ r.errno = EWOULDBLOCK) := fun h2 => h (Or.inl ⟨h1, h2⟩)
    cases ht : srb.type <;>
      simp [tcp_send_recv_async_tpl, udp_send_async_tpl, h1, h2]
  · have h2 : ¬ size_add srb.bytes_operated r.ret < buffer_size srb.buffer :=
      fun h2 => h (Or.inr ⟨not_lt.mp h1, h2⟩)
    cases ht : srb.type <;>
      simp [tcp_send_recv_async_tpl, udp_send_async_tpl, h1, h2]

theorem srb_operate_eq (iosvc : io_service) (srb : srb_t) (hok : srb_async_ok srb) :
    ∃ srb1, srb_operate iosvc srb
        = some (io_service_post_job iosvc (ep_skt srb).skt (net_iosvc_op srb.op) true
            (srb_tpl srb) srb.self, srb1)
      ∧ srb_job srb1 = srb_job srb ∧ srb1.op = srb.op ∧ srb1.buffer = srb.buffer
      ∧ srb1.cb = srb.cb := by
  rcases srb with ⟨self, ty, op, src, dst, io, buf, bo, cb, ctx, iov⟩
  unfold srb_async_ok at hok
  simp only at hok
  rcases hok with ⟨h1, h2, h3, h4, h5⟩
  cases buf with
  | none => exact absurd rfl h2
  | some n =>
    cases ty with
    | EPT_TCP =>
      refine ⟨{ self := self, type := .EPT_TCP, op := op, src := src, dst := dst, iosvc := io, buffer := some n, bytes_operated := bo, cb := cb, ctx := ctx, iov_len := size_sub n bo }, ?_, rfl, rfl, rfl, rfl⟩
      simp [srb_operate, tcp_send_recv_async, h1, h3, h4, srb_tpl]
    | EPT_UDP =>
      have hop : op = .SRB_OP_SEND := h5 rfl
      subst hop
      simp only [ep_skt] at h3 h4
      refine ⟨{ self := self, type := .EPT_UDP, op := .SRB_OP_SEND, src := src, dst := dst, iosvc := io, buffer := some n, bytes_operated := 0, cb := cb, ctx := ctx, iov_len := n }, ?_, rfl, rfl, rfl, rfl⟩
      simp [srb_operate, udp_send_async, h1, h3, h4, srb_tpl, ep_skt]

/-! ## The notification branch -/

theorem exec_three (s s1 s2 s3 : reactor) (a b c : action) (h1 : step s a = some s1)
    (h2 : step s1 b = some s2) (h3 : step s2 c = some s3) : exec s [a, b, c] = some s3 := by
  simp [exec, h1, h2, h3]

theorem run_sweep_eq_filter (t : List lookup_table_element_t) :
    run_sweep t = t.filter (fun lte => decide (lte.event.events ≠ 0)) := by
  induction t with
  | nil => rfl
  | cons a rest ih =>
    unfold run_sweep
    by_cases h : a.event.events = 0
    · simp [h, ih]
    · simp [h, ih]

theorem post_remove_find (iosvc : io_service) (X : Int) (op : io_svc_op_t) (oneshot : Bool)
    (J : iosvc_job_function_t) (ctx : Nat) (ha : iosvc.allow_new = true) (hJ : J ≠ .NULL)
    (hX : list_find_fd X iosvc.lookup_table = none) :
    list_find_fd X
        (io_service_remove_job (io_service_post_job iosvc X op oneshot J ctx) X op J ctx).lookup_table
      = some (lte_clear op (lte_fill op oneshot J ctx (lte_new X))) := by
  have hs : slot_empty iosvc.lookup_table X op = true := by
    unfold slot_empty
    rw [hX]
  have hp := post_job_find iosvc X X op oneshot J ctx ha hJ hs
  rw [if_pos rfl] at hp
  have ht : post_target iosvc.lookup_table X = lte_new X := by
    unfold post_target
    rw [hX]
  rw [ht] at hp
  rw [(remove_job_flags _ X op J ctx).2.2,
    list_find_fd_update X X _ _ (remove_match_fd X op J ctx) (lte_clear_fd op), hp]
  have hm : remove_match X op J ctx (lte_fill op oneshot J ctx (lte_new X)) = true := by
    rw [remove_match_iff, lte_fill_fd, lte_fill_job, if_pos rfl]
    exact ⟨rfl, rfl, rfl⟩
  simp [hm]

theorem lte_clear_fill_new_events (X : Int) (op : io_svc_op_t) (oneshot : Bool)
    (J : iosvc_job_function_t) (ctx : Nat) :
    (lte_clear op (lte_fill op oneshot J ctx (lte_new X))).event.events = 0 := by
  rw [lte_clear_events, lte_fill_events]
  have h0 : (lte_new X).event.events = 0 := rfl
  rw [h0]
  exact events_clear_or 0 op (by norm_num) (Nat.zero_and _)

/-! ## Arithmetic of `size_t` -/

theorem size_sub_of_le (a b : Nat) (h : b ≤ a) (ha : a < 2 ^ 64) : size_sub a b = a - b := by
  unfold size_sub SIZE_MOD
  omega

theorem size_add_of_nonneg (a : Nat) (r : Int) (hr : 0 ≤ r) (h : (a : Int) + r < 2 ^ 64) :
    (size_add a r : Int) = a + r := by
  unfold size_add SIZE_MOD
  push_cast
  omega

/-! ## The transfer loops -/

theorem sync_loop_zero_limit (kern : Nat → Nat → syscall_result) (iov_len : Nat → Nat)
    (fuel : Nat) (st : loop_state) :
    sync_loop kern 0 iov_len fuel st = { st with finished := true } := by
  cases fuel <;> simp [sync_loop]

theorem ssize_max_cast : (SSIZE_MAX : Int) = 2 ^ 63 - 1 := by
  unfold SSIZE_MAX
  norm_num

theorem sync_loop_terminates (kern : Nat → Nat → syscall_result) (limit : Nat)
    (iov_len : Nat → Nat) (hp : kern_progress kern) (hL : limit ≤ 2 ^ 63) :
    ∀ (fuel : Nat) (st : loop_state), limit - st.bytes_op ≤ fuel →
      (sync_loop kern limit iov_len fuel st).finished = true
        ∧ (sync_loop kern limit iov_len fuel st).calls.length
            ≤ st.calls.length + (limit - st.bytes_op) := by
  intro fuel
  induction fuel with
  | zero =>
    intro st hf
    have hnl : ¬ st.bytes_op < limit := by omega
    unfold sync_loop
    rw [if_neg hnl]
    exact ⟨rfl, Nat.le_add_right _ _⟩
  | succ fuel ih =>
    intro st hf
    unfold sync_loop
    by_cases hlt : st.bytes_op < limit
    · rw [if_pos hlt]
      simp only []
      rcases hp st.calls.length (iov_len st.bytes_op) with hneg | ⟨hpos, hmax⟩
      · rw [if_pos hneg]
        refine ⟨rfl, ?_⟩
        simp only [List.length_append, List.length_singleton]
        omega
      · rw [if_neg (not_lt.mpr (le_of_lt hpos))]
        rw [ssize_max_cast] at hmax
        have hadd := size_add_of_nonneg st.bytes_op
          (kern st.calls.length (iov_len st.bytes_op)).ret (le_of_lt hpos) (by omega)
        have hnew : st.bytes_op + 1
            ≤ size_add st.bytes_op (kern st.calls.length (iov_len st.bytes_op)).ret := by
          omega
        have h := ih
          { bytes_op := size_add st.bytes_op (kern st.calls.length (iov_len st.bytes_op)).ret,
            errno := 0,
            calls := st.calls ++ [{ iov_len := iov_len st.bytes_op, peek := false }],
            finished := false } (by simp only []; omega)
        refine ⟨h.1, ?_⟩
        have h2 := h.2
        simp only [List.length_append, List.length_singleton] at h2
        omega
    · rw [if_neg hlt]
      exact ⟨rfl, Nat.le_add_right _ _⟩

theorem sync_loop_bounded (kern : Nat → Nat → syscall_result) (limit : Nat)
    (iov_len : Nat → Nat) (hk : kern_bounded kern) (hL : limit < 2 ^ 64)
    (hiov : ∀ b, b ≤ limit → iov_len b ≤ limit - b) :
    ∀ (fuel : Nat) (st : loop_state), st.bytes_op ≤ limit →
      st.bytes_op ≤ (sync_loop kern limit iov_len fuel st).bytes_op
        ∧ (sync_loop kern limit iov_len fuel st).bytes_op ≤ limit := by
  intro fuel
  induction fuel with
  | zero =>
    intro st hst
    unfold sync_loop
    split <;> exact ⟨le_refl _, hst⟩
  | succ fuel ih =>
    intro st hst
    unfold sync_loop
    by_cases hlt : st.bytes_op < limit
    · rw [if_pos hlt]
      simp only []
      by_cases hneg : (kern st.calls.length (iov_len st.bytes_op)).ret < 0
      · rw [if_pos hneg]
        exact ⟨le_refl _, hst⟩
      · rw [if_neg hneg]
        have h0 : 0 ≤ (kern st.calls.length (iov_len st.bytes_op)).ret := not_lt.mp hneg
        have hle := hk st.calls.length (iov_len st.bytes_op) h0
        have hi := hiov st.bytes_op hst
        have hadd := size_add_of_nonneg st.bytes_op
          (kern st.calls.length (iov_len st.bytes_op)).ret h0 (by omega)
        have h := ih
          { bytes_op := size_add st.bytes_op (kern st.calls.length (iov_len st.bytes_op)).ret,
            errno := 0,
            calls := st.calls ++ [{ iov_len := iov_len st.bytes_op, peek := false }],
            finished := false } (by simp only []; omega)
        simp only [] at h
        refine ⟨?_, h.2⟩
        have h1 := h.1
        omega
    · rw [if_neg hlt]
      exact ⟨le_refl _, hst⟩

theorem sync_loop_whole (kern : Nat → Nat → syscall_result) (n : Nat) (hk : kern_whole kern)
    (hn : n < 2 ^ 64) :
    ∀ (fuel : Nat) (st : loop_state), (st.bytes_op = 0 ∨ st.bytes_op = n) →
      (sync_loop kern n (fun _ => n) fuel st).bytes_op = 0
        ∨ (sync_loop kern n (fun _ => n) fuel st).bytes_op = n := by
  intro fuel
  induction fuel with
  | zero =>
    intro st hst
    unfold sync_loop
    split <;> exact hst
  | succ fuel ih =>
    intro st hst
    unfold sync_loop
    by_cases hlt : st.bytes_op < n
    · rw [if_pos hlt]
      simp only []
      by_cases hneg : (kern st.calls.length n).ret < 0
      · rw [if_pos hneg]
        exact hst
      · rw [if_neg hneg]
        have h0 : 0 ≤ (kern st.calls.length n).ret := not_lt.mp hneg
        have hw := hk st.calls.length n h0
        have hb0 : st.bytes_op = 0 := by omega
        have hadd := size_add_of_nonneg st.bytes_op (kern st.calls.length n).ret h0 (by omega)
        apply ih
        right
        simp only []
        omega
    · rw [if_neg hlt]
      exact hst

theorem size_add_bounds (a : Nat) (r : Int) (m : Nat) (hr : 0 ≤ r) (hrm : r ≤ (m : Int))
    (h : a + m < 2 ^ 64) : a ≤ size_add a r ∧ size_add a r ≤ a + m := by
  have hadd := size_add_of_nonneg a r hr (by omega)
  omega

theorem kern_bounded_ex_kern9 : kern_bounded ex_kern9 := by
  intro k len _
  exact min_le_right _ _

theorem kern_bounded_ex_kern_fail : kern_bounded ex_kern_fail := by
  intro k len h
  exact absurd h (show ¬ (0 : Int) ≤ -1 by decide)

theorem tcp_sync_bytes (srb : srb_t) (n : Nat) (kern : Nat → Nat → syscall_result)
    (hb : srb.buffer = some n) (hn : n < 2 ^ 64) (hbo : srb.bytes_operated ≤ n)
    (hk : kern_bounded kern) (op_stale : srb_operation_t) (more_bytes errno0 : Int)
    (fuel : Nat) (res : sync_result)
    (h : tcp_send_recv_sync_no_cb srb op_stale kern more_bytes errno0 fuel = some res) :
    srb.bytes_operated ≤ res.srb.bytes_operated ∧ res.srb.bytes_operated ≤ n
      ∧ res.ret.bytes_operated ≤ n := by
  have hsub : size_sub n srb.bytes_operated = n - srb.bytes_operated :=
    size_sub_of_le n srb.bytes_operated hbo hn
  have hl := sync_loop_bounded kern (n - srb.bytes_operated)
    (fun bytes_op => size_sub (n - srb.bytes_operated) bytes_op) hk (by omega)
    (fun b hbl => le_of_eq (size_sub_of_le _ b hbl (by omega))) fuel (loop_init errno0)
    (Nat.zero_le _)
  unfold tcp_send_recv_sync_no_cb at h
  simp only [] at h
  by_cases hep : 0 ≤ (match op_stale with
      | .SRB_OP_SEND => srb.dst
      | .SRB_OP_RECV => srb.src).skt
      ∧ (match op_stale with
      | .SRB_OP_SEND => srb.dst
      | .SRB_OP_RECV => srb.src).ep_type = .EPT_TCP
  · rw [if_pos hep, hb] at h
    simp only [hsub] at h
    by_cases hf : (sync_loop kern (n - srb.bytes_operated)
        (fun bytes_op => size_sub (n - srb.bytes_operated) bytes_op) fuel
        (loop_init errno0)).finished = true
    · rw [if_pos hf] at h
      have hres := (Option.some.inj h).symm
      have hmod : (srb.bytes_operated + (sync_loop kern (n - srb.bytes_operated)
          (fun bytes_op => size_sub (n - srb.bytes_operated) bytes_op) fuel
          (loop_init errno0)).bytes_op) % SIZE_MOD
          = srb.bytes_operated + (sync_loop kern (n - srb.bytes_operated)
          (fun bytes_op => size_sub (n - srb.bytes_operated) bytes_op) fuel
          (loop_init errno0)).bytes_op :=
        Nat.mod_eq_of_lt (by unfold SIZE_MOD; omega)
      rw [hres]
      simp only [hmod]
      omega
    · rw [if_neg hf] at h
      exact absurd h (by simp)
  · rw [if_neg hep] at h
    exact absurd h (by simp)

theorem udp_send_sync_bytes (srb : srb_t) (n : Nat) (kern : Nat → Nat → syscall_result)
    (hb : srb.buffer = some n) (hn : n < 2 ^ 64) (hw : kern_whole kern)
    (more_bytes errno0 : Int) (fuel : Nat) (res : sync_result)
    (h : udp_send_sync_no_cb srb kern more_bytes errno0 fuel = some res) :
    res.srb.bytes_operated ≤ n ∧ res.ret.bytes_operated ≤ n := by
  have hl := sync_loop_whole kern n hw hn fuel (loop_init errno0) (Or.inl rfl)
  unfold udp_send_sync_no_cb at h
  by_cases hep : 0 ≤ srb.dst.skt ∧ srb.dst.ep_type = .EPT_UDP
  · rw [if_pos hep, hb] at h
    simp only [] at h
    by_cases hf : (sync_loop kern n (fun _ => n) fuel (loop_init errno0)).finished = true
    · rw [if_pos hf] at h
      have hres := (Option.some.inj h).symm
      rw [hres]
      simp only []
      omega
    · rw [if_neg hf] at h
      exact absurd h (by simp)
  · rw [if_neg hep] at h
    exact absurd h (by simp)

theorem tcp_tpl_bytes (iosvc : io_service) (fd : Int) (op : io_svc_op_t) (srb : srb_t) (n : Nat)
    (r : syscall_result) (more_bytes stale : Int) (hb : srb.buffer = some n) (hn : n < 2 ^ 64)
    (hbo : srb.bytes_operated ≤ n)
    (hr : 0 ≤ r.ret → r.ret ≤ (size_sub n srb.bytes_operated : Int)) :
    srb.bytes_operated ≤ (tcp_send_recv_async_tpl iosvc fd op srb r more_bytes stale).srb.bytes_operated
      ∧ (tcp_send_recv_async_tpl iosvc fd op srb r more_bytes stale).srb.bytes_operated ≤ n
      ∧ ∀ c, (tcp_send_recv_async_tpl iosvc fd op srb r more_bytes stale).called = some c →
          c.bytes_operated ≤ n := by
  have hsub : size_sub n srb.bytes_operated = n - srb.bytes_operated :=
    size_sub_of_le n srb.bytes_operated hbo hn
  have hbs : buffer_size srb.buffer = n := by rw [hb]; rfl
  unfold tcp_send_recv_async_tpl
  simp only [hbs]
  by_cases hneg : r.ret < 0
  · rw [if_pos hneg]
    by_cases he : r.errno = EAGAIN ∨ r.errno = EWOULDBLOCK
    · rw [if_pos he]
      exact ⟨le_refl _, hbo, fun c hc => absurd hc (by simp)⟩
    · rw [if_neg he]
      refine ⟨le_refl _, hbo, fun c hc => ?_⟩
      by_cases hcb : srb.cb ≠ 0
      · simp only [if_pos hcb] at hc
        rw [← Option.some.inj hc]
        exact hbo
      · simp only [if_neg hcb] at hc
        exact absurd hc (by simp)
  · rw [if_neg hneg]
    have hr0 : 0 ≤ r.ret := not_lt.mp hneg
    have hrn : r.ret ≤ ((n - srb.bytes_operated : Nat) : Int) := hsub ▸ hr hr0
    have hadd := size_add_bounds srb.bytes_operated r.ret (n - srb.bytes_operated) hr0 hrn
      (by omega)
    by_cases hlt : size_add srb.bytes_operated r.ret < n
    · rw [if_pos hlt]
      exact ⟨hadd.1, le_of_lt hlt, fun c hc => absurd hc (by simp)⟩
    · rw [if_neg hlt]
      refine ⟨hadd.1, by simp only []; omega, fun c hc => ?_⟩
      by_cases hcb : srb.cb ≠ 0
      · simp only [if_pos hcb] at hc
        rw [← Option.some.inj hc]
        simp only []
        omega
      · simp only [if_neg hcb] at hc
        exact absurd hc (by simp)

theorem udp_send_tpl_bytes (iosvc : io_service) (fd : Int) (op : io_svc_op_t) (srb : srb_t) (n : Nat)
    (r : syscall_result) (more_bytes stale : Int) (hb : srb.buffer = some n) (hn : n < 2 ^ 64)
    (hbo : srb.bytes_operated ≤ n)
    (hr : 0 ≤ r.ret → r.ret ≤ (size_sub n srb.bytes_operated : Int)) :
    srb.bytes_operated ≤ (udp_send_async_tpl iosvc fd op srb r more_bytes stale).srb.bytes_operated
      ∧ (udp_send_async_tpl iosvc fd op srb r more_bytes stale).srb.bytes_operated ≤ n
      ∧ ∀ c, (udp_send_async_tpl iosvc fd op srb r more_bytes stale).called = some c →
          c.bytes_operated ≤ n := by
  have hsub : size_sub n srb.bytes_operated = n - srb.bytes_operated :=
    size_sub_of_le n srb.bytes_operated hbo hn
  have hbs : buffer_size srb.buffer = n := by rw [hb]; rfl
  unfold udp_send_async_tpl
  simp only [hbs]
  by_cases hneg : r.ret < 0
  · rw [if_pos hneg]
    by_cases he : r.errno = EAGAIN ∨ r.errno = EWOULDBLOCK
    · rw [if_pos he]
      exact ⟨le_refl _, hbo, fun c hc => absurd hc (by simp)⟩
    · rw [if_neg he]
      refine ⟨le_refl _, hbo, fun c hc => ?_⟩
      by_cases hcb : srb.cb ≠ 0
      · simp only [if_pos hcb] at hc
        rw [← Option.some.inj hc]
        exact hbo
      · simp only [if_neg hcb] at hc
        exact absurd hc (by simp)
  · rw [if_neg hneg]
    have hr0 : 0 ≤ r.ret := not_lt.mp hneg
    have hrn : r.ret ≤ ((n - srb.bytes_operated : Nat) : Int) := hsub ▸ hr hr0
    have hadd := size_add_bounds srb.bytes_operated r.ret (n - srb.bytes_operated) hr0 hrn
      (by omega)
    by_cases hlt : size_add srb.bytes_operated r.ret < n
    · rw [if_pos hlt]
      exact ⟨hadd.1, le_of_lt hlt, fun c hc => absurd hc (by simp)⟩
    · rw [if_neg hlt]
      refine ⟨hadd.1, by simp only []; omega, fun c hc => ?_⟩
      by_cases hcb : srb.cb ≠ 0
      · simp only [if_pos hcb] at hc
        rw [← Option.some.inj hc]
        simp only []
        omega
      · simp only [if_neg hcb] at hc
        exact absurd hc (by simp)

theorem udp_recv_sync_bytes (srb : srb_t) (n : Nat) (kern : Nat → Nat → syscall_result)
    (hb : srb.buffer = some n) (hn : n < 2 ^ 64) (hbo : srb.bytes_operated ≤ n)
    (hk : kern_bounded kern) (bytes_pending : Int) (res : sync_result)
    (h : udp_recv_sync_no_cb srb kern bytes_pending = some res) :
    srb.bytes_operated ≤ res.srb.bytes_operated ∧ res.srb.bytes_operated ≤ n
      ∧ ((0 ≤ (kern 0 (size_sub n srb.bytes_operated)).ret
            ∨ ¬ size_sub n srb.bytes_operated < size_add 0 bytes_pending) →
          res.ret.bytes_operated ≤ n) := by
  have hsub : size_sub n srb.bytes_operated = n - srb.bytes_operated :=
    size_sub_of_le n srb.bytes_operated hbo hn
  have hkb := hk 0 (n - srb.bytes_operated)
  unfold udp_recv_sync_no_cb at h
  by_cases hep : 0 ≤ srb.src.skt ∧ srb.src.ep_type = .EPT_UDP
  · rw [if_pos hep, hb] at h
    simp only [hsub] at h
    rw [hsub]
    by_cases hpeek : n - srb.bytes_operated < size_add 0 bytes_pending
    · rw [if_pos hpeek] at h
      rw [← Option.some.inj h]
      refine ⟨le_refl _, hbo, fun hor => ?_⟩
      rcases hor with h0 | hnp
      · have hadd := size_add_bounds 0 _ (n - srb.bytes_operated) h0 (hkb h0) (by omega)
        simp only []
        omega
      · exact absurd hpeek hnp
    · rw [if_neg hpeek] at h
      rw [← Option.some.inj h]
      by_cases h0 : 0 ≤ (kern 0 (n - srb.bytes_operated)).ret
      · have hadd := size_add_bounds 0 _ (n - srb.bytes_operated) h0 (hkb h0) (by omega)
        have hmod : (srb.bytes_operated + size_add 0 (kern 0 (n - srb.bytes_operated)).ret)
            % SIZE_MOD
            = srb.bytes_operated + size_add 0 (kern 0 (n - srb.bytes_operated)).ret :=
          Nat.mod_eq_of_lt (by unfold SIZE_MOD; omega)
        simp only [if_pos h0, hmod]
        exact ⟨by omega, by omega, fun _ => by omega⟩
      · have hmod : (srb.bytes_operated + 0) % SIZE_MOD = srb.bytes_operated :=
          Nat.mod_eq_of_lt (by unfold SIZE_MOD; omega)
        simp only [if_neg h0, hmod]
        exact ⟨le_refl _, hbo, fun _ => Nat.zero_le n⟩
  · rw [if_neg hep] at h
    exact absurd h (by simp)

theorem udp_recv_tpl_bytes (fd : Int) (op : io_svc_op_t) (srb : srb_t) (n : Nat)
    (r : syscall_result) (bytes_pending : Int) (hb : srb.buffer = some n) (hn : n < 2 ^ 64)
    (h0 : srb.bytes_operated = 0) (hiov : srb.iov_len ≤ n)
    (hr : 0 ≤ r.ret → r.ret ≤ (srb.iov_len : Int)) :
    (udp_recv_async_tpl fd op srb r bytes_pending).srb.bytes_operated ≤ n
      ∧ ((0 ≤ r.ret ∨ ¬ n < size_add 0 bytes_pending) →
          ∀ c, (udp_recv_async_tpl fd op srb r bytes_pending).called = some c →
            c.bytes_operated ≤ n) := by
  have hsz : size_sub (buffer_size srb.buffer) srb.bytes_operated = n := by
    rw [hb, h0]
    exact size_sub_of_le n 0 (Nat.zero_le n) hn
  unfold udp_recv_async_tpl
  rw [hsz]
  by_cases hpeek : n < size_add 0 bytes_pending
  · rw [if_pos hpeek]
    refine ⟨by simp only [h0]; omega, fun hor c hc => ?_⟩
    rcases hor with hr0 | hnp
    · have hadd := size_add_bounds 0 r.ret n hr0 (le_trans (hr hr0) (by omega)) (by omega)
      by_cases hcb : srb.cb ≠ 0
      · simp only [if_pos hcb] at hc
        rw [← Option.some.inj hc]
        simp only [h0]
        omega
      · simp only [if_neg hcb] at hc
        exact absurd hc (by simp)
    · exact absurd hpeek hnp
  · rw [if_neg hpeek]
    by_cases hr0 : 0 ≤ r.ret
    · have hadd := size_add_bounds 0 r.ret n hr0 (le_trans (hr hr0) (by omega)) (by omega)
      have hmod : (0 + size_add 0 r.ret) % SIZE_MOD = size_add 0 r.ret := by
        rw [Nat.zero_add]
        exact Nat.mod_eq_of_lt (by unfold SIZE_MOD; omega)
      refine ⟨by simp only [h0, if_pos hr0, hmod]; omega, fun _ c hc => ?_⟩
      by_cases hcb : srb.cb ≠ 0
      · simp only [if_pos hcb, if_pos hr0] at hc
        rw [← Option.some.inj hc]
        simp only []
        omega
      · simp only [if_neg hcb] at hc
        exact absurd hc (by simp)
    · refine ⟨by simp only [h0, if_neg hr0]; simp, fun _ c hc => ?_⟩
      by_cases hcb : srb.cb ≠ 0
      · simp only [if_pos hcb, if_neg hr0] at hc
        rw [← Option.some.inj hc]
        exact Nat.zero_le n
      · simp only [if_neg hcb] at hc
        exact absurd hc (by simp)

theorem udp_send_sync_from_zero (srb : srb_t) (kern : Nat → Nat → syscall_result)
    (more_bytes errno0 : Int) (fuel : Nat) :
    (udp_send_sync_no_cb srb kern more_bytes errno0 fuel).map
        (fun res => (res.srb.bytes_operated, res.ret.bytes_operated))
      = (udp_send_sync_no_cb { srb with bytes_operated := 0 } kern more_bytes errno0 fuel).map
          (fun res => (res.srb.bytes_operated, res.ret.bytes_operated)) := by
  unfold udp_send_sync_no_cb
  simp only []

/-! ## The dispatches of an asynchronous TCP request -/

theorem OP_FLAGS_self (op : io_svc_op_t) : OP_FLAGS op &&& OP_FLAGS op ≠ 0 := by
  cases op <;> decide

theorem srb_tpl_run_tcp (iosvc : io_service) (fd : Int) (op : io_svc_op_t) (srb : srb_t)
    (r : syscall_result) (more_bytes stale : Int) (ht : srb.type = .EPT_TCP) :
    srb_tpl_run iosvc fd op srb r more_bytes stale
      = tcp_send_recv_async_tpl iosvc fd op srb r more_bytes stale := by
  unfold srb_tpl_run
  rw [ht]

theorem tcp_run_would_block (iosvc : io_service) (fd : Int) (op : io_svc_op_t) (srb : srb_t)
    (r : syscall_result) (more_bytes stale : Int) (ht : srb.type = .EPT_TCP) (h1 : r.ret < 0)
    (h2 : r.errno = EAGAIN ∨ r.errno = EWOULDBLOCK) :
    srb_tpl_run iosvc fd op srb r more_bytes stale
      = { iosvc := io_service_post_job iosvc fd (net_iosvc_op srb.op) true
            .tcp_send_recv_async_tpl srb.self
          srb := { srb with iov_len := size_sub (buffer_size srb.buffer) srb.bytes_operated }
          called := none, freed := false } := by
  rw [srb_tpl_run_tcp iosvc fd op srb r more_bytes stale ht]
  simp only [tcp_send_recv_async_tpl, if_pos h1, if_pos h2]

theorem tcp_run_short (iosvc : io_service) (fd : Int) (op : io_svc_op_t) (srb : srb_t)
    (r : syscall_result) (more_bytes stale : Int) (ht : srb.type = .EPT_TCP) (h1 : ¬ r.ret < 0)
    (h2 : size_add srb.bytes_operated r.ret < buffer_size srb.buffer) :
    srb_tpl_run iosvc fd op srb r more_bytes stale
      = { iosvc := io_service_post_job iosvc fd (net_iosvc_op srb.op) true
            .tcp_send_recv_async_tpl srb.self
          srb := { srb with
                   iov_len := size_sub (buffer_size srb.buffer) srb.bytes_operated
                   bytes_operated := size_add srb.bytes_operated r.ret }
          called := none, freed := false } := by
  rw [srb_tpl_run_tcp iosvc fd op srb r more_bytes stale ht]
  simp only [tcp_send_recv_async_tpl, if_neg h1, if_pos h2]

theorem tcp_run_full (iosvc : io_service) (fd : Int) (op : io_svc_op_t) (srb : srb_t)
    (r : syscall_result) (more_bytes stale : Int) (ht : srb.type = .EPT_TCP) (h1 : ¬ r.ret < 0)
    (h2 : ¬ size_add srb.bytes_operated r.ret < buffer_size srb.buffer) (hcb : srb.cb ≠ 0) :
    srb_tpl_run iosvc fd op srb r more_bytes stale
      = { iosvc := iosvc
          srb := { srb with
                   iov_len := size_sub (buffer_size srb.buffer) srb.bytes_operated
                   bytes_operated := size_add srb.bytes_operated r.ret }
          called := some { err := 0, bytes_operated := size_add srb.bytes_operated r.ret,
                           has_more_bytes := size_add 0 more_bytes, ctx := srb.ctx }
          freed := true } := by
  rw [srb_tpl_run_tcp iosvc fd op srb r more_bytes stale ht]
  simp only [tcp_send_recv_async_tpl, if_neg h1, if_neg h2, if_pos hcb]

theorem partial_results_ne_nil (rem : Nat) (rs : List syscall_result)
    (h : partial_results rem rs = true) : rs ≠ [] := by
  intro h0
  rw [h0] at h
  exact absurd h (by simp [partial_results])

theorem records_cons_ok (final : cb_call) (x : dispatch_record) (recs : List dispatch_record)
    (r : syscall_result) (rest : List syscall_result) (hx1 : x.reposted = true)
    (hx2 : x.called = none) (hx3 : x.transferred = r.ret.toNat) (hne : rest ≠ [])
    (h : recs.length = rest.length
      ∧ (∀ d ∈ recs.dropLast, d.reposted = true ∧ d.called = none)
      ∧ recs.getLast?.map (fun d => (d.reposted, d.called)) = some (false, some final)
      ∧ recs.map (fun d => d.transferred) = rest.map (fun r => r.ret.toNat)
      ∧ recs.filterMap (fun d => d.called) = [final]) :
    (x :: recs).length = (r :: rest).length
      ∧ (∀ d ∈ (x :: recs).dropLast, d.reposted = true ∧ d.called = none)
      ∧ (x :: recs).getLast?.map (fun d => (d.reposted, d.called)) = some (false, some final)
      ∧ (x :: recs).map (fun d => d.transferred) = (r :: rest).map (fun r => r.ret.toNat)
      ∧ (x :: recs).filterMap (fun d => d.called) = [final] := by
  obtain ⟨h1, h2, h3, h4, h5⟩ := h
  have hrecs : recs ≠ [] := by
    intro h0
    rw [h0] at h1
    exact hne (List.length_eq_zero.mp h1.symm)
  obtain ⟨a, l, hal⟩ := List.exists_cons_of_ne_nil hrecs
  refine ⟨by simp [h1], ?_, ?_, ?_, ?_⟩
  · intro d hd
    rw [hal, List.dropLast_cons₂] at hd
    rcases List.mem_cons.mp hd with h0 | h0
    · rw [h0]
      exact ⟨hx1, hx2⟩
    · exact h2 d (hal ▸ h0)
  · rw [hal, List.getLast?_cons_cons, ← hal]
    exact h3
  · rw [List.map_cons, List.map_cons, h4, hx3]
  · rw [List.filterMap_cons, hx2]
    exact h5

theorem srb_job_tcp (srb : srb_t) (ht : srb.type = .EPT_TCP) :
    srb_job srb = { job := .tcp_send_recv_async_tpl, ctx := srb.self, oneshot := true } := by
  unfold srb_job srb_tpl
  rw [ht]

theorem srb_dispatches_partial (fd : Int) (more_bytes stale : Int) (n : Nat) (hn : n < 2 ^ 64) :
    ∀ (rs : List syscall_result) (iosvc : io_service) (srb : srb_t),
      srb.type = .EPT_TCP → srb.buffer = some n → srb.bytes_operated ≤ n → srb.cb ≠ 0 →
      table_inv iosvc.lookup_table → iosvc.allow_new = true →
      slot_at iosvc.lookup_table fd (net_iosvc_op srb.op) = some (srb_job srb) →
      partial_results (n - srb.bytes_operated) rs = true →
      ((srb_dispatches fd more_bytes stale rs iosvc srb).2.2.length = rs.length
        ∧ (∀ d ∈ (srb_dispatches fd more_bytes stale rs iosvc srb).2.2.dropLast,
            d.reposted = true ∧ d.called = none)
        ∧ (srb_dispatches fd more_bytes stale rs iosvc srb).2.2.getLast?.map
            (fun d => (d.reposted, d.called))
            = some (false, some { err := 0, bytes_operated := n, has_more_bytes := size_add 0 more_bytes,
                                  ctx := srb.ctx })
        ∧ (srb_dispatches fd more_bytes stale rs iosvc srb).2.2.map (fun d => d.transferred)
            = rs.map (fun r => r.ret.toNat)
        ∧ (srb_dispatches fd more_bytes stale rs iosvc srb).2.2.filterMap (fun d => d.called)
            = [{ err := 0, bytes_operated := n, has_more_bytes := size_add 0 more_bytes, ctx := srb.ctx }])
        ∧ (srb_dispatches fd more_bytes stale rs iosvc srb).2.1.bytes_operated = n
        ∧ slot_at (srb_dispatches fd more_bytes stale rs iosvc srb).1.lookup_table fd
            (net_iosvc_op srb.op) = none := by
  intro rs
  induction rs with
  | nil =>
    intro iosvc srb _ _ _ _ _ _ _ hp
    exact absurd hp (by simp [partial_results])
  | cons r rest ih =>
    intro iosvc srb ht hb hbo hcb hinv ha hslot hp
    have hbs : buffer_size srb.buffer = n := by rw [hb]; rfl
    obtain ⟨hd2, hda, -, -, -, -, hds⟩ :=
      dispatch_job iosvc fd (OP_FLAGS (net_iosvc_op srb.op)) (net_iosvc_op srb.op) (srb_job srb)
        (OP_FLAGS_self _) hslot hinv
    have hinv1 := table_inv_dispatch iosvc fd (OP_FLAGS (net_iosvc_op srb.op))
      (net_iosvc_op srb.op) hinv
    have hs1 : slot_at (io_service_run_dispatch iosvc fd (OP_FLAGS (net_iosvc_op srb.op))
        (net_iosvc_op srb.op)).1.lookup_table fd (net_iosvc_op srb.op) = none := by
      rw [hds rfl fd (net_iosvc_op srb.op), if_pos ⟨rfl, rfl⟩]
    have ha1 : (io_service_run_dispatch iosvc fd (OP_FLAGS (net_iosvc_op srb.op))
        (net_iosvc_op srb.op)).1.allow_new = true := by rw [hda]; exact ha
    have hpost : slot_at (io_service_post_job (io_service_run_dispatch iosvc fd
        (OP_FLAGS (net_iosvc_op srb.op)) (net_iosvc_op srb.op)).1 fd (net_iosvc_op srb.op) true
        .tcp_send_recv_async_tpl srb.self).lookup_table fd (net_iosvc_op srb.op)
        = some (srb_job srb) := by
      rw [srb_job_tcp srb ht]
      exact slot_at_post_same _ fd _ true _ _ ha1 (by simp) hs1
    have hinv2 := table_inv_post (io_service_run_dispatch iosvc fd
      (OP_FLAGS (net_iosvc_op srb.op)) (net_iosvc_op srb.op)).1 fd (net_iosvc_op srb.op) true
      .tcp_send_recv_async_tpl srb.self hinv1
    have ha2 : (io_service_post_job (io_service_run_dispatch iosvc fd
        (OP_FLAGS (net_iosvc_op srb.op)) (net_iosvc_op srb.op)).1 fd (net_iosvc_op srb.op) true
        .tcp_send_recv_async_tpl srb.self).allow_new = true := by
      rw [(post_job_flags _ fd _ true _ _).1]
      exact ha1
    rw [srb_dispatches]
    simp only [hd2]
    rw [if_pos ⟨rfl, rfl⟩]
    rw [partial_results] at hp
    by_cases h1 : r.ret < 0
    · rw [if_pos h1] at hp
      simp only [Bool.and_eq_true, decide_eq_true_eq] at hp
      rw [tcp_run_would_block _ fd _ srb r more_bytes stale ht h1 hp.1]
      simp only [Bool.false_eq_true, if_false]
      have hrec := ih _ { srb with iov_len := size_sub (buffer_size srb.buffer) srb.bytes_operated }
        ht hb hbo hcb hinv2 ha2 hpost hp.2
      refine ⟨records_cons_ok _ _ _ r rest ?_ rfl ?_ (partial_results_ne_nil _ _ hp.2) hrec.1,
        hrec.2.1, hrec.2.2⟩
      · exact decide_eq_true hpost
      · show srb.bytes_operated - srb.bytes_operated = r.ret.toNat
        rw [Nat.sub_self, Int.toNat_of_nonpos (le_of_lt h1)]
    · rw [if_neg h1] at hp
      simp only [Bool.and_eq_true, decide_eq_true_eq] at hp
      obtain ⟨⟨hpos, hle⟩, hlast⟩ := hp
      have hr0 : 0 ≤ r.ret := le_of_lt hpos
      have hadd := size_add_of_nonneg srb.bytes_operated r.ret hr0 (by omega)
      have htr : size_add srb.bytes_operated r.ret - srb.bytes_operated = r.ret.toNat := by
        omega
      by_cases hfull : r.ret = ((n - srb.bytes_operated : Nat) : Int)
      · rw [if_pos hfull] at hlast
        have hrest : rest = [] := List.isEmpty_iff.mp hlast
        have hsz : size_add srb.bytes_operated r.ret = n := by omega
        have h2 : ¬ size_add srb.bytes_operated r.ret < buffer_size srb.buffer := by
          rw [hbs]
          omega
        rw [tcp_run_full _ fd _ srb r more_bytes stale ht h1 h2 hcb]
        simp only [if_true]
        have hnot : ¬ slot_at (io_service_run_dispatch iosvc fd (OP_FLAGS (net_iosvc_op srb.op))
            (net_iosvc_op srb.op)).1.lookup_table fd (net_iosvc_op srb.op)
            = some (srb_job srb) := by
          rw [hs1]
          simp
        rw [hrest, hsz]
        simp only [decide_eq_false hnot]
        refine ⟨⟨rfl, ?_, rfl, ?_, rfl⟩, trivial, hs1⟩
        · intro d hd
          exact absurd hd (by simp)
        · simp only [List.map_cons, List.map_nil]
          rw [← hsz, htr]
      · rw [if_neg hfull] at hlast
        have h2 : size_add srb.bytes_operated r.ret < buffer_size srb.buffer := by
          rw [hbs]
          omega
        rw [tcp_run_short _ fd _ srb r more_bytes stale ht h1 h2]
        simp only [Bool.false_eq_true, if_false]
        have hrem : n - srb.bytes_operated - r.ret.toNat
            = n - size_add srb.bytes_operated r.ret := by omega
        rw [hrem] at hlast
        have hrec := ih _
          { srb with
            iov_len := size_sub (buffer_size srb.buffer) srb.bytes_operated
            bytes_operated := size_add srb.bytes_operated r.ret }
          ht hb (by rw [hbs] at h2; exact le_of_lt h2) hcb hinv2 ha2 hpost hlast
        refine ⟨records_cons_ok _ _ _ r rest ?_ rfl ?_ (partial_results_ne_nil _ _ hlast) hrec.1,
          hrec.2.1, hrec.2.2⟩
        · exact decide_eq_true hpost
        · exact htr

theorem srb_operate_tcp (iosvc : io_service) (srb : srb_t) (n : Nat) (ht : srb.type = .EPT_TCP)
    (hok : srb_async_ok srb) (hb : srb.buffer = some n) :
    srb_operate iosvc srb
      = some (io_service_post_job iosvc (ep_skt srb).skt (net_iosvc_op srb.op) true
          .tcp_send_recv_async_tpl srb.self,
          { srb with iov_len := size_sub n srb.bytes_operated }) := by
  obtain ⟨h1, -, h3, h4, -⟩ := hok
  have hep : 0 ≤ (ep_skt srb).skt ∧ (ep_skt srb).ep_type = .EPT_TCP := ⟨h3, h4.trans ht⟩
  have htcp : tcp_send_recv_async iosvc srb
      = some (io_service_post_job iosvc (ep_skt srb).skt (net_iosvc_op srb.op) true
          .tcp_send_recv_async_tpl srb.self,
          { srb with iov_len := size_sub n srb.bytes_operated }) := by
    unfold tcp_send_recv_async
    rw [if_pos hep, hb]
  rw [← htcp]
  unfold srb_operate
  rw [if_neg h1, ht]

/-! ## Post, remove and the notification -/

theorem events_clear_or_same (e : Nat) (op : io_svc_op_t) :
    events_clear (events_or e (OP_FLAGS op)) (OP_FLAGS op) = events_clear e (OP_FLAGS op) := by
  apply Nat.eq_of_testBit_eq
  intro i
  rw [events_clear_testBit, events_clear_testBit, events_or_testBit]
  by_cases hi : i < 32
  · by_cases hk : flag_bit op = i
    · simp [hi, hk]
    · simp [hi, hk]
  · have hk : flag_bit op ≠ i := fun h => hi (h ▸ flag_bit_lt op)
    simp [hi, hk]

theorem events_clear_zero (op : io_svc_op_t) : events_clear 0 (OP_FLAGS op) = 0 := by
  unfold events_clear
  exact Nat.zero_and _

theorem remove_job_find (iosvc : io_service) (fd fd1 : Int) (op : io_svc_op_t)
    (job : iosvc_job_function_t) (ctx : Nat) :
    list_find_fd fd1 (io_service_remove_job iosvc fd op job ctx).lookup_table
      = (list_find_fd fd1 iosvc.lookup_table).map
          (fun x => if remove_match fd op job ctx x = true then lte_clear op x else x) := by
  rw [(remove_job_flags iosvc fd op job ctx).2.2]
  exact list_find_fd_update fd fd1 _ _
    (fun y hy => ((remove_match_iff fd op job ctx y).mp hy).1) (fun y => lte_clear_fd op y) _

theorem remove_job_matched (iosvc : io_service) (fd : Int) (op : io_svc_op_t)
    (job : iosvc_job_function_t) (ctx : Nat) (l : lookup_table_element_t)
    (hl : list_find_fd fd iosvc.lookup_table = some l) (hj : (l.job op).job = job)
    (hc : (l.job op).ctx = ctx) (hr : iosvc.running = true) :
    (io_service_remove_job iosvc fd op job ctx).event_fd_count = iosvc.event_fd_count + 1
      ∧ (io_service_remove_job iosvc fd op job ctx).event_fd = iosvc.event_fd
      ∧ list_find_fd fd (io_service_remove_job iosvc fd op job ctx).lookup_table
          = some (lte_clear op l) := by
  have hmem := list_find_fd_some fd _ l hl
  have hm : remove_match fd op job ctx l = true :=
    (remove_match_iff fd op job ctx l).mpr ⟨hmem.2, hj, hc⟩
  have hdone : (list_first (remove_match fd op job ctx) iosvc.lookup_table).isSome = true := by
    cases hf : list_first (remove_match fd op job ctx) iosvc.lookup_table with
    | none =>
      have hall := (list_first_eq_none _ _).mp hf l hmem.1
      rw [hm] at hall
      exact Bool.noConfusion hall
    | some x => rfl
  refine ⟨?_, ?_, ?_⟩
  · unfold io_service_remove_job
    simp only [hdone, hr, and_self, if_true, notify_svc]
  · unfold io_service_remove_job
    simp only [hdone, hr, and_self, if_true, notify_svc]
  · rw [remove_job_find, hl, Option.map_some', if_pos hm]

theorem wake_dispatch (sys : reactor) (fd : Int) (events : Nat) (hpc : sys.pc = .waiting)
    (hfd : fd ≠ sys.iosvc.event_fd) :
    step sys (.wake fd events)
      = some { sys with
          iosvc := (run_dispatch_ops sys.iosvc fd events all_ops).1
          pc := (run_dispatch_ops sys.iosvc fd events all_ops).2.1
          invoked := sys.invoked ++ (run_dispatch_ops sys.iosvc fd events all_ops).2.2 } := by
  unfold step
  rw [hpc]
  simp only []
  rw [if_neg hfd]

theorem dispatch_ops_read_empty (iosvc : io_service) (fd : Int) (events : Nat)
    (hs : slot_at iosvc.lookup_table fd .IO_SVC_OP_READ = none)
    (hev : events &&& OP_FLAGS .IO_SVC_OP_WRITE = 0) :
    run_dispatch_ops iosvc fd events all_ops = (iosvc, run_loop_head iosvc, []) := by
  unfold all_ops
  rw [run_dispatch_ops, dispatch_nothing iosvc fd events .IO_SVC_OP_READ (Or.inr hs)]
  simp only []
  rw [run_dispatch_ops, dispatch_nothing iosvc fd events .IO_SVC_OP_WRITE (Or.inl hev)]
  simp only []
  rw [run_dispatch_ops]

theorem post_remove_state (iosvc : io_service) (X : Int) (op : io_svc_op_t) (oneshot : Bool)
    (J1 : iosvc_job_function_t) (ctx : Nat) (hr : iosvc.running = true)
    (ha : iosvc.allow_new = true) (hinv : table_inv iosvc.lookup_table) (hJ : J1 ≠ .NULL)
    (hslot : ∀ x, slot_at iosvc.lookup_table X op = some x → x.job = J1 ∧ x.ctx = ctx) :
    (io_service_remove_job (io_service_post_job iosvc X op oneshot J1 ctx) X op J1 ctx).event_fd = iosvc.event_fd
      ∧ (io_service_remove_job (io_service_post_job iosvc X op oneshot J1 ctx) X op J1 ctx).event_fd_count ≠ 0
      ∧ (io_service_remove_job (io_service_post_job iosvc X op oneshot J1 ctx) X op J1 ctx).allow_new = true
      ∧ (io_service_remove_job (io_service_post_job iosvc X op oneshot J1 ctx) X op J1 ctx).running = true
      ∧ table_inv (io_service_remove_job (io_service_post_job iosvc X op oneshot J1 ctx) X op J1 ctx).lookup_table
      ∧ slot_at (io_service_remove_job (io_service_post_job iosvc X op oneshot J1 ctx) X op J1 ctx).lookup_table X op = none
      ∧ ∃ l2, list_find_fd X (io_service_remove_job (io_service_post_job iosvc X op oneshot J1 ctx) X op J1 ctx).lookup_table = some l2
          ∧ l2.event.events
              = match list_find_fd X iosvc.lookup_table with
                | some lte => events_clear lte.event.events (OP_FLAGS op)
                | none => 0 := by
  have hpf := post_job_flags iosvc X op oneshot J1 ctx
  have hrf := remove_job_flags (io_service_post_job iosvc X op oneshot J1 ctx) X op J1 ctx
  have hinv2 := table_inv_remove _ X op J1 ctx (table_inv_post iosvc X op oneshot J1 ctx hinv)
  have hl1 : ∃ l1, list_find_fd X (io_service_post_job iosvc X op oneshot J1 ctx).lookup_table = some l1
      ∧ (l1.job op).job = J1 ∧ (l1.job op).ctx = ctx
      ∧ events_clear l1.event.events (OP_FLAGS op)
          = match list_find_fd X iosvc.lookup_table with
            | some lte => events_clear lte.event.events (OP_FLAGS op)
            | none => 0 := by
    cases hs : slot_at iosvc.lookup_table X op with
    | none =>
      have hse := (slot_empty_iff_slot_at iosvc.lookup_table X op).mpr hs
      have hfind := post_job_find iosvc X X op oneshot J1 ctx ha hJ hse
      rw [if_pos rfl] at hfind
      refine ⟨_, hfind, ?_, ?_, ?_⟩
      · rw [lte_fill_job, if_pos rfl]
      · rw [lte_fill_job, if_pos rfl]
      · rw [lte_fill_events, events_clear_or_same]
        unfold post_target
        cases list_find_fd X iosvc.lookup_table with
        | none => exact events_clear_zero op
        | some lte => rfl
    | some x =>
      have hx := hslot x hs
      have hse : ¬ (iosvc.allow_new = true ∧ J1 ≠ .NULL
          ∧ slot_empty iosvc.lookup_table X op = true) := by
        intro h
        rw [(slot_empty_iff_slot_at iosvc.lookup_table X op).mp h.2.2] at hs
        exact Option.noConfusion hs
      obtain ⟨l0, hl0, hjob, -⟩ := slot_at_some iosvc.lookup_table X op x hs
      rw [post_job_refused iosvc X op oneshot J1 ctx hse, hl0]
      exact ⟨l0, rfl, by rw [hjob]; exact hx.1, by rw [hjob]; exact hx.2, rfl⟩
  obtain ⟨l1, hfind1, hj1, hc1, hev1⟩ := hl1
  have hrm := remove_job_matched (io_service_post_job iosvc X op oneshot J1 ctx) X op J1 ctx l1 hfind1 hj1 hc1 (hpf.2.1.trans hr)
  refine ⟨hrm.2.1.trans hpf.2.2, ?_, ?_, ?_, hinv2, ?_, lte_clear op l1, hrm.2.2, ?_⟩
  · rw [hrm.1]
    exact Nat.succ_ne_zero _
  · rw [hrf.1, hpf.1]
    exact ha
  · rw [hrf.2.1, hpf.2.1]
    exact hr
  · rw [slot_at_of_find _ X op _ hrm.2.2, lte_clear_job, if_pos rfl]
    exact if_pos rfl
  · rw [lte_clear_events]
    exact hev1

/-! # The claims -/

/-- C1: starting from the empty table of `io_service_init`, after any sequence of
posts, removes, stops and steps of `io_service_run` (entry, failed wait,
notification, dispatch of a oneshot or persistent job, return of a job), no two
elements of the table have the same fd, and for every element and direction the
bit `OP_FLAGS[op]` is set in the mask if and only if `job[op].job` is non-null. -/
theorem table_well_formed (r e p c : Int) (iosvc : io_service)
    (hinit : io_service_init r e p c = some iosvc) (acts : List action) (sys : reactor)
    (hexec : exec (reactor_init iosvc) acts = some sys) :
    (sys.iosvc.lookup_table.map (fun lte => lte.fd)).Nodup
      ∧ ∀ lte ∈ sys.iosvc.lookup_table, ∀ op : io_svc_op_t,
          lte.event.events &&& OP_FLAGS op ≠ 0 ↔ (lte.job op).job ≠ .NULL := by
  have h0 : table_inv (reactor_init iosvc).iosvc.lookup_table := by
    rw [show (reactor_init iosvc).iosvc = iosvc from rfl, (io_service_init_table r e p c iosvc hinit).1]
    exact table_inv_nil
  have h := table_inv_exec acts _ sys hexec h0
  exact ⟨h.1, fun lte hl op => (h.2 lte hl).1 op⟩

/-- Instance of C1 on `ex_trace`. -/
theorem table_well_formed_witness :
    io_service_init 0 3 4 0 = some ex_iosvc
      ∧ exec (reactor_init ex_iosvc) ex_trace = some ex_trace_end
      ∧ (ex_trace_end.iosvc.lookup_table.map (fun lte => lte.fd)).Nodup
      ∧ ∀ lte ∈ ex_trace_end.iosvc.lookup_table, ∀ op : io_svc_op_t,
          lte.event.events &&& OP_FLAGS op ≠ 0 ↔ (lte.job op).job ≠ .NULL :=
  ⟨by decide, by decide,
    table_well_formed 0 3 4 0 ex_iosvc (by decide) ex_trace ex_trace_end (by decide)⟩

/-- C2: `io_service_post_job` changes the reactor if and only if `allow_new` is
true, the job is non-null and the slot `(fd, op)` is empty (an fd without element
counts as empty); otherwise the whole state (table, flags, notification counter)
is unchanged.  In particular a post after `io_service_stop`, whatever
`wait_pending`, and a post on an occupied slot change nothing. -/
theorem post_job_changes_iff (iosvc : io_service) (fd : Int) (op : io_svc_op_t) (oneshot : Bool)
    (job : iosvc_job_function_t) (ctx : Nat) :
    (io_service_post_job iosvc fd op oneshot job ctx ≠ iosvc
        ↔ (iosvc.allow_new = true ∧ job ≠ .NULL ∧ slot_empty iosvc.lookup_table fd op = true))
      ∧ (∀ wait_pending : Bool,
          io_service_post_job (io_service_stop iosvc wait_pending) fd op oneshot job ctx
            = io_service_stop iosvc wait_pending)
      ∧ (slot_empty iosvc.lookup_table fd op = false →
          io_service_post_job iosvc fd op oneshot job ctx = iosvc) := by
  refine ⟨⟨?_, ?_⟩, ?_, ?_⟩
  · intro hne
    by_contra hc
    exact hne (post_job_refused iosvc fd op oneshot job ctx hc)
  · rintro ⟨ha, hj, hs⟩ heq
    have hfind := post_job_find iosvc fd fd op oneshot job ctx ha hj hs
    rw [heq, if_pos rfl] at hfind
    rw [slot_empty_iff_target] at hs
    unfold post_target at hs
    cases hf : list_find_fd fd iosvc.lookup_table with
    | none => rw [hf] at hfind; simp at hfind
    | some lte =>
      rw [hf] at hfind hs
      simp only [post_target, hf, Option.some.injEq] at hfind
      have hjob := congrArg (fun l => (l.job op).job) hfind
      simp only [lte_fill_job, if_true] at hjob
      rw [hs] at hjob
      exact hj hjob.symm
  · intro w
    apply post_job_refused
    rintro ⟨ha, _, _⟩
    simp [io_service_stop, notify_svc] at ha
  · intro hs
    apply post_job_refused
    rintro ⟨_, _, hs1⟩
    rw [hs] at hs1
    exact Bool.noConfusion hs1

/-- Instance of C2: a post on the occupied READ slot of fd 5 changes nothing, a post
on a fresh fd does. -/
theorem post_job_changes_iff_witness :
    io_service_post_job ex_iosvc_busy 5 .IO_SVC_OP_READ false (.user 9) 1 = ex_iosvc_busy
      ∧ io_service_post_job ex_iosvc_busy 6 .IO_SVC_OP_READ false (.user 9) 1 ≠ ex_iosvc_busy :=
  ⟨(post_job_changes_iff ex_iosvc_busy 5 .IO_SVC_OP_READ false (.user 9) 1).2.2 (by decide),
    (post_job_changes_iff ex_iosvc_busy 6 .IO_SVC_OP_READ false (.user 9) 1).1.mpr (by decide)⟩

/-- C3: `io_service_remove_job(fd, op, job, ctx)`.  If the element of `fd` holds
exactly the pair `(job, ctx)` in slot `op`, then afterwards that slot is empty and
the bit of `op` is cleared from the mask of the element, while the other slot and
the other direction bit of that element, every other element, and the flags
`allow_new` and `running` are unchanged.  If no element has this fd, or the
element of `fd` (unique in a well-formed table) holds a pair that differs in the
job or in the context, the state is unchanged. -/
theorem remove_job_effect (iosvc : io_service) (fd : Int) (op : io_svc_op_t)
    (job : iosvc_job_function_t) (ctx : Nat) :
    (∀ lte, list_find_fd fd iosvc.lookup_table = some lte →
        (lte.job op).job = job → (lte.job op).ctx = ctx →
        ∃ pre post lte1,
          iosvc.lookup_table = pre ++ lte :: post
          ∧ (∀ y ∈ pre, y.fd ≠ fd)
          ∧ (io_service_remove_job iosvc fd op job ctx).lookup_table = pre ++ lte1 :: post
          ∧ lte1.fd = fd
          ∧ (lte1.job op).job = .NULL ∧ (lte1.job op).ctx = 0
          ∧ lte1.event.events &&& OP_FLAGS op = 0
          ∧ lte1.event.events = events_clear lte.event.events (OP_FLAGS op)
          ∧ lte1.event.data_fd = lte.event.data_fd
          ∧ (∀ op1, op1 ≠ op →
              lte1.job op1 = lte.job op1
              ∧ lte1.event.events &&& OP_FLAGS op1 = lte.event.events &&& OP_FLAGS op1)
          ∧ (io_service_remove_job iosvc fd op job ctx).allow_new = iosvc.allow_new
          ∧ (io_service_remove_job iosvc fd op job ctx).running = iosvc.running)
      ∧ (list_find_fd fd iosvc.lookup_table = none →
          io_service_remove_job iosvc fd op job ctx = iosvc)
      ∧ (∀ lte, (iosvc.lookup_table.map (fun l => l.fd)).Nodup →
          list_find_fd fd iosvc.lookup_table = some lte →
          ((lte.job op).job ≠ job ∨ (lte.job op).ctx ≠ ctx) →
          io_service_remove_job iosvc fd op job ctx = iosvc) := by
  refine ⟨?_, ?_, ?_⟩
  · intro lte hf hj hc
    rcases list_find_fd_split fd _ lte hf with ⟨pre, post, ht, hpre⟩
    have hm : remove_match fd op job ctx lte = true :=
      (remove_match_iff fd op job ctx lte).mpr ⟨(list_find_fd_some _ _ _ hf).2, hj, hc⟩
    have hup := (list_update_first_split fd (remove_match fd op job ctx) (lte_clear op) pre post lte
      (remove_match_fd fd op job ctx) hpre hm).1
    have hfl := remove_job_flags iosvc fd op job ctx
    refine ⟨pre, post, lte_clear op lte, ht, hpre, ?_, ?_, ?_, ?_, ?_, ?_, ?_, ?_, hfl.1, hfl.2.1⟩
    · rw [hfl.2.2, ht, hup]
    · rw [lte_clear_fd]; exact (list_find_fd_some _ _ _ hf).2
    · rw [lte_clear_job, if_pos rfl]
    · rw [lte_clear_job, if_pos rfl]
    · rw [lte_clear_events]; exact events_clear_and_self _ _
    · exact lte_clear_events _ _
    · cases op <;> rfl
    · intro op1 hne
      refine ⟨?_, ?_⟩
      · rw [lte_clear_job, if_neg (fun h => hne h.symm)]
      · rw [lte_clear_events]; exact events_clear_and_other _ _ _ hne
  · intro hf
    apply remove_job_no_match
    intro x hx hfd
    exact absurd hfd ((list_find_fd_eq_none fd _).mp hf x hx)
  · intro lte hu hf hne
    apply remove_job_no_match
    intro x hx hfd
    have hx1 := list_find_fd_of_mem fd _ x hu hx hfd
    rw [hf] at hx1
    simp only [Option.some.injEq] at hx1
    subst hx1
    exact hne

/-- Instance of C3 on the table `[ex_lte]`: the READ job is removed, a remove on an
fd without element and a remove with another context change nothing. -/
theorem remove_job_effect_witness :
    (∃ pre post lte1,
        ex_iosvc_busy.lookup_table = pre ++ ex_lte :: post
        ∧ (∀ y ∈ pre, y.fd ≠ 5)
        ∧ (io_service_remove_job ex_iosvc_busy 5 .IO_SVC_OP_READ (.user 1) 7).lookup_table
            = pre ++ lte1 :: post
        ∧ lte1.fd = 5
        ∧ (lte1.job .IO_SVC_OP_READ).job = .NULL ∧ (lte1.job .IO_SVC_OP_READ).ctx = 0
        ∧ lte1.event.events &&& OP_FLAGS .IO_SVC_OP_READ = 0
        ∧ lte1.event.events = events_clear ex_lte.event.events (OP_FLAGS .IO_SVC_OP_READ)
        ∧ lte1.event.data_fd = ex_lte.event.data_fd
        ∧ (∀ op1, op1 ≠ io_svc_op_t.IO_SVC_OP_READ →
            lte1.job op1 = ex_lte.job op1
            ∧ lte1.event.events &&& OP_FLAGS op1 = ex_lte.event.events &&& OP_FLAGS op1)
        ∧ (io_service_remove_job ex_iosvc_busy 5 .IO_SVC_OP_READ (.user 1) 7).allow_new
            = ex_iosvc_busy.allow_new
        ∧ (io_service_remove_job ex_iosvc_busy 5 .IO_SVC_OP_READ (.user 1) 7).running
            = ex_iosvc_busy.running)
      ∧ io_service_remove_job ex_iosvc_busy 6 .IO_SVC_OP_READ (.user 1) 7 = ex_iosvc_busy
      ∧ io_service_remove_job ex_iosvc_busy 5 .IO_SVC_OP_READ (.user 1) 8 = ex_iosvc_busy :=
  ⟨(remove_job_effect ex_iosvc_busy 5 .IO_SVC_OP_READ (.user 1) 7).1 ex_lte (by decide)
      (by decide) (by decide),
    (remove_job_effect ex_iosvc_busy 6 .IO_SVC_OP_READ (.user 1) 7).2.1 (by decide),
    (remove_job_effect ex_iosvc_busy 5 .IO_SVC_OP_READ (.user 1) 8).2.2 ex_lte (by decide)
      (by decide) (by decide)⟩

/-- C5, as stated, fails: on the reactor fresh from `io_service_init`, after
`post(5, READ, oneshot, J, 7)` and `remove(5, READ, J, 7)` the table is not the
prior (empty) table: it holds an element for fd 5 with zero mask and empty slots. -/
theorem post_remove_round_trip_counterexample :
    ex_iosvc.allow_new = true
      ∧ ex_iosvc.lookup_table = []
      ∧ (io_service_remove_job
            (io_service_post_job ex_iosvc 5 .IO_SVC_OP_READ true (.user 1) 7)
            5 .IO_SVC_OP_READ (.user 1) 7).lookup_table
          = [{ fd := 5, event := { events := 0, data_fd := 5 },
               job_read := { job := .NULL, ctx := 0, oneshot := true },
               job_write := { job := .NULL, ctx := 0, oneshot := false } }]
      ∧ (io_service_remove_job
            (io_service_post_job ex_iosvc 5 .IO_SVC_OP_READ true (.user 1) 7)
            5 .IO_SVC_OP_READ (.user 1) 7).lookup_table
          ≠ ex_iosvc.lookup_table := by
  decide

/-- C5, amended: on a reactor that accepts new jobs and whose table is well formed,
for every fd, direction and non-null job J with context ctx, the post of J
followed by the remove of J leaves `allow_new` and `running` unchanged, and
(i) when fd has an element whose slot is empty, the table is the prior table
except that the emptied slot stores a null context and the oneshot flag of the
post (so it is the prior table when the slot already stored them);
(ii) when fd has no element, the table is the prior table followed by one element
for fd with zero mask and both slots empty;
(iii) when the slot is occupied, the post is refused and the two calls act as the
remove alone. -/
theorem post_remove_round_trip (iosvc : io_service) (fd : Int) (op : io_svc_op_t)
    (oneshot : Bool) (job : iosvc_job_function_t) (ctx : Nat)
    (ha : iosvc.allow_new = true) (hj : job ≠ .NULL)
    (hinv : (iosvc.lookup_table.map (fun l => l.fd)).Nodup
      ∧ ∀ lte ∈ iosvc.lookup_table,
          (∀ op1 : io_svc_op_t, lte.event.events &&& OP_FLAGS op1 ≠ 0 ↔ (lte.job op1).job ≠ .NULL)
          ∧ lte.event.events < 2 ^ 32) :
    (io_service_remove_job (io_service_post_job iosvc fd op oneshot job ctx) fd op job ctx).allow_new
        = iosvc.allow_new
      ∧ (io_service_remove_job (io_service_post_job iosvc fd op oneshot job ctx) fd op job ctx).running
        = iosvc.running
      ∧ (∀ lte, list_find_fd fd iosvc.lookup_table = some lte → (lte.job op).job = .NULL →
          ∃ pre post,
            iosvc.lookup_table = pre ++ lte :: post
            ∧ (io_service_remove_job (io_service_post_job iosvc fd op oneshot job ctx)
                fd op job ctx).lookup_table
              = pre ++ lte.set_job op { job := .NULL, ctx := 0, oneshot := oneshot } :: post
            ∧ (lte.job op = { job := .NULL, ctx := 0, oneshot := oneshot } →
                (io_service_remove_job (io_service_post_job iosvc fd op oneshot job ctx)
                  fd op job ctx).lookup_table = iosvc.lookup_table))
      ∧ (list_find_fd fd iosvc.lookup_table = none →
          (io_service_remove_job (io_service_post_job iosvc fd op oneshot job ctx)
              fd op job ctx).lookup_table
            = iosvc.lookup_table
                ++ [(lte_new fd).set_job op { job := .NULL, ctx := 0, oneshot := oneshot }]
          ∧ ((lte_new fd).set_job op { job := .NULL, ctx := 0, oneshot := oneshot }).event.events = 0
          ∧ ∀ op1, (((lte_new fd).set_job op
              { job := .NULL, ctx := 0, oneshot := oneshot }).job op1).job = .NULL)
      ∧ (slot_empty iosvc.lookup_table fd op = false →
          io_service_remove_job (io_service_post_job iosvc fd op oneshot job ctx) fd op job ctx
            = io_service_remove_job iosvc fd op job ctx) := by
  have hfl := remove_job_flags (io_service_post_job iosvc fd op oneshot job ctx) fd op job ctx
  have hmatch : ∀ x : lookup_table_element_t, x.fd = fd →
      remove_match fd op job ctx (lte_fill op oneshot job ctx x) = true := by
    intro x hx
    rw [remove_match_iff, lte_fill_fd, lte_fill_job, if_pos rfl]
    exact ⟨hx, rfl, rfl⟩
  refine ⟨?_, ?_, ?_, ?_, ?_⟩
  · rw [hfl.1]
    by_cases hs : slot_empty iosvc.lookup_table fd op = true
    · exact (post_job_accepted iosvc fd op oneshot job ctx ha hj hs).2.1
    · rw [post_job_refused iosvc fd op oneshot job ctx (fun h => hs h.2.2)]
  · rw [hfl.2.1]
    by_cases hs : slot_empty iosvc.lookup_table fd op = true
    · exact (post_job_accepted iosvc fd op oneshot job ctx ha hj hs).2.2.1
    · rw [post_job_refused iosvc fd op oneshot job ctx (fun h => hs h.2.2)]
  · intro lte hf he
    have hs : slot_empty iosvc.lookup_table fd op = true := by
      unfold slot_empty
      rw [hf]
      simp [he]
    rcases list_find_fd_split fd _ lte hf with ⟨pre, post, ht, hpre⟩
    have hlfd := (list_find_fd_some _ _ _ hf).2
    have hmem : lte ∈ iosvc.lookup_table := (list_find_fd_some _ _ _ hf).1
    have hpostT : (io_service_post_job iosvc fd op oneshot job ctx).lookup_table
        = pre ++ lte_fill op oneshot job ctx lte :: post := by
      rw [(post_job_accepted iosvc fd op oneshot job ctx ha hj hs).1]
      unfold post_lookup
      rw [hf]
      simp only []
      rw [ht]
      exact (list_update_first_split fd _ _ pre post lte (fun y hy => by simpa using hy) hpre
        (by simpa using hlfd)).1
    have hres : (io_service_remove_job (io_service_post_job iosvc fd op oneshot job ctx)
        fd op job ctx).lookup_table
        = pre ++ lte.set_job op { job := .NULL, ctx := 0, oneshot := oneshot } :: post := by
      rw [hfl.2.2, hpostT]
      rw [(list_update_first_split fd _ (lte_clear op) pre post (lte_fill op oneshot job ctx lte)
        (remove_match_fd fd op job ctx) hpre (hmatch lte hlfd)).1]
      rw [lte_clear_fill op oneshot job ctx lte (hinv.2 lte hmem).1 (hinv.2 lte hmem).2 he]
    refine ⟨pre, post, ht, hres, ?_⟩
    intro hslot
    rw [hres, ht, ← hslot]
    cases op <;> rfl
  · intro hf
    have hs : slot_empty iosvc.lookup_table fd op = true := by
      unfold slot_empty
      rw [hf]
    have hpre := (list_find_fd_eq_none fd _).mp hf
    have hpostT : (io_service_post_job iosvc fd op oneshot job ctx).lookup_table
        = iosvc.lookup_table ++ lte_fill op oneshot job ctx (lte_new fd) :: [] := by
      rw [(post_job_accepted iosvc fd op oneshot job ctx ha hj hs).1]
      unfold post_lookup
      rw [hf]
      simp only []
      exact (list_update_first_split fd _ _ iosvc.lookup_table [] (lte_new fd)
        (fun y hy => by simpa using hy) hpre (by simp [lte_new])).1
    refine ⟨?_, ?_, ?_⟩
    · rw [hfl.2.2, hpostT]
      rw [(list_update_first_split fd _ (lte_clear op) iosvc.lookup_table []
        (lte_fill op oneshot job ctx (lte_new fd))
        (remove_match_fd fd op job ctx) hpre (hmatch (lte_new fd) rfl)).1]
      rw [lte_clear_fill op oneshot job ctx (lte_new fd) (mask_ok_new fd) (by simp [lte_new])
        (by cases op <;> rfl)]
    · cases op <;> rfl
    · intro op1
      cases op <;> cases op1 <;> rfl
  · intro hs
    rw [post_job_refused iosvc fd op oneshot job ctx (fun h => by rw [hs] at h; exact Bool.noConfusion h.2.2)]

/-- Instance of C5 amended: on the table `[ex_lte]`, whose WRITE slot is occupied
and whose fd 6 has no element. -/
theorem post_remove_round_trip_witness :
    (io_service_remove_job (io_service_post_job ex_iosvc_busy 6 .IO_SVC_OP_READ true (.user 3) 9)
        6 .IO_SVC_OP_READ (.user 3) 9).lookup_table
      = ex_iosvc_busy.lookup_table
          ++ [(lte_new 6).set_job .IO_SVC_OP_READ { job := .NULL, ctx := 0, oneshot := true }]
      ∧ (io_service_remove_job (io_service_post_job ex_iosvc_busy 6 .IO_SVC_OP_READ true (.user 3) 9)
        6 .IO_SVC_OP_READ (.user 3) 9).running = ex_iosvc_busy.running :=
  ⟨((post_remove_round_trip ex_iosvc_busy 6 .IO_SVC_OP_READ true (.user 3) 9 (by decide)
      (by decide) (by decide)).2.2.2.1 (by decide)).1,
    (post_remove_round_trip ex_iosvc_busy 6 .IO_SVC_OP_READ true (.user 3) 9 (by decide)
      (by decide) (by decide)).2.1⟩

/-- C6: `io_service_remove_job` is idempotent: on every reactor state (its table
having at most one element per fd, as the data model requires and C1 shows of
every reachable state) and for every `(fd, op, job, ctx)`, the same remove
applied twice yields the same table and flags as applied once. -/
theorem remove_job_idempotent (iosvc : io_service) (fd : Int) (op : io_svc_op_t)
    (job : iosvc_job_function_t) (ctx : Nat)
    (hu : (iosvc.lookup_table.map (fun l => l.fd)).Nodup) :
    (io_service_remove_job (io_service_remove_job iosvc fd op job ctx) fd op job ctx).lookup_table
        = (io_service_remove_job iosvc fd op job ctx).lookup_table
      ∧ (io_service_remove_job (io_service_remove_job iosvc fd op job ctx) fd op job ctx).allow_new
        = (io_service_remove_job iosvc fd op job ctx).allow_new
      ∧ (io_service_remove_job (io_service_remove_job iosvc fd op job ctx) fd op job ctx).running
        = (io_service_remove_job iosvc fd op job ctx).running := by
  have h2 := remove_job_flags (io_service_remove_job iosvc fd op job ctx) fd op job ctx
  have h1 := remove_job_flags iosvc fd op job ctx
  refine ⟨?_, h2.1, h2.2.1⟩
  rw [h2.2.2, h1.2.2]
  exact remove_table_idem fd op job ctx _ hu

/-- Instance of C6: removing the READ job of `ex_lte` twice. -/
theorem remove_job_idempotent_witness :
    (ex_iosvc_busy.lookup_table.map (fun l => l.fd)).Nodup
      ∧ (io_service_remove_job (io_service_remove_job ex_iosvc_busy 5 .IO_SVC_OP_READ (.user 1) 7)
          5 .IO_SVC_OP_READ (.user 1) 7).lookup_table
        = (io_service_remove_job ex_iosvc_busy 5 .IO_SVC_OP_READ (.user 1) 7).lookup_table :=
  ⟨by decide,
    (remove_job_idempotent ex_iosvc_busy 5 .IO_SVC_OP_READ (.user 1) 7 (by decide)).1⟩

/-- C7: a oneshot job is invoked at most once per accepted post.
(a) On every well-formed state, for a ready event on `(fd, op)` whose slot holds a
oneshot job, the dispatch step hands out that job for invocation from a state in
which the slot is already empty and the direction bit already cleared.
(b) From a state whose slot `(fd, op)` is empty, no sequence of actions without a
post on `(fd, op)` invokes anything for `(fd, op)`, whatever events are reported.
(c) Along every run from `io_service_init`, the number of invocations of a oneshot
job is at most the number of posts that filled its slot with it. -/
theorem oneshot_at_most_once :
    (∀ (iosvc : io_service) (fd : Int) (events : Nat) (op : io_svc_op_t) (x : job_t),
        table_inv iosvc.lookup_table → events &&& OP_FLAGS op ≠ 0 →
        slot_at iosvc.lookup_table fd op = some x → x.oneshot = true →
        (io_service_run_dispatch iosvc fd events op).2
            = some { job := x.job, fd := fd, op := op, ctx := x.ctx, oneshot := true }
          ∧ slot_at (io_service_run_dispatch iosvc fd events op).1.lookup_table fd op = none
          ∧ (∀ lte, list_find_fd fd (io_service_run_dispatch iosvc fd events op).1.lookup_table
                = some lte →
              (lte.job op).job = .NULL ∧ (lte.job op).ctx = 0
                ∧ lte.event.events &&& OP_FLAGS op = 0)
          ∧ (io_service_run_dispatch (io_service_run_dispatch iosvc fd events op).1 fd events op).2
              = none)
      ∧ (∀ (sys sys1 : reactor) (acts : List action) (fd : Int) (op : io_svc_op_t),
          table_inv sys.iosvc.lookup_table → slot_at sys.iosvc.lookup_table fd op = none →
          (∀ a ∈ acts, is_post_at fd op a = false) → exec sys acts = some sys1 →
          ∃ extra, sys1.invoked = sys.invoked ++ extra ∧ ∀ i ∈ extra, ¬ (i.fd = fd ∧ i.op = op))
      ∧ (∀ (r e p c : Int) (iosvc : io_service) (acts : List action) (sys : reactor)
          (j : slot_job),
          io_service_init r e p c = some iosvc → exec (reactor_init iosvc) acts = some sys →
          j.job ≠ .NULL → j.oneshot = true → sys.invoked.count j ≤ sys.filled.count j) := by
  refine ⟨?_, ?_, ?_⟩
  · intro iosvc fd events op x hinv hb hx ho
    have hd := dispatch_job iosvc fd events op x hb hx hinv
    have hnone : slot_at (io_service_run_dispatch iosvc fd events op).1.lookup_table fd op = none := by
      rw [hd.2.2.2.2.2.2 ho fd op, if_pos ⟨rfl, rfl⟩]
    refine ⟨by rw [hd.1, ho], hnone, ?_, ?_⟩
    · intro lte hf
      have hinv1 := table_inv_dispatch iosvc fd events op hinv
      have hm := (hinv1.2 lte (list_find_fd_some _ _ _ hf).1).1
      rw [slot_at_of_find _ fd op lte hf] at hnone
      have hnull : (lte.job op).job = .NULL := by
        by_contra hne
        rw [if_neg hne] at hnone
        exact Option.noConfusion hnone
      refine ⟨hnull, ?_, ?_⟩
      · rcases slot_at_some _ fd op x hx with ⟨l0, hf0, hl0, hxn⟩
        rw [dispatch_oneshot_table iosvc fd events op l0 hb hf0 (by rw [hl0]; exact hxn)
          (by rw [hl0]; exact ho)] at hf
        by_cases h0 : (lte_clear op l0).event.events = 0
        · rw [if_pos h0, list_find_fd_remove_same fd _ hinv.1] at hf
          exact Option.noConfusion hf
        · rw [if_neg h0,
            list_find_fd_update fd fd _ _ (fun y hy => by simpa using hy) (lte_clear_fd op),
            hf0] at hf
          have hfd0 := (list_find_fd_some _ _ _ hf0).2
          simp only [Option.map_some', hfd0, decide_True, if_true, Option.some.injEq] at hf
          rw [← hf, lte_clear_job, if_pos rfl]
      · by_contra hne
        exact ((hm op).mp hne) hnull
    · rw [dispatch_nothing _ fd events op (Or.inr hnone)]
  · intro sys sys1 acts fd op hinv hnone hnp hs
    exact slot_none_exec acts sys sys1 fd op hinv hnone hnp hs
  · intro r e p c iosvc acts sys j hinit hexec hj ho
    have ht := (io_service_init_table r e p c iosvc hinit).1
    have h0 : table_inv (reactor_init iosvc).iosvc.lookup_table := by
      rw [show (reactor_init iosvc).iosvc = iosvc from rfl, ht]
      exact table_inv_nil
    have hb := balance_exec acts _ sys j hj hexec h0 (balance_init iosvc ht j)
    unfold balance oneshot_count at hb
    rw [if_pos ho] at hb
    omega

/-- Instance of C7: the dispatch of the oneshot READ job of `ex_lte`, and the count
on `ex_trace`. -/
theorem oneshot_at_most_once_witness :
    ((io_service_run_dispatch ex_iosvc_busy 5 1 .IO_SVC_OP_READ).2
        = some { job := .user 1, fd := 5, op := .IO_SVC_OP_READ, ctx := 7, oneshot := true }
      ∧ slot_at (io_service_run_dispatch ex_iosvc_busy 5 1 .IO_SVC_OP_READ).1.lookup_table 5
          .IO_SVC_OP_READ = none)
      ∧ ex_trace_end.invoked.count
          { job := .user 1, fd := 5, op := .IO_SVC_OP_READ, ctx := 7, oneshot := true }
        ≤ ex_trace_end.filled.count
          { job := .user 1, fd := 5, op := .IO_SVC_OP_READ, ctx := 7, oneshot := true } :=
  ⟨⟨(oneshot_at_most_once.1 ex_iosvc_busy 5 1 .IO_SVC_OP_READ
        { job := .user 1, ctx := 7, oneshot := true }
        (by unfold table_inv fd_unique mask_ok; decide) (by decide) (by decide) rfl).1,
      (oneshot_at_most_once.1 ex_iosvc_busy 5 1 .IO_SVC_OP_READ
        { job := .user 1, ctx := 7, oneshot := true }
        (by unfold table_inv fd_unique mask_ok; decide) (by decide) (by decide) rfl).2.1⟩,
    oneshot_at_most_once.2.2 0 3 4 0 ex_iosvc ex_trace ex_trace_end
      { job := .user 1, fd := 5, op := .IO_SVC_OP_READ, ctx := 7, oneshot := true }
      (by decide) (by decide) (by decide) rfl⟩

/-- C8: drain safety.  In every run from `io_service_init` in which
`io_service_stop` is never called with `wait_pending = false`, whenever
`io_service_run` has returned the table is empty, and every oneshot job that a post
put into the table has been dispatched or removed: for each oneshot job, the posts
that filled its slot are as many as its dispatches and removes together. -/
theorem drain_safety (r e p c : Int) (iosvc : io_service)
    (hinit : io_service_init r e p c = some iosvc) (acts : List action)
    (hno : ∀ a ∈ acts, a ≠ action.stop false) (sys : reactor)
    (hexec : exec (reactor_init iosvc) acts = some sys) (hret : sys.pc = .returned) :
    sys.iosvc.lookup_table = []
      ∧ ∀ j : slot_job, j.job ≠ .NULL → j.oneshot = true →
          sys.filled.count j = sys.invoked.count j + sys.removed.count j := by
  have ht := (io_service_init_table r e p c iosvc hinit).1
  have hri := run_inv_exec acts _ sys hno hexec (by simp [run_inv, reactor_init])
  unfold run_inv at hri
  rw [hret] at hri
  simp only [] at hri
  refine ⟨hri.1, ?_⟩
  intro j hj ho
  have h0 : table_inv (reactor_init iosvc).iosvc.lookup_table := by
    rw [show (reactor_init iosvc).iosvc = iosvc from rfl, ht]
    exact table_inv_nil
  have hb := balance_exec acts _ sys j hj hexec h0 (balance_init iosvc ht j)
  unfold balance oneshot_count at hb
  rw [if_pos ho, hri.1] at hb
  simpa [holds, list_find_fd] using hb

/-- Instance of C8 on `ex_drain_trace`, where the job itself asks for the drain. -/
theorem drain_safety_witness :
    exec (reactor_init ex_iosvc) ex_drain_trace = some ex_drain_end
      ∧ ex_drain_end.pc = .returned
      ∧ ex_drain_end.iosvc.lookup_table = []
      ∧ ∀ j : slot_job, j.job ≠ .NULL → j.oneshot = true →
          ex_drain_end.filled.count j = ex_drain_end.invoked.count j + ex_drain_end.removed.count j :=
  ⟨by decide, by decide,
    drain_safety 0 3 4 0 ex_iosvc (by decide) ex_drain_trace (by decide) ex_drain_end (by decide)
      (by decide)⟩

/-- C9 on the code: in the stop-drain scenario (loop waiting, `post(5, READ, oneshot J)`,
`io_service_stop(iosvc, true)`, both nudges handled, then fd 5 readable) the job is
invoked exactly once, the table is empty, and `io_service_run` has not returned: it
waits with `running = true` and no nudge pending, the notification channel cannot
be reported, and every other answer of `epoll_wait` leaves the state as it is. -/
theorem stop_drain_does_not_return :
    exec (reactor_init ex_iosvc) ex_stuck_trace = some ex_stuck_end
      ∧ ex_stuck_end.invoked
          = [{ job := .user 1, fd := 5, op := .IO_SVC_OP_READ, ctx := 7, oneshot := true }]
      ∧ ex_stuck_end.iosvc.lookup_table = []
      ∧ ex_stuck_end.iosvc.allow_new = false
      ∧ ex_stuck_end.iosvc.running = true
      ∧ ex_stuck_end.iosvc.event_fd_count = 0
      ∧ ex_stuck_end.pc = .waiting
      ∧ step ex_stuck_end .wait_failed = some ex_stuck_end
      ∧ (∀ events, step ex_stuck_end (.wake ex_stuck_end.iosvc.event_fd events) = none)
      ∧ (∀ fd events, fd ≠ ex_stuck_end.iosvc.event_fd →
          step ex_stuck_end (.wake fd events) = some ex_stuck_end) := by
  refine ⟨by decide, rfl, rfl, rfl, rfl, rfl, rfl, by decide, ?_, ?_⟩
  · intro events
    exact wake_notified_none ex_stuck_end _ events rfl rfl rfl
  · intro fd events hfd
    rw [wake_no_entry ex_stuck_end fd events rfl hfd rfl]
    rfl

/-- C10, as stated, fails in the order post; stop(false); run: after
`post(5, READ, oneshot J)`, `io_service_stop(iosvc, false)` and the entry of
`io_service_run`, the next wake (the nudge of the stop) does not make the loop
return: `running` is true again, the loop waits, and without a ready event on fd 5
or a further call it stays there. -/
theorem stop_abort_before_run_counterexample :
    exec (reactor_init ex_iosvc) ex_abort_trace = some ex_abort_end
      ∧ ex_abort_end.pc = .waiting
      ∧ ex_abort_end.pc ≠ .returned
      ∧ ex_abort_end.iosvc.running = true
      ∧ ex_abort_end.iosvc.event_fd_count = 0
      ∧ step ex_abort_end .wait_failed = some ex_abort_end
      ∧ (∀ events, step ex_abort_end (.wake ex_abort_end.iosvc.event_fd events) = none)
      ∧ (∀ fd events, fd ≠ ex_abort_end.iosvc.event_fd → fd ≠ 5 →
          step ex_abort_end (.wake fd events) = some ex_abort_end) := by
  refine ⟨by decide, rfl, by decide, rfl, rfl, by decide, ?_, ?_⟩
  · intro events
    exact wake_notified_none ex_abort_end _ events rfl rfl rfl
  · intro fd events hfd h5
    have hnone : list_find_fd fd ex_abort_end.iosvc.lookup_table = none := by
      simp [ex_abort_end, list_find_fd, Ne.symm h5]
    rw [wake_no_entry ex_abort_end fd events rfl hfd hnone]
    rfl

/-- C10, amended.  (A) In every state in which `io_service_run` is blocked in its
wait, after `io_service_stop(iosvc, false)` the next answer of `epoll_wait` that is
not a ready event of an fd of the table (a failed wait, the notification channel, or
an fd without element) makes `io_service_run` return, and no job is invoked.
(B) When `post(X, READ, oneshot J)` and `io_service_stop(iosvc, false)` come before
`io_service_run` is entered, J is not invoked either, whatever answers of
`epoll_wait` other than a ready event on X follow. -/
theorem stop_abort :
    (∀ (sys : reactor) (a : action), sys.pc = .waiting →
        (a = .wait_failed ∨ ∃ fd events, a = .wake fd events
          ∧ (fd = sys.iosvc.event_fd ∨ list_find_fd fd sys.iosvc.lookup_table = none)) →
        ∃ sys1 sys2, step sys (.stop false) = some sys1 ∧ step sys1 a = some sys2
          ∧ sys2.pc = .returned ∧ sys2.invoked = sys.invoked)
      ∧ (∀ (r e p c : Int) (iosvc : io_service) (X : Int) (J : iosvc_job_function_t) (ctx : Nat)
          (wakes : List action) (sys : reactor),
          io_service_init r e p c = some iosvc → J ≠ .NULL →
          (∀ a ∈ wakes, wake_not_on X a) →
          exec (reactor_init iosvc)
            ([.post X .IO_SVC_OP_READ true J ctx, .stop false, .run] ++ wakes) = some sys →
          sys.invoked = []) := by
  refine ⟨?_, ?_⟩
  · intro sys a hpc ha
    refine ⟨{ sys with iosvc := io_service_stop sys.iosvc false }, ?_⟩
    have hhead : run_loop_head (io_service_stop sys.iosvc false) = .returned := by
      simp [run_loop_head, io_service_stop, notify_svc]
    rcases ha with ha | ⟨fd, events, ha, hfd⟩
    · subst ha
      refine ⟨{ sys with iosvc := io_service_stop sys.iosvc false, pc := .returned }, rfl, ?_, rfl,
        rfl⟩
      unfold step
      simp only [hpc]
      rw [hhead]
    · subst ha
      by_cases hev : fd = sys.iosvc.event_fd
      · refine ⟨_, rfl, wake_notified _ fd events hpc hev
          (by simp [io_service_stop, notify_svc]), ?_, rfl⟩
        simp only []
        have hf := run_notified_fields (io_service_stop sys.iosvc false)
        unfold run_loop_head
        have hrun : (io_service_run_notified (io_service_stop sys.iosvc false)).running = false := by
          rw [hf.2.2.2.2]
          split
          · rfl
          · simp [io_service_stop, notify_svc]
        rw [hrun]
        simp
      · have hnone : list_find_fd fd sys.iosvc.lookup_table = none := by
          rcases hfd with h | h
          · exact absurd h hev
          · exact h
        refine ⟨_, rfl, wake_no_entry _ fd events hpc hev hnone, ?_, rfl⟩
        simp only []
        exact hhead
  · intro r e p c iosvc X J ctx wakes sys hinit hJ hw hs
    have h0 := io_service_init_table r e p c iosvc hinit
    rcases iosvc with ⟨an, rn, efd, tab, epfd, cnt⟩
    simp only at h0
    rcases h0 with ⟨h1, h2, h3, h4, h5⟩
    subst h1; subst h2; subst h3; subst h4
    clear h5
    simp only [List.cons_append, List.nil_append, exec, step, reactor_init] at hs
    have hpost : io_service_post_job
        { allow_new := true, running := false, event_fd := efd, lookup_table := [],
          epoll_fd := epfd, event_fd_count := 0 } X .IO_SVC_OP_READ true J ctx
        = { allow_new := true, running := false, event_fd := efd,
            lookup_table := [lte_fill .IO_SVC_OP_READ true J ctx (lte_new X)],
            epoll_fd := epfd, event_fd_count := 0 } := by
      simp [io_service_post_job, post_lookup, list_find_fd, hJ, lte_new,
        lookup_table_element_t.job, job_zero, list_update_first]
    rw [hpost] at hs
    have hres := waiting_exec X (lte_fill .IO_SVC_OP_READ true J ctx (lte_new X)) rfl
      (by simp [lte_fill, lte_new, lookup_table_element_t.set_job, events_or, OP_FLAGS, EPOLLIN])
      wakes _ sys rfl rfl rfl hw hs
    exact hres.1

/-- Instance of C10 amended: in the scenario with the loop waiting, the nudge of the
stop makes the loop return with nothing invoked; in the order post, stop, run the
job is not invoked. -/
theorem stop_abort_witness :
    exec (reactor_init ex_iosvc) [.run, .post 5 .IO_SVC_OP_READ true (.user 1) 7] = some ex_wait
      ∧ (∃ sys1 sys2, step ex_wait (.stop false) = some sys1 ∧ step sys1 (.wake 3 1) = some sys2
          ∧ sys2.pc = .returned ∧ sys2.invoked = ex_wait.invoked)
      ∧ ex_abort_end.invoked = [] :=
  ⟨by decide,
    stop_abort.1 ex_wait (.wake 3 1) rfl (Or.inr ⟨3, 1, rfl, Or.inl rfl⟩),
    stop_abort.2 0 3 4 0 ex_iosvc 5 (.user 1) 7 [.wake 3 1] ex_abort_end (by decide) (by decide)
      (fun a ha => Or.inr ⟨3, 1, by simpa using ha, by decide⟩) (by decide)⟩

/-- C4, as stated, fails on a reactor that refuses the post.  In drain mode (after
`io_service_stop(iosvc, true)`, `allow_new` false): `srb_operate` on the request
`ex_srb` returns with the slot `(5, WRITE)` empty and no callback made; and when the
armed request is dispatched and its system call would block, the slot is left empty,
the user callback is not invoked and the request is not released. -/
theorem srb_armed_or_done_counterexample :
    (io_service_stop ex_iosvc true).allow_new = false
      ∧ (srb_operate (io_service_stop ex_iosvc true) ex_srb).map (fun res => res.1)
          = some (io_service_stop ex_iosvc true)
      ∧ slot_at (io_service_stop ex_iosvc true).lookup_table 5 .IO_SVC_OP_WRITE = none
      ∧ slot_at ex_iosvc_drain.lookup_table 5 .IO_SVC_OP_WRITE
          = some { job := .tcp_send_recv_async_tpl, ctx := 100, oneshot := true }
      ∧ (io_service_run_dispatch ex_iosvc_drain 5 4 .IO_SVC_OP_WRITE).2
          = some { job := .tcp_send_recv_async_tpl, fd := 5, op := .IO_SVC_OP_WRITE, ctx := 100,
                   oneshot := true }
      ∧ slot_at
          (tcp_send_recv_async_tpl (io_service_run_dispatch ex_iosvc_drain 5 4 .IO_SVC_OP_WRITE).1
            5 .IO_SVC_OP_WRITE ex_srb { ret := -1, errno := 11 } 0 0).iosvc.lookup_table
          5 .IO_SVC_OP_WRITE = none
      ∧ (tcp_send_recv_async_tpl (io_service_run_dispatch ex_iosvc_drain 5 4 .IO_SVC_OP_WRITE).1
            5 .IO_SVC_OP_WRITE ex_srb { ret := -1, errno := 11 } 0 0).called = none
      ∧ (tcp_send_recv_async_tpl (io_service_run_dispatch ex_iosvc_drain 5 4 .IO_SVC_OP_WRITE).1
            5 .IO_SVC_OP_WRITE ex_srb { ret := -1, errno := 11 } 0 0).freed = false := by
  decide

/-- C4, amended: on a reactor that accepts new jobs, an asynchronous TCP (or UDP
send) request is armed whenever it is not done.
(i) When the slot of the socket and direction is empty, after `srb_operate` the slot
holds the oneshot job made of the engine callback and the request.
(ii) When the slot is empty, a run of the engine callback that ends in would-block
or in progress short of the buffer leaves that oneshot job in the slot, invokes no
user callback and keeps the request; any other run leaves the reactor as it is,
releases the request and invokes the user callback when one is set.
(iii) From a well-formed table in which the request is armed, the dispatch of a
ready event hands out the engine callback with the request, and the run of the
callback that follows either arms the request again or completes it with the slot
empty: no dispatch leaves the request neither armed nor completed. -/
theorem srb_armed_or_done :
    (∀ (iosvc : io_service) (srb : srb_t), srb_async_ok srb → iosvc.allow_new = true →
        slot_at iosvc.lookup_table (ep_skt srb).skt (net_iosvc_op srb.op) = none →
        ∃ iosvc1 srb1, srb_operate iosvc srb = some (iosvc1, srb1)
          ∧ srb_job srb1 = srb_job srb
          ∧ slot_at iosvc1.lookup_table (ep_skt srb).skt (net_iosvc_op srb.op)
              = some (srb_job srb))
      ∧ (∀ (iosvc : io_service) (fd : Int) (op : io_svc_op_t) (srb : srb_t) (r : syscall_result)
          (more_bytes stale : Int), iosvc.allow_new = true →
          slot_at iosvc.lookup_table fd (net_iosvc_op srb.op) = none →
          (srb_rearms srb r →
            slot_at (srb_tpl_run iosvc fd op srb r more_bytes stale).iosvc.lookup_table fd
                (net_iosvc_op srb.op) = some (srb_job srb)
              ∧ (srb_tpl_run iosvc fd op srb r more_bytes stale).called = none
              ∧ (srb_tpl_run iosvc fd op srb r more_bytes stale).freed = false
              ∧ srb_job (srb_tpl_run iosvc fd op srb r more_bytes stale).srb = srb_job srb)
          ∧ (¬ srb_rearms srb r →
            (srb_tpl_run iosvc fd op srb r more_bytes stale).iosvc = iosvc
              ∧ (srb_tpl_run iosvc fd op srb r more_bytes stale).freed = true
              ∧ (srb.cb ≠ 0 →
                  ∃ call, (srb_tpl_run iosvc fd op srb r more_bytes stale).called = some call)))
      ∧ (∀ (iosvc : io_service) (fd : Int) (events : Nat) (srb : srb_t) (r : syscall_result)
          (more_bytes stale : Int), table_inv iosvc.lookup_table → iosvc.allow_new = true →
          events &&& OP_FLAGS (net_iosvc_op srb.op) ≠ 0 →
          slot_at iosvc.lookup_table fd (net_iosvc_op srb.op) = some (srb_job srb) →
          (io_service_run_dispatch iosvc fd events (net_iosvc_op srb.op)).2
              = some { job := srb_tpl srb, fd := fd, op := net_iosvc_op srb.op, ctx := srb.self,
                       oneshot := true }
            ∧ (srb_rearms srb r →
                slot_at
                    (srb_tpl_run (io_service_run_dispatch iosvc fd events (net_iosvc_op srb.op)).1
                      fd (net_iosvc_op srb.op) srb r more_bytes stale).iosvc.lookup_table
                    fd (net_iosvc_op srb.op) = some (srb_job srb)
                  ∧ (srb_tpl_run (io_service_run_dispatch iosvc fd events (net_iosvc_op srb.op)).1
                      fd (net_iosvc_op srb.op) srb r more_bytes stale).freed = false)
            ∧ (¬ srb_rearms srb r →
                slot_at
                    (srb_tpl_run (io_service_run_dispatch iosvc fd events (net_iosvc_op srb.op)).1
                      fd (net_iosvc_op srb.op) srb r more_bytes stale).iosvc.lookup_table
                    fd (net_iosvc_op srb.op) = none
                  ∧ (srb_tpl_run (io_service_run_dispatch iosvc fd events (net_iosvc_op srb.op)).1
                      fd (net_iosvc_op srb.op) srb r more_bytes stale).freed = true
                  ∧ (srb.cb ≠ 0 →
                      ∃ call,
                        (srb_tpl_run
                          (io_service_run_dispatch iosvc fd events (net_iosvc_op srb.op)).1
                          fd (net_iosvc_op srb.op) srb r more_bytes stale).called = some call))) := by
  refine ⟨?_, ?_, ?_⟩
  · intro iosvc srb hok ha hs
    rcases srb_operate_eq iosvc srb hok with ⟨srb1, h1, h2, _, _, _⟩
    refine ⟨_, srb1, h1, h2, ?_⟩
    exact slot_at_post_same iosvc _ _ true _ _ ha (srb_tpl_ne_null srb) hs
  · intro iosvc fd op srb r more_bytes stale ha hs
    refine ⟨?_, ?_⟩
    · intro hr
      have h := srb_tpl_run_rearm iosvc fd op srb r more_bytes stale hr
      refine ⟨?_, h.2.1, h.2.2.1, h.2.2.2.1⟩
      rw [h.1]
      exact slot_at_post_same iosvc _ _ true _ _ ha (srb_tpl_ne_null srb) hs
    · intro hr
      have h := srb_tpl_run_done iosvc fd op srb r more_bytes stale hr
      exact ⟨h.1, h.2.1, h.2.2.1⟩
  · intro iosvc fd events srb r more_bytes stale hinv ha hb hx
    have hd := dispatch_job iosvc fd events (net_iosvc_op srb.op) (srb_job srb) hb hx hinv
    have hnone : slot_at (io_service_run_dispatch iosvc fd events (net_iosvc_op srb.op)).1.lookup_table
        fd (net_iosvc_op srb.op) = none := by
      rw [hd.2.2.2.2.2.2 rfl fd (net_iosvc_op srb.op), if_pos ⟨rfl, rfl⟩]
    refine ⟨hd.1, ?_, ?_⟩
    · intro hr
      have h := srb_tpl_run_rearm (io_service_run_dispatch iosvc fd events (net_iosvc_op srb.op)).1
        fd (net_iosvc_op srb.op) srb r more_bytes stale hr
      refine ⟨?_, h.2.2.1⟩
      rw [h.1]
      exact slot_at_post_same _ _ _ true _ _ (hd.2.1.trans ha) (srb_tpl_ne_null srb) hnone
    · intro hr
      have h := srb_tpl_run_done (io_service_run_dispatch iosvc fd events (net_iosvc_op srb.op)).1
        fd (net_iosvc_op srb.op) srb r more_bytes stale hr
      refine ⟨?_, h.2.1, h.2.2.1⟩
      rw [h.1]
      exact hnone

/-- Instance of C4 amended: `ex_srb` on the fresh reactor is armed by `srb_operate`,
and armed again after a run of the callback that would block. -/
theorem srb_armed_or_done_witness :
    (∃ iosvc1 srb1, srb_operate ex_iosvc ex_srb = some (iosvc1, srb1)
        ∧ srb_job srb1 = srb_job ex_srb
        ∧ slot_at iosvc1.lookup_table (ep_skt ex_srb).skt (net_iosvc_op ex_srb.op)
            = some (srb_job ex_srb))
      ∧ slot_at (srb_tpl_run ex_iosvc 5 .IO_SVC_OP_WRITE ex_srb { ret := -1, errno := 11 } 0
          0).iosvc.lookup_table 5 (net_iosvc_op ex_srb.op) = some (srb_job ex_srb) :=
  ⟨srb_armed_or_done.1 ex_iosvc ex_srb
      (by unfold srb_async_ok; decide) (by decide) (by decide),
    ((srb_armed_or_done.2.1 ex_iosvc 5 .IO_SVC_OP_WRITE ex_srb { ret := -1, errno := 11 } 0 0
      (by decide) (by decide)).1 (by unfold srb_rearms; decide)).1⟩

/-- C16, the claim as it stands fails.  From `io_service_init`: a persistent WRITE
job is posted on fd 5 and `io_service_run` is entered; then `post(5, READ, J1)`,
`remove(5, READ, J1)` and the handling of the notification leave the element of
fd 5 in the table, its mask being 4 (the WRITE bit).  And when the READ slot of
fd 5 holds another job J0, the post of J1 is refused and the remove matches
nothing: after the notification a READ-ready event on fd 5 invokes J0. -/
theorem notification_rebuild_counterexample :
    (exec (reactor_init ex_iosvc)
        [.post 5 .IO_SVC_OP_WRITE false (.user 2) 8, .run,
         .post 5 .IO_SVC_OP_READ true (.user 1) 7, .remove 5 .IO_SVC_OP_READ (.user 1) 7,
         .wake 3 1]).map (fun sys => (sys.iosvc.running, sys.pc, sys.iosvc.lookup_table))
        = some (true, .waiting,
            [{ fd := 5, event := { events := 4, data_fd := 5 },
               job_read := { job := .NULL, ctx := 0, oneshot := true },
               job_write := { job := .user 2, ctx := 8, oneshot := false } }])
      ∧ (exec (reactor_init ex_iosvc)
          [.run, .post 5 .IO_SVC_OP_READ false (.user 3) 6,
           .post 5 .IO_SVC_OP_READ true (.user 1) 7, .remove 5 .IO_SVC_OP_READ (.user 1) 7,
           .wake 3 1, .wake 5 1]).map (fun sys => sys.invoked)
        = some [{ job := .user 3, fd := 5, op := .IO_SVC_OP_READ, ctx := 6, oneshot := false }] := by
  decide

/-- C16 (as amended): notification rebuild.  When `io_service_run` handles an event
of the notification channel, the table afterwards is exactly the sub-list of the
prior table made of the elements with non-zero mask, in their order and unchanged.
Consequently, on a running reactor that accepts jobs, whose table is well formed
and whose READ slot of X is empty or holds J1 with the same context already, after
`post(X, READ, J1)`, `remove(X, READ, J1)` and the handling of the notification:
the loop waits again and nothing was invoked; the READ slot of X is empty; the
table has an element for X exactly when the prior table had one whose mask has a
bit other than the READ bit; an event on X without the WRITE bit invokes nothing;
and when the table has no element for X, no event on X invokes anything. -/
theorem notification_rebuild :
    (∀ iosvc : io_service,
        (io_service_run_notified iosvc).lookup_table
          = iosvc.lookup_table.filter (fun lte => decide (lte.event.events ≠ 0)))
      ∧ (∀ (sys : reactor) (X : Int) (oneshot : Bool) (J1 : iosvc_job_function_t) (ctx : Nat)
          (ev : Nat),
          sys.pc = .waiting → sys.iosvc.running = true → sys.iosvc.allow_new = true →
          table_inv sys.iosvc.lookup_table → J1 ≠ .NULL →
          (∀ x, slot_at sys.iosvc.lookup_table X .IO_SVC_OP_READ = some x →
            x.job = J1 ∧ x.ctx = ctx) →
          ∃ sys1,
            exec sys [.post X .IO_SVC_OP_READ oneshot J1 ctx, .remove X .IO_SVC_OP_READ J1 ctx,
                .wake sys.iosvc.event_fd ev] = some sys1
              ∧ sys1.pc = .waiting
              ∧ sys1.invoked = sys.invoked
              ∧ slot_at sys1.iosvc.lookup_table X .IO_SVC_OP_READ = none
              ∧ (list_find_fd X sys1.iosvc.lookup_table = none
                  ↔ ∀ lte, list_find_fd X sys.iosvc.lookup_table = some lte →
                      events_clear lte.event.events (OP_FLAGS .IO_SVC_OP_READ) = 0)
              ∧ (∀ events sys2, events &&& OP_FLAGS .IO_SVC_OP_WRITE = 0 →
                  step sys1 (.wake X events) = some sys2 → sys2.invoked = sys1.invoked)
              ∧ (list_find_fd X sys1.iosvc.lookup_table = none →
                  ∀ events sys2, step sys1 (.wake X events) = some sys2 →
                    sys2.invoked = sys1.invoked)) := by
  refine ⟨fun iosvc => by rw [(run_notified_fields iosvc).1, run_sweep_eq_filter], ?_⟩
  intro sys X oneshot J1 ctx ev hpc hr ha hinv hJ hslot
  obtain ⟨hefd, hcount, ha2, hr2, hinv2, hs2, l2, hf2, hev2⟩ :=
    post_remove_state sys.iosvc X .IO_SVC_OP_READ oneshot J1 ctx hr ha hinv hJ hslot
  have hnf := run_notified_fields (io_service_remove_job (io_service_post_job sys.iosvc X .IO_SVC_OP_READ oneshot J1 ctx) X .IO_SVC_OP_READ J1 ctx)
  have hrun3 : (io_service_run_notified (io_service_remove_job (io_service_post_job sys.iosvc X .IO_SVC_OP_READ oneshot J1 ctx) X .IO_SVC_OP_READ J1 ctx)).running = true := by
    rw [hnf.2.2.2.2, if_neg (fun h => by
      rw [ha2] at h
      exact Bool.noConfusion h.2)]
    exact hr2
  have hhead : run_loop_head (io_service_run_notified (io_service_remove_job (io_service_post_job sys.iosvc X .IO_SVC_OP_READ oneshot J1 ctx) X .IO_SVC_OP_READ J1 ctx)) = .waiting := by
    unfold run_loop_head
    rw [if_pos hrun3]
  have hs3 : slot_at (io_service_run_notified (io_service_remove_job (io_service_post_job sys.iosvc X .IO_SVC_OP_READ oneshot J1 ctx) X .IO_SVC_OP_READ J1 ctx)).lookup_table X .IO_SVC_OP_READ = none := by
    rw [hnf.1, slot_at_sweep _ hinv2]
    exact hs2
  have hfind3 : list_find_fd X (io_service_run_notified (io_service_remove_job (io_service_post_job sys.iosvc X .IO_SVC_OP_READ oneshot J1 ctx) X .IO_SVC_OP_READ J1 ctx)).lookup_table
      = if l2.event.events = 0 then none else some l2 := by
    rw [hnf.1, list_find_fd_sweep X _ hinv2.1, hf2]
  refine ⟨{ iosvc := io_service_run_notified (io_service_remove_job (io_service_post_job sys.iosvc X .IO_SVC_OP_READ oneshot J1 ctx) X .IO_SVC_OP_READ J1 ctx), pc := .waiting, invoked := sys.invoked, filled := sys.filled ++ post_fills sys.iosvc X .IO_SVC_OP_READ oneshot J1 ctx, removed := sys.removed ++ remove_clears (io_service_post_job sys.iosvc X .IO_SVC_OP_READ oneshot J1 ctx) X .IO_SVC_OP_READ J1 ctx }, ?_, rfl, rfl, hs3, ?_, ?_, ?_⟩
  · apply exec_three sys
      { sys with iosvc := io_service_post_job sys.iosvc X .IO_SVC_OP_READ oneshot J1 ctx, filled := sys.filled ++ post_fills sys.iosvc X .IO_SVC_OP_READ oneshot J1 ctx }
      { sys with iosvc := io_service_remove_job (io_service_post_job sys.iosvc X .IO_SVC_OP_READ oneshot J1 ctx) X .IO_SVC_OP_READ J1 ctx, filled := sys.filled ++ post_fills sys.iosvc X .IO_SVC_OP_READ oneshot J1 ctx, removed := sys.removed ++ remove_clears (io_service_post_job sys.iosvc X .IO_SVC_OP_READ oneshot J1 ctx) X .IO_SVC_OP_READ J1 ctx }
    · rfl
    · rfl
    · rw [wake_notified
        { sys with iosvc := io_service_remove_job (io_service_post_job sys.iosvc X .IO_SVC_OP_READ oneshot J1 ctx) X .IO_SVC_OP_READ J1 ctx, filled := sys.filled ++ post_fills sys.iosvc X .IO_SVC_OP_READ oneshot J1 ctx, removed := sys.removed ++ remove_clears (io_service_post_job sys.iosvc X .IO_SVC_OP_READ oneshot J1 ctx) X .IO_SVC_OP_READ J1 ctx }
        sys.iosvc.event_fd ev hpc hefd.symm hcount]
      simp only []
      rw [hhead]
  · show list_find_fd X (io_service_run_notified (io_service_remove_job (io_service_post_job sys.iosvc X .IO_SVC_OP_READ oneshot J1 ctx) X .IO_SVC_OP_READ J1 ctx)).lookup_table = none ↔ _
    rw [hfind3]
    constructor
    · intro h lte hl
      have hev3 : l2.event.events
          = events_clear lte.event.events (OP_FLAGS .IO_SVC_OP_READ) := by
        rw [hev2, hl]
      by_cases h0 : l2.event.events = 0
      · rw [← hev3]
        exact h0
      · rw [if_neg h0] at h
        exact Option.noConfusion h
    · intro h
      have h0 : l2.event.events = 0 := by
        rw [hev2]
        cases hl : list_find_fd X sys.iosvc.lookup_table with
        | none => rfl
        | some lte => exact h lte hl
      rw [if_pos h0]
  · intro events sys2 hev hstep
    by_cases hxe : X = (io_service_run_notified (io_service_remove_job (io_service_post_job sys.iosvc X .IO_SVC_OP_READ oneshot J1 ctx) X .IO_SVC_OP_READ J1 ctx)).event_fd
    · by_cases hc0 : (io_service_run_notified (io_service_remove_job (io_service_post_job sys.iosvc X .IO_SVC_OP_READ oneshot J1 ctx) X .IO_SVC_OP_READ J1 ctx)).event_fd_count = 0
      · rw [wake_notified_none _ X events rfl hxe hc0] at hstep
        exact Option.noConfusion hstep
      · rw [wake_notified _ X events rfl hxe hc0] at hstep
        simp only [Option.some.injEq] at hstep
        rw [← hstep]
    · rw [wake_dispatch _ X events rfl hxe] at hstep
      simp only [dispatch_ops_read_empty _ X events hs3 hev, List.append_nil,
        Option.some.injEq] at hstep
      rw [← hstep]
  · intro hnone events sys2 hstep
    by_cases hxe : X = (io_service_run_notified (io_service_remove_job (io_service_post_job sys.iosvc X .IO_SVC_OP_READ oneshot J1 ctx) X .IO_SVC_OP_READ J1 ctx)).event_fd
    · by_cases hc0 : (io_service_run_notified (io_service_remove_job (io_service_post_job sys.iosvc X .IO_SVC_OP_READ oneshot J1 ctx) X .IO_SVC_OP_READ J1 ctx)).event_fd_count = 0
      · rw [wake_notified_none _ X events rfl hxe hc0] at hstep
        exact Option.noConfusion hstep
      · rw [wake_notified _ X events rfl hxe hc0] at hstep
        simp only [Option.some.injEq] at hstep
        rw [← hstep]
    · rw [wake_no_entry _ X events rfl hxe hnone] at hstep
      simp only [Option.some.injEq] at hstep
      rw [← hstep]

/-- Instance of C16: the loop waits with a persistent WRITE job armed on fd 5; post
and remove of a READ job on fd 5, then the notification. -/
theorem notification_rebuild_witness :
    ∃ sys1,
        exec ex_run_write [.post 5 .IO_SVC_OP_READ true (.user 1) 7, .remove 5 .IO_SVC_OP_READ (.user 1) 7,
            .wake ex_run_write.iosvc.event_fd 1] = some sys1
          ∧ sys1.pc = .waiting
          ∧ sys1.invoked = ex_run_write.invoked
          ∧ slot_at sys1.iosvc.lookup_table 5 .IO_SVC_OP_READ = none
          ∧ (list_find_fd 5 sys1.iosvc.lookup_table = none
              ↔ ∀ lte, list_find_fd 5 ex_run_write.iosvc.lookup_table = some lte →
                  events_clear lte.event.events (OP_FLAGS .IO_SVC_OP_READ) = 0)
          ∧ (∀ events sys2, events &&& OP_FLAGS .IO_SVC_OP_WRITE = 0 →
              step sys1 (.wake 5 events) = some sys2 → sys2.invoked = sys1.invoked)
          ∧ (list_find_fd 5 sys1.iosvc.lookup_table = none →
              ∀ events sys2, step sys1 (.wake 5 events) = some sys2 →
                sys2.invoked = sys1.invoked) :=
  notification_rebuild.2 ex_run_write 5 true (.user 1) 7 1 rfl rfl rfl
    (table_inv_post ex_run.iosvc 5 .IO_SVC_OP_WRITE false (.user 2) 8 table_inv_nil)
    (by decide)
    (fun x h => Option.noConfusion
      ((show slot_at ex_run_write.iosvc.lookup_table 5 .IO_SVC_OP_READ = none by decide) ▸ h))

/-- C13: one dispatch of the asynchronous TCP callback, and likewise of the UDP send
callback, whose system call returns a negative value.  With `errno` EAGAIN or
EWOULDBLOCK the code calls `io_service_post_job` with the same intent (the fd, the
direction of the operation, oneshot, the callback itself, the request), leaves
`bytes_operated` as it was and does not invoke the user callback; on a reactor that
accepts the post the intent is in the table again.  With any other `errno` e the
reactor is left as it is (nothing is posted), the request is released, and the user
callback, when set, is invoked once with `err = e` and `bytes_operated` the count
accumulated before the failing call. -/
theorem async_error_taxonomy (iosvc : io_service) (fd : Int) (op : io_svc_op_t) (srb : srb_t)
    (r : syscall_result) (more_bytes stale : Int) (hneg : r.ret < 0) :
    ((r.errno = EAGAIN ∨ r.errno = EWOULDBLOCK) →
        ((tcp_send_recv_async_tpl iosvc fd op srb r more_bytes stale).iosvc
            = io_service_post_job iosvc fd (net_iosvc_op srb.op) true .tcp_send_recv_async_tpl
                srb.self
          ∧ (tcp_send_recv_async_tpl iosvc fd op srb r more_bytes stale).srb.bytes_operated
              = srb.bytes_operated
          ∧ (tcp_send_recv_async_tpl iosvc fd op srb r more_bytes stale).called = none
          ∧ (tcp_send_recv_async_tpl iosvc fd op srb r more_bytes stale).freed = false)
        ∧ ((udp_send_async_tpl iosvc fd op srb r more_bytes stale).iosvc
            = io_service_post_job iosvc fd (net_iosvc_op srb.op) true .udp_send_async_tpl srb.self
          ∧ (udp_send_async_tpl iosvc fd op srb r more_bytes stale).srb.bytes_operated
              = srb.bytes_operated
          ∧ (udp_send_async_tpl iosvc fd op srb r more_bytes stale).called = none
          ∧ (udp_send_async_tpl iosvc fd op srb r more_bytes stale).freed = false)
        ∧ (iosvc.allow_new = true → slot_at iosvc.lookup_table fd (net_iosvc_op srb.op) = none →
            slot_at (tcp_send_recv_async_tpl iosvc fd op srb r more_bytes stale).iosvc.lookup_table
                fd (net_iosvc_op srb.op)
              = some { job := .tcp_send_recv_async_tpl, ctx := srb.self, oneshot := true }
            ∧ slot_at (udp_send_async_tpl iosvc fd op srb r more_bytes stale).iosvc.lookup_table
                fd (net_iosvc_op srb.op)
              = some { job := .udp_send_async_tpl, ctx := srb.self, oneshot := true }))
      ∧ (¬ (r.errno = EAGAIN ∨ r.errno = EWOULDBLOCK) →
        ((tcp_send_recv_async_tpl iosvc fd op srb r more_bytes stale).iosvc = iosvc
          ∧ (tcp_send_recv_async_tpl iosvc fd op srb r more_bytes stale).freed = true
          ∧ (tcp_send_recv_async_tpl iosvc fd op srb r more_bytes stale).called
              = if srb.cb ≠ 0 then
                  some { err := r.errno, bytes_operated := srb.bytes_operated,
                         has_more_bytes := size_add 0 stale, ctx := srb.ctx }
                else none)
        ∧ ((udp_send_async_tpl iosvc fd op srb r more_bytes stale).iosvc = iosvc
          ∧ (udp_send_async_tpl iosvc fd op srb r more_bytes stale).freed = true
          ∧ (udp_send_async_tpl iosvc fd op srb r more_bytes stale).called
              = if srb.cb ≠ 0 then
                  some { err := r.errno, bytes_operated := srb.bytes_operated,
                         has_more_bytes := size_add 0 stale, ctx := srb.ctx }
                else none)) := by
  refine ⟨?_, ?_⟩
  · intro hwb
    have h1 : (tcp_send_recv_async_tpl iosvc fd op srb r more_bytes stale).iosvc
        = io_service_post_job iosvc fd (net_iosvc_op srb.op) true .tcp_send_recv_async_tpl
            srb.self := by
      simp [tcp_send_recv_async_tpl, hneg, hwb]
    have h2 : (udp_send_async_tpl iosvc fd op srb r more_bytes stale).iosvc
        = io_service_post_job iosvc fd (net_iosvc_op srb.op) true .udp_send_async_tpl
            srb.self := by
      simp [udp_send_async_tpl, hneg, hwb]
    refine ⟨⟨h1, ?_, ?_, ?_⟩, ⟨h2, ?_, ?_, ?_⟩, ?_⟩
    · simp [tcp_send_recv_async_tpl, hneg, hwb]
    · simp [tcp_send_recv_async_tpl, hneg, hwb]
    · simp [tcp_send_recv_async_tpl, hneg, hwb]
    · simp [udp_send_async_tpl, hneg, hwb]
    · simp [udp_send_async_tpl, hneg, hwb]
    · simp [udp_send_async_tpl, hneg, hwb]
    · intro ha hs
      rw [h1, h2]
      exact ⟨slot_at_post_same iosvc fd _ true _ _ ha (by simp) hs,
        slot_at_post_same iosvc fd _ true _ _ ha (by simp) hs⟩
  · intro hwb
    refine ⟨⟨?_, ?_, ?_⟩, ⟨?_, ?_, ?_⟩⟩ <;>
      simp [tcp_send_recv_async_tpl, udp_send_async_tpl, hneg, hwb]

/-- Instance of C13: `ex_srb` with a would-block answer and with ECONNRESET (104). -/
theorem async_error_taxonomy_witness :
    (tcp_send_recv_async_tpl ex_iosvc 5 .IO_SVC_OP_WRITE ex_srb { ret := -1, errno := 11 } 0 0).called
        = none
      ∧ (tcp_send_recv_async_tpl ex_iosvc 5 .IO_SVC_OP_WRITE ex_srb { ret := -1, errno := 104 } 0
          0).called
        = (if ex_srb.cb ≠ 0 then
            some { err := 104, bytes_operated := ex_srb.bytes_operated, has_more_bytes := 0,
                   ctx := ex_srb.ctx }
          else none) :=
  ⟨((async_error_taxonomy ex_iosvc 5 .IO_SVC_OP_WRITE ex_srb { ret := -1, errno := 11 } 0 0
      (by decide)).1 (by decide)).1.2.2.1,
    ((async_error_taxonomy ex_iosvc 5 .IO_SVC_OP_WRITE ex_srb { ret := -1, errno := 104 } 0 0
      (by decide)).2 (by decide)).1.2.2⟩

/-- C14 on the code: an asynchronous UDP receive submitted with `bytes_operated = 6`
on a 10-byte buffer (4 bytes of capacity left) while a 9-byte datagram is queued.
`udp_recv_async` puts the length 4 in `vec` and then sets `bytes_operated` to 0, so
the callback compares 9 with 10 - 0, makes one consuming receive of 4 bytes and
reports `err = 0`: no peek, no `BUFFER_TOO_SMALL`.  The synchronous function on the
same request peeks and reports `BUFFER_TOO_SMALL`, 9 and 4; and with a 4-byte buffer
and nothing counted both variants do. -/
theorem udp_recv_async_no_peek :
    (srb_operate ex_iosvc ex_srb_recv).map (fun res => (res.2.iov_len, res.2.bytes_operated))
        = some (4, 0)
      ∧ (srb_operate ex_iosvc ex_srb_recv).map
          (fun res => udp_recv_async_tpl 5 .IO_SVC_OP_READ res.2 (ex_kern9 0 res.2.iov_len) 9)
        = some
          { srb := { ex_srb_recv with iov_len := 4, bytes_operated := 4 }
            called := some { err := 0, bytes_operated := 4, has_more_bytes := 0, ctx := 9 }
            freed := true
            call := { iov_len := 4, peek := false } }
      ∧ (udp_recv_sync_no_cb { ex_srb_recv with iosvc := 0 } ex_kern9 9).map
          (fun res => (res.ret, res.calls))
        = some
          ({ err := NSRCE_BUFFER_TOO_SMALL, bytes_operated := 4, has_more_bytes := 9, ctx := 9 },
           [{ iov_len := 4, peek := true }])
      ∧ (srb_operate ex_iosvc ex_srb_recv4).map
          (fun res =>
            ((udp_recv_async_tpl 5 .IO_SVC_OP_READ res.2 (ex_kern9 0 res.2.iov_len) 9).called,
             (udp_recv_async_tpl 5 .IO_SVC_OP_READ res.2 (ex_kern9 0 res.2.iov_len) 9).call))
        = some
          (some { err := NSRCE_BUFFER_TOO_SMALL, bytes_operated := 4, has_more_bytes := 9,
                  ctx := 9 },
           { iov_len := 4, peek := true })
      ∧ (udp_recv_sync_no_cb { ex_srb_recv4 with iosvc := 0 } ex_kern9 9).map
          (fun res => (res.ret, res.calls))
        = some
          ({ err := NSRCE_BUFFER_TOO_SMALL, bytes_operated := 4, has_more_bytes := 9, ctx := 9 },
           [{ iov_len := 4, peek := true }]) := by
  decide

/-- C15 on the code: a synchronous send of an empty buffer (TCP or UDP, through
`srb_operate_no_cb`) makes no call to the kernel and reports `bytes_operated = 0`,
but its `err` is the ambient `errno` of the caller, whatever it is: with `errno = 11`
at entry the result has `err = 11`, not 0.  In asynchronous mode the first run of
the callback, when the kernel answers 0, reports `err = 0` and `bytes_operated = 0`. -/
theorem empty_send_reports_ambient_errno :
    (∀ (op_stale : srb_operation_t) (kern : Nat → Nat → syscall_result)
        (more_bytes errno0 : Int) (fuel : Nat),
        (srb_operate_no_cb ex_srb_empty_tcp op_stale kern more_bytes errno0 fuel).map
            (fun res => (res.ret, res.calls))
          = some ({ err := errno0, bytes_operated := 0, has_more_bytes := more_bytes, ctx := 9 }, [])
        ∧ (srb_operate_no_cb ex_srb_empty_udp op_stale kern more_bytes errno0 fuel).map
            (fun res => (res.ret, res.calls))
          = some ({ err := errno0, bytes_operated := 0, has_more_bytes := more_bytes, ctx := 9 }, []))
      ∧ (srb_operate_no_cb ex_srb_empty_tcp .SRB_OP_SEND ex_kern9 0 11 0).map (fun res => res.ret.err)
          = some 11
      ∧ (srb_operate_no_cb ex_srb_empty_udp .SRB_OP_SEND ex_kern9 0 11 0).map (fun res => res.ret.err)
          = some 11
      ∧ (∀ (iosvc : io_service) (e more_bytes stale : Int),
          (tcp_send_recv_async_tpl iosvc 5 .IO_SVC_OP_WRITE
              { ex_srb_empty_tcp with iosvc := 1, cb := 1 } { ret := 0, errno := e } more_bytes
              stale).called
            = some { err := 0, bytes_operated := 0, has_more_bytes := size_add 0 more_bytes, ctx := 9 }
          ∧ (udp_send_async_tpl iosvc 5 .IO_SVC_OP_WRITE
              { ex_srb_empty_udp with iosvc := 1, cb := 1 } { ret := 0, errno := e } more_bytes
              stale).called
            = some { err := 0, bytes_operated := 0, has_more_bytes := size_add 0 more_bytes, ctx := 9 }) := by
  refine ⟨?_, by decide, by decide, ?_⟩
  · intro op_stale kern more_bytes errno0 fuel
    have hsub : size_sub 0 0 = 0 := by decide
    refine ⟨?_, ?_⟩
    · cases op_stale <;>
        simp [srb_operate_no_cb, ex_srb_empty_tcp, tcp_send_recv_sync_no_cb, hsub,
          sync_loop_zero_limit, loop_init, SIZE_MOD]
    · simp [srb_operate_no_cb, ex_srb_empty_udp, udp_send_sync_no_cb,
        sync_loop_zero_limit, loop_init]
  · intro iosvc e more_bytes stale
    have hadd : size_add 0 0 = 0 := by decide
    refine ⟨?_, ?_⟩
    · simp [tcp_send_recv_async_tpl, ex_srb_empty_tcp, hadd, buffer_size]
    · simp [udp_send_async_tpl, ex_srb_empty_udp, hadd, buffer_size]

/-- C17: the loops of `tcp_send_recv_sync_no_cb` and `udp_send_sync_no_cb` come to
their end.  For every buffer (of a size an object can have, at most `SSIZE_MAX`),
every initial `bytes_operated <= buffer_size` and every kernel whose answers are
negative or strictly positive counts, each function returns as soon as it may run
as many iterations as there are bytes left to transfer (`buffer_size -
bytes_operated` for TCP, `buffer_size` for UDP), and it has then made at most that
many system calls; the count left strictly decreases at each successful call. -/
theorem sync_loops_terminate (srb : srb_t) (n : Nat) (kern : Nat → Nat → syscall_result)
    (more_bytes errno0 : Int) (hb : srb.buffer = some n) (hn : n ≤ SSIZE_MAX)
    (hbo : srb.bytes_operated ≤ n) (hp : kern_progress kern) :
    (∀ (op_stale : srb_operation_t) (fuel : Nat),
        (0 ≤ (match op_stale with
              | .SRB_OP_SEND => srb.dst
              | .SRB_OP_RECV => srb.src).skt
          ∧ (match op_stale with
              | .SRB_OP_SEND => srb.dst
              | .SRB_OP_RECV => srb.src).ep_type = .EPT_TCP) →
        n - srb.bytes_operated ≤ fuel →
        ∃ res, tcp_send_recv_sync_no_cb srb op_stale kern more_bytes errno0 fuel = some res
          ∧ res.calls.length ≤ n - srb.bytes_operated)
      ∧ (∀ fuel : Nat, (0 ≤ srb.dst.skt ∧ srb.dst.ep_type = .EPT_UDP) → n ≤ fuel →
          ∃ res, udp_send_sync_no_cb srb kern more_bytes errno0 fuel = some res
            ∧ res.calls.length ≤ n)
      ∧ (∀ (b : Nat) (r : Int), b < n → 0 < r → r ≤ (SSIZE_MAX : Int) →
          n - size_add b r < n - b) := by
  have hn63 : n ≤ 2 ^ 63 := by
    unfold SSIZE_MAX at hn
    omega
  have hsub : size_sub n srb.bytes_operated = n - srb.bytes_operated :=
    size_sub_of_le n srb.bytes_operated hbo (by omega)
  refine ⟨?_, ?_, ?_⟩
  · intro op_stale fuel hep hfuel
    have hl := sync_loop_terminates kern (n - srb.bytes_operated)
      (fun bytes_op => size_sub (n - srb.bytes_operated) bytes_op) hp (by omega) fuel
      (loop_init errno0) (by simp only [loop_init]; omega)
    unfold tcp_send_recv_sync_no_cb
    simp only []
    rw [if_pos hep, hb]
    simp only [hsub]
    rw [if_pos hl.1]
    exact ⟨_, rfl, le_trans hl.2 (by simp [loop_init])⟩
  · intro fuel hep hfuel
    have hl := sync_loop_terminates kern n (fun _ => n) hp hn63 fuel (loop_init errno0)
      (by simp only [loop_init]; omega)
    unfold udp_send_sync_no_cb
    rw [if_pos hep, hb]
    simp only []
    rw [if_pos hl.1]
    exact ⟨_, rfl, le_trans hl.2 (by simp [loop_init])⟩
  · intro b r hbn hr hmax
    rw [ssize_max_cast] at hmax
    have hadd := size_add_of_nonneg b r (le_of_lt hr) (by omega)
    omega

/-- Instance of C17: 8 bytes left, a kernel that transfers 3 bytes at each call. -/
theorem sync_loops_terminate_witness :
    ∃ res, tcp_send_recv_sync_no_cb ex_srb_sync .SRB_OP_SEND ex_kern3 0 0 8 = some res
      ∧ res.calls.length ≤ 10 - ex_srb_sync.bytes_operated :=
  (sync_loops_terminate ex_srb_sync 10 ex_kern3 0 0 rfl (by decide) (by decide)
    (fun _ _ => Or.inr ⟨show (0 : Int) < 3 by decide,
      show (3 : Int) ≤ (SSIZE_MAX : Int) by decide⟩)).1 .SRB_OP_SEND 8 (by decide) (by decide)

/-- C11, the claim as it stands fails.  An asynchronous UDP send submitted with
`bytes_operated = 3 <= 10` has `bytes_operated = 0` once `udp_send_async` has run:
the count decreases.  A synchronous UDP send of 10 bytes, with a kernel that
never transfers more than the length asked for (up to 9 bytes per call), leaves
`bytes_operated = 18 > 10` in the request and in the result, the length asked
for being the whole buffer at every call.  A synchronous UDP receive into a
4-byte buffer whose peek fails reports `bytes_operated = 2^64 - 1`. -/
theorem byte_accounting_bound_counterexample :
    ex_srb_udp_async.bytes_operated = 3
      ∧ ex_srb_udp_async.buffer = some 10
      ∧ (udp_send_async ex_iosvc ex_srb_udp_async).map (fun p => p.2.bytes_operated) = some 0
      ∧ ex_srb_udp_sync.bytes_operated = 0
      ∧ ex_srb_udp_sync.buffer = some 10
      ∧ kern_bounded ex_kern9
      ∧ (udp_send_sync_no_cb ex_srb_udp_sync ex_kern9 0 0 5).map
          (fun res => (res.srb.bytes_operated, res.ret.bytes_operated, res.calls))
          = some (18, 18, [{ iov_len := 10, peek := false }, { iov_len := 10, peek := false }])
      ∧ ex_srb_recv_sync.buffer = some 4
      ∧ kern_bounded ex_kern_fail
      ∧ (udp_recv_sync_no_cb ex_srb_recv_sync ex_kern_fail 9).map
          (fun res => res.ret.bytes_operated) = some (2 ^ 64 - 1) :=
  ⟨rfl, rfl, by decide, rfl, rfl, kern_bounded_ex_kern9, by decide, rfl,
    kern_bounded_ex_kern_fail, by decide⟩

/-- C11 (as amended): byte accounting.  For every request whose `bytes_operated` is
at most `buffer_size` and every kernel whose non-negative answers are at most the
length asked for: (1) the synchronous TCP function leaves a `bytes_operated` that
is not below the initial one and at most `buffer_size`, and reports such a count;
(2) `tcp_send_recv_async` keeps `bytes_operated`, and each run of
`tcp_send_recv_async_tpl` leaves it not below what it was, at most `buffer_size`,
and passes at most `buffer_size` to the user callback; (3) `udp_send_async` sets
`bytes_operated` to 0, and each run of `udp_send_async_tpl` behaves as the TCP
callback does; (4) the synchronous UDP send counts from 0 whatever the request
held, and keeps the bound when every successful `sendmsg` takes the datagram
whole; (5) the synchronous UDP receive leaves `bytes_operated` not below the
initial one and at most `buffer_size`, and reports at most `buffer_size` unless
the receive with `MSG_PEEK` fails; (6) `udp_recv_async` sets `bytes_operated` to 0,
and the run of `udp_recv_async_tpl` that follows leaves it at most `buffer_size`
and passes at most `buffer_size` to the user callback unless the receive with
`MSG_PEEK` fails. -/
theorem byte_accounting_bound (srb : srb_t) (n : Nat) (kern : Nat → Nat → syscall_result)
    (hb : srb.buffer = some n) (hn : n < 2 ^ 64) (hbo : srb.bytes_operated ≤ n)
    (hk : kern_bounded kern) :
    (∀ (op_stale : srb_operation_t) (more_bytes errno0 : Int) (fuel : Nat) (res : sync_result),
        tcp_send_recv_sync_no_cb srb op_stale kern more_bytes errno0 fuel = some res →
        srb.bytes_operated ≤ res.srb.bytes_operated ∧ res.srb.bytes_operated ≤ n
          ∧ res.ret.bytes_operated ≤ n)
      ∧ (∀ (iosvc : io_service) (p : io_service × srb_t),
          tcp_send_recv_async iosvc srb = some p → p.2.bytes_operated = srb.bytes_operated)
      ∧ (∀ (iosvc : io_service) (fd : Int) (op : io_svc_op_t) (r : syscall_result)
          (more_bytes stale : Int),
          (0 ≤ r.ret → r.ret ≤ (size_sub n srb.bytes_operated : Int)) →
          srb.bytes_operated
              ≤ (tcp_send_recv_async_tpl iosvc fd op srb r more_bytes stale).srb.bytes_operated
            ∧ (tcp_send_recv_async_tpl iosvc fd op srb r more_bytes stale).srb.bytes_operated ≤ n
            ∧ ∀ c, (tcp_send_recv_async_tpl iosvc fd op srb r more_bytes stale).called = some c →
                c.bytes_operated ≤ n)
      ∧ (∀ (iosvc : io_service) (p : io_service × srb_t),
          udp_send_async iosvc srb = some p → p.2.bytes_operated = 0)
      ∧ (∀ (iosvc : io_service) (fd : Int) (op : io_svc_op_t) (r : syscall_result)
          (more_bytes stale : Int),
          (0 ≤ r.ret → r.ret ≤ (size_sub n srb.bytes_operated : Int)) →
          srb.bytes_operated
              ≤ (udp_send_async_tpl iosvc fd op srb r more_bytes stale).srb.bytes_operated
            ∧ (udp_send_async_tpl iosvc fd op srb r more_bytes stale).srb.bytes_operated ≤ n
            ∧ ∀ c, (udp_send_async_tpl iosvc fd op srb r more_bytes stale).called = some c →
                c.bytes_operated ≤ n)
      ∧ (∀ (more_bytes errno0 : Int) (fuel : Nat),
          (udp_send_sync_no_cb srb kern more_bytes errno0 fuel).map
              (fun res => (res.srb.bytes_operated, res.ret.bytes_operated))
            = (udp_send_sync_no_cb { srb with bytes_operated := 0 } kern more_bytes errno0
                fuel).map (fun res => (res.srb.bytes_operated, res.ret.bytes_operated)))
      ∧ (∀ (more_bytes errno0 : Int) (fuel : Nat) (res : sync_result),
          udp_send_sync_no_cb srb kern more_bytes errno0 fuel = some res → kern_whole kern →
          res.srb.bytes_operated ≤ n ∧ res.ret.bytes_operated ≤ n)
      ∧ (∀ (bytes_pending : Int) (res : sync_result),
          udp_recv_sync_no_cb srb kern bytes_pending = some res →
          srb.bytes_operated ≤ res.srb.bytes_operated ∧ res.srb.bytes_operated ≤ n
            ∧ ((0 ≤ (kern 0 (size_sub n srb.bytes_operated)).ret
                  ∨ ¬ size_sub n srb.bytes_operated < size_add 0 bytes_pending) →
                res.ret.bytes_operated ≤ n))
      ∧ (∀ (iosvc : io_service) (p : io_service × srb_t),
          udp_recv_async iosvc srb = some p →
          p.2.bytes_operated = 0
            ∧ ∀ (fd : Int) (op : io_svc_op_t) (r : syscall_result) (bytes_pending : Int),
                (0 ≤ r.ret → r.ret ≤ (p.2.iov_len : Int)) →
                (udp_recv_async_tpl fd op p.2 r bytes_pending).srb.bytes_operated ≤ n
                  ∧ ((0 ≤ r.ret ∨ ¬ n < size_add 0 bytes_pending) →
                      ∀ c, (udp_recv_async_tpl fd op p.2 r bytes_pending).called = some c →
                        c.bytes_operated ≤ n)) := by
  refine ⟨?_, ?_, ?_, ?_, ?_, ?_, ?_, ?_, ?_⟩
  · intro op_stale more_bytes errno0 fuel res h
    exact tcp_sync_bytes srb n kern hb hn hbo hk op_stale more_bytes errno0 fuel res h
  · intro iosvc p h
    unfold tcp_send_recv_async at h
    by_cases hep : 0 ≤ (ep_skt srb).skt ∧ (ep_skt srb).ep_type = .EPT_TCP
    · rw [if_pos hep, hb] at h
      rw [← Option.some.inj h]
    · rw [if_neg hep] at h
      exact absurd h (by simp)
  · intro iosvc fd op r more_bytes stale hr
    exact tcp_tpl_bytes iosvc fd op srb n r more_bytes stale hb hn hbo hr
  · intro iosvc p h
    unfold udp_send_async at h
    by_cases hep : 0 ≤ srb.dst.skt ∧ srb.dst.ep_type = .EPT_UDP
    · rw [if_pos hep, hb] at h
      rw [← Option.some.inj h]
    · rw [if_neg hep] at h
      exact absurd h (by simp)
  · intro iosvc fd op r more_bytes stale hr
    exact udp_send_tpl_bytes iosvc fd op srb n r more_bytes stale hb hn hbo hr
  · intro more_bytes errno0 fuel
    exact udp_send_sync_from_zero srb kern more_bytes errno0 fuel
  · intro more_bytes errno0 fuel res h hw
    exact udp_send_sync_bytes srb n kern hb hn hw more_bytes errno0 fuel res h
  · intro bytes_pending res h
    exact udp_recv_sync_bytes srb n kern hb hn hbo hk bytes_pending res h
  · intro iosvc p h
    unfold udp_recv_async at h
    by_cases hep : 0 ≤ srb.src.skt ∧ srb.src.ep_type = .EPT_UDP
    · rw [if_pos hep, hb] at h
      rw [← Option.some.inj h]
      refine ⟨rfl, fun fd op r bytes_pending hr => ?_⟩
      exact udp_recv_tpl_bytes fd op _ n r bytes_pending rfl hn rfl
        (by
          show size_sub n srb.bytes_operated ≤ n
          rw [size_sub_of_le n srb.bytes_operated hbo hn]
          omega) hr
    · rw [if_neg hep] at h
      exact absurd h (by simp)

/-- Instance of C11: the synchronous TCP send of 10 bytes with 2 already counted,
on a kernel that takes up to 9 bytes per call. -/
theorem byte_accounting_bound_witness :
    ex_srb_sync.buffer = some 10 ∧ ex_srb_sync.bytes_operated ≤ 10 ∧ kern_bounded ex_kern9
      ∧ ∃ res, tcp_send_recv_sync_no_cb ex_srb_sync .SRB_OP_SEND ex_kern9 0 0 8 = some res
          ∧ ex_srb_sync.bytes_operated ≤ res.srb.bytes_operated
          ∧ res.srb.bytes_operated ≤ 10 ∧ res.ret.bytes_operated ≤ 10 :=
  ⟨rfl, by decide, kern_bounded_ex_kern9, _, rfl,
    (byte_accounting_bound ex_srb_sync 10 ex_kern9 rfl (by decide) (by decide)
      kern_bounded_ex_kern9).1 .SRB_OP_SEND 0 0 8 _ rfl⟩

/-- C12: asynchronous TCP partial transfer.  An asynchronous TCP request (SEND or
RECV) with a user callback, over a buffer of `n` bytes and with `bytes_operated =
0`, is submitted with `srb_operate` to a reactor that accepts posts and whose slot
for the socket and the direction is free; the kernel then answers the dispatches
with would-block failures and positive counts, each at most the length that
remains, the last answer being the count that brings the total to `n`.  Then the
submission arms the slot, there is one dispatch per answer, each adds the count
of its answer to `bytes_operated` (nothing on would-block), after every dispatch
except the last the intent sits in the table again and no user callback is
made, the last dispatch leaves the slot empty and calls the user callback with
`err = 0` and `bytes_operated = n`: over all dispatches the user callback is
called exactly once, and `bytes_operated` ends at `n`. -/
theorem async_tcp_partial_transfer (iosvc : io_service) (srb : srb_t) (n : Nat)
    (rs : List syscall_result) (more_bytes stale : Int)
    (ht : srb.type = .EPT_TCP) (hok : srb_async_ok srb) (hb : srb.buffer = some n)
    (hn : n < 2 ^ 64) (hbo : srb.bytes_operated = 0) (hcb : srb.cb ≠ 0)
    (hinv : table_inv iosvc.lookup_table) (ha : iosvc.allow_new = true)
    (hfree : slot_at iosvc.lookup_table (ep_skt srb).skt (net_iosvc_op srb.op) = none)
    (hrs : partial_results n rs = true) :
    ∃ iosvc1 srb1, srb_operate iosvc srb = some (iosvc1, srb1)
      ∧ slot_at iosvc1.lookup_table (ep_skt srb).skt (net_iosvc_op srb.op) = some (srb_job srb)
      ∧ (srb_dispatches (ep_skt srb).skt more_bytes stale rs iosvc1 srb1).2.2.length = rs.length
      ∧ (srb_dispatches (ep_skt srb).skt more_bytes stale rs iosvc1 srb1).2.2.map
            (fun d => d.transferred) = rs.map (fun r => r.ret.toNat)
      ∧ (∀ d ∈ (srb_dispatches (ep_skt srb).skt more_bytes stale rs iosvc1 srb1).2.2.dropLast,
            d.reposted = true ∧ d.called = none)
      ∧ (srb_dispatches (ep_skt srb).skt more_bytes stale rs iosvc1 srb1).2.2.getLast?.map
            (fun d => (d.reposted, d.called))
          = some (false, some { err := 0, bytes_operated := n, has_more_bytes := size_add 0 more_bytes,
                                ctx := srb.ctx })
      ∧ (srb_dispatches (ep_skt srb).skt more_bytes stale rs iosvc1 srb1).2.2.filterMap
            (fun d => d.called)
          = [{ err := 0, bytes_operated := n, has_more_bytes := size_add 0 more_bytes, ctx := srb.ctx }]
      ∧ (srb_dispatches (ep_skt srb).skt more_bytes stale rs iosvc1 srb1).2.1.bytes_operated = n
      ∧ slot_at (srb_dispatches (ep_skt srb).skt more_bytes stale rs iosvc1 srb1).1.lookup_table
          (ep_skt srb).skt (net_iosvc_op srb.op) = none := by
  have harm : slot_at (io_service_post_job iosvc (ep_skt srb).skt (net_iosvc_op srb.op) true
      .tcp_send_recv_async_tpl srb.self).lookup_table (ep_skt srb).skt (net_iosvc_op srb.op)
      = some (srb_job srb) := by
    rw [srb_job_tcp srb ht]
    exact slot_at_post_same iosvc _ _ true _ _ ha (by simp) hfree
  have hrun := srb_dispatches_partial (ep_skt srb).skt more_bytes stale n hn rs
    (io_service_post_job iosvc (ep_skt srb).skt (net_iosvc_op srb.op) true
      .tcp_send_recv_async_tpl srb.self)
    { srb with iov_len := size_sub n srb.bytes_operated } ht hb (by rw [hbo]; exact Nat.zero_le n)
    hcb (table_inv_post iosvc _ _ true _ _ hinv)
    (by rw [(post_job_flags iosvc _ _ true _ _).1]; exact ha) harm
    (by rw [hbo, Nat.sub_zero]; exact hrs)
  exact ⟨_, _, srb_operate_tcp iosvc srb n ht hok hb, harm, hrun.1.1, hrun.1.2.2.2.1,
    hrun.1.2.1, hrun.1.2.2.1, hrun.1.2.2.2.2, hrun.2.1, hrun.2.2⟩

/-- Instance of C12: a send of 10 bytes answered 4, would-block, 4, would-block, 2. -/
theorem async_tcp_partial_transfer_witness :
    partial_results 10 ex_partial = true
      ∧ ∃ iosvc1 srb1, srb_operate ex_iosvc ex_srb = some (iosvc1, srb1)
        ∧ (srb_dispatches 5 0 0 ex_partial iosvc1 srb1).2.2.map (fun d => d.transferred)
            = [4, 0, 4, 0, 2]
        ∧ (srb_dispatches 5 0 0 ex_partial iosvc1 srb1).2.2.filterMap (fun d => d.called)
            = [{ err := 0, bytes_operated := 10, has_more_bytes := 0, ctx := 9 }]
        ∧ (srb_dispatches 5 0 0 ex_partial iosvc1 srb1).2.1.bytes_operated = 10 := by
  obtain ⟨iosvc1, srb1, h1, -, -, h4, -, -, h7, h8, -⟩ :=
    async_tcp_partial_transfer ex_iosvc ex_srb 10 ex_partial 0 0 rfl
      (by unfold srb_async_ok; decide) rfl (by decide) rfl (by decide) table_inv_nil rfl
      (by decide) (by decide)
  exact ⟨by decide, iosvc1, srb1, h1, h4, h7, h8⟩

end Chats
